import Mathlib

/-!
# ERB telemetry encoder (`src/erb.c`)

A shallow embedding of the ERB output routine `outerb` and of the routines it is
built from (`calculatesum`, `appendmessage`, the six payload builders).

Conventions of the embedding.

* A memory cell holds eight bits: it is a natural number, and every store reduces
  the stored value modulo 256.  Multi-byte integers are naturals reduced modulo
  `2^w`; a signed field is kept as its two's-complement bit pattern.
* The caller's buffer is the memory at the addresses from `buff` on.  The memory
  keeps, next to its contents, the list of the addresses stored to, in program
  order.
* `double` and `float` values are rationals.  The result of a floating operation
  is the exact result passed through the rounding function of the environment.
  Not-a-number and infinities are outside the model.
* The conversion of a floating value to an integer field drops the fraction
  (toward zero) and keeps the result modulo `2^w`.  For a value inside the range
  of the field this is the C conversion; outside the range C defines nothing,
  and the model keeps the low `w` bits.
* `rtklib.h` is not among the sources.  What `erb.c` takes from it (the solution
  record, the quality constants, `R2D`, and the helpers `time2gpst`, `ecef2pos`,
  `ecef2enu`, `geoidh`) is a parameter of the embedding, gathered in `Env`.
* Behaviour that C leaves undefined and that the code can reach (a read through a
  null base reference, an access outside the 32 satellite records) is a `Fault`.

The namespace `IERS` holds the embedding of `step2diu_`
(`lib/iers/src_c/step2diu.c`), with its own conventions, stated there.
-/

namespace ERB

/-! ## Constants of the protocol (erb.c, lines 11-28) -/

def ERB_SYNC_CHAR1 : Nat := 0x45
def ERB_SYNC_CHAR2 : Nat := 0x52
def ID_VER : Nat := 0x01
def ID_POS : Nat := 0x02
def ID_STAT : Nat := 0x03
def ID_DOPS : Nat := 0x04
def ID_VEL : Nat := 0x05
def ID_SVI : Nat := 0x06
def LENGTH_VER : Nat := 7
def LENGTH_POS : Nat := 44
def LENGTH_STAT : Nat := 37
def LENGTH_DOPS : Nat := 12
def LENGTH_VEL : Nat := 28
def LENGTH_SVI_HEAD : Nat := 5
def LENGTH_SVI_SV : Nat := 20
def VERSION_HIGH : Nat := 0
def VERSION_MEDIUM : Nat := 2
def VERSION_LOW : Nat := 0

/-! ## Machine integers and bytes -/

/-- The `n` bytes of the object representation of an unsigned integer, least
significant byte first (the host is little-endian). -/
def le : Nat → Nat → List Nat
  | 0, _ => []
  | n + 1, x => x % 256 :: le n (x / 256)

/-- Conversion of an integer value to an unsigned type of `w` bits; for a signed
type of `w` bits this is the two's-complement bit pattern. -/
def wrap (w : Nat) (z : Int) : Nat := (z % (2 ^ w : Int)).toNat

/-- Integral part of a real value, rounding toward zero: the conversion of a
floating value to an integer type, before the reduction to the width. -/
def trunc (x : ℚ) : Int := Int.tdiv x.num x.den

/-- The value of a `char` object holding the bits `b`: `0..255` when `char` is
unsigned, `-128..127` when it is signed. -/
def charValue (signedChar : Bool) (b : Nat) : Int :=
  if signedChar && decide (128 ≤ b % 256) then (b % 256 : Int) - 256 else (b % 256 : Int)

/-! ## Memory -/

/-- Memory seen from the encoder: the byte at every address, and the addresses
stored to so far, oldest first. -/
structure Mem where
  byte : Nat → Nat
  log : List Nat

/-- Store of one byte. -/
def Mem.store (m : Mem) (a v : Nat) : Mem :=
  { byte := fun x => if x = a then v % 256 else m.byte x, log := m.log ++ [a] }

/-- Store of consecutive bytes, ascending from `a`. -/
def Mem.storeList (m : Mem) (a : Nat) : List Nat → Mem
  | [] => m
  | v :: vs => (m.store a v).storeList (a + 1) vs

/-- The `n` bytes at `a`, `a+1`, ... -/
def Mem.read (m : Mem) (a n : Nat) : List Nat :=
  (List.range n).map fun i => m.byte (a + i)

/-- `sprintf(p, "%c...%c", cs)`: every argument is converted to `unsigned char`
and stored, a terminating zero byte is stored after the last one, and the result
is the number of characters without the terminator. -/
def sprintf (m : Mem) (p : Nat) (cs : List Nat) : Mem × Nat :=
  (m.storeList p (cs ++ [0]), cs.length)

/-- `memcpy(p, src, n)` from a local array into the memory. -/
def memcpy (m : Mem) (p : Nat) (src : Nat → Nat) (n : Nat) : Mem :=
  m.storeList p ((List.range n).map src)

/-- `memcpy(dst + off, bytes, bytes.length)` into a local array. -/
def fill (dst : Nat → Nat) (off : Nat) (bytes : List Nat) : Nat → Nat :=
  fun i => if off ≤ i ∧ i < off + bytes.length then bytes.getD (i - off) 0 % 256 else dst i

/-! ## Checksum (erb.c, lines 116-126) -/

/-- The loop of `calculatesum`: `n` iterations from index `i`. -/
def calculatesum.loop (signedChar : Bool) (buff : Nat → Nat) :
    Nat → Nat → Nat → Nat → Nat × Nat
  | 0, _, cka, ckb => (cka, ckb)
  | n + 1, i, cka, ckb =>
    let cka1 := wrap 8 ((cka : Int) + charValue signedChar (buff i))
    let ckb1 := wrap 8 ((ckb : Int) + (cka1 : Int))
    calculatesum.loop signedChar buff n (i + 1) cka1 ckb1

/-- `calculatesum(buff, len, &cka, &ckb)`: the pair `(cka, ckb)` left in the two
output bytes.  The loop runs for `i = 2, ..., len - 1`. -/
def calculatesum (signedChar : Bool) (buff : Nat → Nat) (len : Int) : Nat × Nat :=
  calculatesum.loop signedChar buff (len - 2).toNat 2 0 0

/-! ## Frame writer (erb.c, lines 279-289) -/

/-- `appendmessage(&p, mesID, payload, length)`: the memory and the cursor after
the call. -/
def appendmessage (signedChar : Bool) (m : Mem) (p : Nat) (mesID : Nat)
    (payload : Nat → Nat) (length : Nat) : Mem × Nat :=
  let r1 := sprintf m p [ERB_SYNC_CHAR1, ERB_SYNC_CHAR2]
  let p1 := p + r1.2
  let r2 := sprintf r1.1 p1 [mesID]
  let p2 := p1 + r2.2
  let r3 := sprintf r2.1 p2 [length, length >>> 8]
  let p3 := p2 + r3.2
  let m4 := memcpy r3.1 p3 payload length
  let p4 := p3 + length
  let ck := calculatesum signedChar (fun i => m4.byte (p4 - (length + 5) + i)) ((length : Int) + 5)
  let r5 := sprintf m4 p4 [ck.1, ck.2]
  (r5.1, p4 + r5.2)

/-! ## Data model (declarations of rtklib.h read by erb.c) -/

/-- The time type `gtime_t`: whole seconds (`time_t`) and the fraction. -/
structure gtime_t where
  time : Int
  sec : ℚ

/-- The fields of the solution record `sol_t` that erb.c reads.  Arrays are
functions of the index.  `rr`, `sec`, `dop` are `double`; `qr`, `age`, `ratio`
are `float`; `type`, `stat`, `ns`, `nSV` are unsigned counts.  The per-satellite
arrays are kept as real values, which covers an integer as well as a floating
declaration. -/
structure sol_t where
  time : gtime_t
  rr : Nat → ℚ
  qr : Nat → ℚ
  type : Nat
  stat : Nat
  ns : Nat
  age : ℚ
  ratio : ℚ
  dop : Nat → ℚ
  nSV : Nat
  idSV : Nat → ℚ
  typeSV : Nat → ℚ
  carPh : Nat → ℚ
  psRan : Nat → ℚ
  freqD : Nat → ℚ
  snr : Nat → ℚ
  azim : Nat → ℚ
  elev : Nat → ℚ

/-- What erb.c takes from its platform and from rtklib: whether `char` is
signed, the rounding of an exact result to `double` and to `float`, the library
functions `sqrt` and `atan2`, the eight-byte representation of a `double` (as a
number below `2^64`), the constant `R2D`, the solution-quality constants, and
the helpers `time2gpst` (time of week and week), `ecef2pos`, `ecef2enu`,
`geoidh`. -/
structure Env where
  charSigned : Bool
  rnd64 : ℚ → ℚ
  rnd32 : ℚ → ℚ
  sqrt : ℚ → ℚ
  atan2 : ℚ → ℚ → ℚ
  bits64 : ℚ → Nat
  R2D : ℚ
  SOLQ_NONE : Nat
  SOLQ_DR : Nat
  SOLQ_SINGLE : Nat
  SOLQ_FLOAT : Nat
  SOLQ_FIX : Nat
  time2gpst : gtime_t → ℚ × Int
  ecef2pos : (Nat → ℚ) → (Nat → ℚ)
  ecef2enu : (Nat → ℚ) → (Nat → ℚ) → (Nat → ℚ)
  geoidh : (Nat → ℚ) → ℚ

/-- Behaviour the C language leaves undefined, reached by the code: a read
through a null base reference, or an access to `sviSat[i]` outside the 32
declared records.  A fault is not a value the code returns. -/
inductive Fault where
  | nullBase : Fault
  | sviSatIndex : Nat → Fault
  deriving DecidableEq, Repr

/-- The macro `SQRT(x)` (erb.c, line 8). -/
def SQRT (E : Env) (x : ℚ) : ℚ := if x < 0 then 0 else E.sqrt x

/-! ## Packed message structures (erb.c, lines 31-113)

Integer fields hold bit patterns; `bytes` is the object representation of the
packed structure on a little-endian host. -/

structure erb_ver where
  timeGPS : Nat
  verH : Nat
  verM : Nat
  verL : Nat

structure erb_pos where
  timeGPS : Nat
  lng : ℚ
  lat : ℚ
  altEl : ℚ
  altMsl : ℚ
  accHor : Nat
  accVer : Nat

structure erb_stat where
  timeGPS : Nat
  weekGPS : Nat
  fixType : Nat
  fixStatus : Nat
  numSV : Nat
  base_num_sats : Nat
  age_cs : Nat
  baseline_N_mm : Nat
  baseline_E_mm : Nat
  baseline_D_mm : Nat
  ar_ratio : Nat
  base_week_number : Nat
  base_time_week_ms : Nat
  iar_num_hypotheses : Nat
  num_leap_seconds : Nat

structure erb_dops where
  timeGPS : Nat
  dopGeo : Nat
  dopPos : Nat
  dopVer : Nat
  dopHor : Nat

structure erb_vel where
  timeGPS : Nat
  velN : Nat
  velE : Nat
  velD : Nat
  speed : Nat
  heading : Nat
  accS : Nat

structure erb_svi_head where
  timeGPS : Nat
  nSV : Nat

structure erb_svi_sat where
  idSV : Nat
  typeSV : Nat
  carPh : Nat
  psRan : Nat
  freqD : Nat
  snr : Nat
  azim : Nat
  elev : Nat

def erb_ver.bytes (s : erb_ver) : List Nat :=
  le 4 s.timeGPS ++ le 1 s.verH ++ le 1 s.verM ++ le 1 s.verL

def erb_pos.bytes (E : Env) (s : erb_pos) : List Nat :=
  le 4 s.timeGPS ++ le 8 (E.bits64 s.lng) ++ le 8 (E.bits64 s.lat) ++
    le 8 (E.bits64 s.altEl) ++ le 8 (E.bits64 s.altMsl) ++ le 4 s.accHor ++ le 4 s.accVer

def erb_stat.bytes (s : erb_stat) : List Nat :=
  le 4 s.timeGPS ++ le 2 s.weekGPS ++ le 1 s.fixType ++ le 1 s.fixStatus ++ le 1 s.numSV ++
    le 1 s.base_num_sats ++ le 2 s.age_cs ++ le 4 s.baseline_N_mm ++ le 4 s.baseline_E_mm ++
    le 4 s.baseline_D_mm ++ le 2 s.ar_ratio ++ le 2 s.base_week_number ++
    le 4 s.base_time_week_ms ++ le 4 s.iar_num_hypotheses ++ le 1 s.num_leap_seconds

def erb_dops.bytes (s : erb_dops) : List Nat :=
  le 4 s.timeGPS ++ le 2 s.dopGeo ++ le 2 s.dopPos ++ le 2 s.dopVer ++ le 2 s.dopHor

def erb_vel.bytes (s : erb_vel) : List Nat :=
  le 4 s.timeGPS ++ le 4 s.velN ++ le 4 s.velE ++ le 4 s.velD ++ le 4 s.speed ++
    le 4 s.heading ++ le 4 s.accS

def erb_svi_head.bytes (s : erb_svi_head) : List Nat :=
  le 4 s.timeGPS ++ le 1 s.nSV

def erb_svi_sat.bytes (s : erb_svi_sat) : List Nat :=
  le 1 s.idSV ++ le 1 s.typeSV ++ le 4 s.carPh ++ le 4 s.psRan ++ le 4 s.freqD ++
    le 2 s.snr ++ le 2 s.azim ++ le 2 s.elev

/-- The first `n` records of the array `sviSat` as they lie in memory. -/
def sviSatBytes (sviSat : Nat → erb_svi_sat) (n : Nat) : List Nat :=
  ((List.range n).map fun i => (sviSat i).bytes).flatten

/-! ## Payload builders (erb.c, lines 128-277)

Every builder receives the scratch array `payload` and its message structure by
value, as the caller left them, assigns the fields and copies the first `LENGTH`
bytes of the structure to the start of `payload`.  The result is the scratch
array after the call. -/

/-- `buildver` (erb.c, lines 128-136). -/
def buildver (payload : Nat → Nat) (version : erb_ver) (time verH verM verL : Nat) :
    Nat → Nat :=
  let version := { version with timeGPS := time % 2 ^ 32 }
  let version := { version with verH := verH % 256 }
  let version := { version with verM := verM % 256 }
  let version := { version with verL := verL % 256 }
  fill payload 0 (version.bytes.take LENGTH_VER)

/-- `buildpos` (erb.c, lines 138-159). -/
def buildpos (E : Env) (payload : Nat → Nat) (position : erb_pos) (time : Nat)
    (sol : sol_t) : Nat → Nat :=
  let pos := E.ecef2pos sol.rr
  let stdX2 : ℚ :=
    if sol.stat ≠ E.SOLQ_NONE ∧ sol.stat ≠ E.SOLQ_DR ∧ sol.qr 0 > 0 then sol.qr 0 else 0
  let stdY2 : ℚ :=
    if sol.stat ≠ E.SOLQ_NONE ∧ sol.stat ≠ E.SOLQ_DR ∧ sol.qr 1 > 0 then sol.qr 1 else 0
  let stdZ2 : ℚ :=
    if sol.stat ≠ E.SOLQ_NONE ∧ sol.stat ≠ E.SOLQ_DR ∧ sol.qr 2 > 0 then sol.qr 2 else 0
  let position := { position with timeGPS := time % 2 ^ 32 }
  let position := { position with lng := E.rnd64 (pos 1 * E.R2D) }
  let position := { position with lat := E.rnd64 (pos 0 * E.R2D) }
  let position := { position with altEl := pos 2 }
  let position := { position with altMsl := E.rnd64 (pos 2 - E.geoidh pos) }
  let sumXY : ℚ := E.rnd32 (stdX2 + stdY2)
  let position := { position with accHor := wrap 32 (trunc (E.rnd64 (1000 * SQRT E sumXY))) }
  let position := { position with accVer := wrap 32 (trunc (E.rnd64 (1000 * SQRT E stdZ2))) }
  fill payload 0 ((position.bytes E).take LENGTH_POS)

/-- `buildstat` (erb.c, lines 161-224).  The base reference `rb` is read only
when the solution is of type 0 (xyz-ecef); it is then read through the pointer,
which faults when the pointer is null.  The conversions of the baseline
components to `int32_t` (lines 218-220) are those of C for a value inside the
range of the type only; a statement about the value of these fields carries the
range as a hypothesis. -/
def buildstat (E : Env) (payload : Nat → Nat) (status : erb_stat) (time week : Nat)
    (sol : sol_t) (rb : Option (Nat → ℚ)) : Except Fault (Nat → Nat) := do
  let fix : Nat × Nat :=
    if sol.stat = E.SOLQ_SINGLE then (0x01, 0x01)
    else if sol.stat = E.SOLQ_FLOAT then (0x01, 0x02)
    else if sol.stat = E.SOLQ_FIX then (0x01, 0x03)
    else (0x00, 0x00)
  let fixStatus := fix.1
  let fixType := fix.2
  let status := { status with timeGPS := time % 2 ^ 32 }
  let status := { status with weekGPS := week % 2 ^ 16 }
  let status := { status with fixType := fixType }
  let status := { status with fixStatus := fixStatus }
  let status := { status with numSV := sol.nSV % 256 }
  let baseline_enu : Nat → ℚ ←
    if sol.type = 0 then
      match rb with
      | none => throw Fault.nullBase
      | some rb =>
        let pos := E.ecef2pos rb
        let baseline_ecef : Nat → ℚ := fun i => E.rnd64 (sol.rr i - rb i)
        pure (E.ecef2enu pos baseline_ecef)
    else
      pure (fun i => sol.rr i)
  let status := { status with base_num_sats := sol.ns % 256 }
  let time_sec : ℚ := E.rnd64 (E.rnd64 (E.rnd64 (sol.time.time : ℚ) + sol.time.sec) - sol.age)
  let tlb_time : Int := trunc time_sec
  let tlb_sec : ℚ := E.rnd64 (time_sec - E.rnd64 (tlb_time : ℚ))
  let r := E.time2gpst { time := tlb_time, sec := tlb_sec }
  let tow_ms : Nat := wrap 32 (trunc r.1)
  let week_number : Int := r.2
  let status := { status with base_week_number := wrap 16 week_number }
  let status := { status with base_time_week_ms := tow_ms }
  let status := { status with iar_num_hypotheses := 0 }
  let status := { status with num_leap_seconds := 0x7F }
  let status := { status with baseline_N_mm := wrap 32 (trunc (E.rnd64 (1000 * baseline_enu 1))) }
  let status := { status with baseline_E_mm := wrap 32 (trunc (E.rnd64 (1000 * baseline_enu 0))) }
  let status := { status with baseline_D_mm := wrap 32 (trunc (E.rnd64 (-1000 * baseline_enu 2))) }
  let status := { status with age_cs := wrap 16 (trunc (E.rnd32 (100 * sol.age))) }
  let status := { status with ar_ratio := wrap 16 (trunc (E.rnd32 (10 * sol.ratio))) }
  pure (fill payload 0 (status.bytes.take LENGTH_STAT))

/-- `builddops` (erb.c, lines 226-235). -/
def builddops (E : Env) (payload : Nat → Nat) (dops : erb_dops) (time : Nat)
    (sol : sol_t) : Nat → Nat :=
  let dops := { dops with timeGPS := time % 2 ^ 32 }
  let dops := { dops with dopGeo := wrap 16 (trunc (E.rnd64 (100 * sol.dop 0))) }
  let dops := { dops with dopPos := wrap 16 (trunc (E.rnd64 (100 * sol.dop 1))) }
  let dops := { dops with dopHor := wrap 16 (trunc (E.rnd64 (100 * sol.dop 2))) }
  let dops := { dops with dopVer := wrap 16 (trunc (E.rnd64 (100 * sol.dop 3))) }
  fill payload 0 (dops.bytes.take LENGTH_DOPS)

/-- `buildvel` (erb.c, lines 237-253). -/
def buildvel (E : Env) (payload : Nat → Nat) (velocity : erb_vel) (time : Nat)
    (sol : sol_t) : Nat → Nat :=
  let pos := E.ecef2pos sol.rr
  let vel := E.ecef2enu pos (fun i => sol.rr (3 + i))
  let velocity := { velocity with timeGPS := time % 2 ^ 32 }
  let velocity := { velocity with velN := wrap 32 (trunc (E.rnd64 (100 * vel 1))) }
  let velocity := { velocity with velE := wrap 32 (trunc (E.rnd64 (100 * vel 0))) }
  let velocity := { velocity with velD := wrap 32 (trunc (E.rnd64 (100 * -vel 2))) }
  let sumsq : ℚ := E.rnd64 (E.rnd64 (vel 0 * vel 0) + E.rnd64 (vel 1 * vel 1))
  let velocity := { velocity with speed := wrap 32 (trunc (E.rnd64 (100 * SQRT E sumsq))) }
  let deg : ℚ := E.rnd64 (E.atan2 (vel 0) (vel 1) * E.R2D)
  let velocity := { velocity with heading := wrap 32 (trunc (E.rnd64 (deg * 100000))) }
  let velocity := { velocity with accS := 0x00 }
  fill payload 0 (velocity.bytes.take LENGTH_VEL)

/-- The record `sviSat[i]` after the body of the loop of `buildsvi`. -/
def buildsvi.sat (E : Env) (sol : sol_t) (s : erb_svi_sat) (i : Nat) : erb_svi_sat :=
  let s := { s with idSV := wrap 8 (trunc (sol.idSV i)) }
  let s := { s with typeSV := wrap 8 (trunc (sol.typeSV i)) }
  let s := { s with carPh := wrap 32 (trunc (sol.carPh i)) }
  let s := { s with psRan := wrap 32 (trunc (sol.psRan i)) }
  let s := { s with freqD := wrap 32 (trunc (E.rnd64 (sol.freqD i * 1000))) }
  let s := { s with snr := wrap 16 (trunc (sol.snr i)) }
  let s := { s with azim := wrap 16 (trunc (E.rnd64 (sol.azim i * 10))) }
  let s := { s with elev := wrap 16 (trunc (E.rnd64 (sol.elev i * 10))) }
  s

/-- The loop of `buildsvi`: `n` iterations from index `i`.  The array `sviSat`
has 32 records; an access at an index of 32 or more is a fault. -/
def buildsvi.loop (E : Env) (sol : sol_t) :
    Nat → Nat → (Nat → erb_svi_sat) → Except Fault (Nat → erb_svi_sat)
  | 0, _, sviSat => pure sviSat
  | n + 1, i, sviSat =>
    if 32 ≤ i then throw (Fault.sviSatIndex i)
    else buildsvi.loop E sol n (i + 1)
      (fun j => if j = i then buildsvi.sat E sol (sviSat i) i else sviSat j)

/-- `buildsvi` (erb.c, lines 255-277): the scratch array after the call and the
returned payload length. -/
def buildsvi (E : Env) (payload : Nat → Nat) (sviHead : erb_svi_head)
    (sviSat : Nat → erb_svi_sat) (time : Nat) (sol : sol_t) :
    Except Fault ((Nat → Nat) × Nat) := do
  let nSV := sol.nSV
  let sviHead := { sviHead with timeGPS := time % 2 ^ 32 }
  let sviHead := { sviHead with nSV := nSV % 256 }
  let payload := fill payload 0 (sviHead.bytes.take LENGTH_SVI_HEAD)
  let sviSat ← buildsvi.loop E sol nSV 0 sviSat
  let payload := fill payload LENGTH_SVI_HEAD (sviSatBytes sviSat nSV)
  pure (payload, LENGTH_SVI_HEAD + nSV * LENGTH_SVI_SV)

/-! ## Encoder (erb.c, lines 291-333) -/

/-- The automatic variables of `outerb` that are declared without an
initialiser: their contents at entry are whatever the stack holds. -/
structure Locals where
  payload : Nat → Nat
  version : erb_ver
  position : erb_pos
  status : erb_stat
  dops : erb_dops
  velocity : erb_vel
  sviHead : erb_svi_head
  sviSat : Nat → erb_svi_sat

/-- What a completed call of `outerb` leaves: the memory, the final cursor `p`
and the returned value `p - buff`. -/
structure Outcome where
  mem : Mem
  p : Nat
  ret : Nat

/-- `outerb(buff, sol, rb)` (erb.c, lines 291-333), started with the locals `L`
and the memory `m`. -/
def outerb (E : Env) (L : Locals) (m : Mem) (buff : Nat) (sol : sol_t)
    (rb : Option (Nat → ℚ)) : Except Fault Outcome := do
  let p := buff
  let time := sol.time
  let r := E.time2gpst time
  let week : Int := r.2
  let gpst : Nat := wrap 32 (trunc (E.rnd64 (r.1 * 1000)))
  let payload := buildver L.payload L.version gpst VERSION_HIGH VERSION_MEDIUM VERSION_LOW
  let s := appendmessage E.charSigned m p ID_VER payload LENGTH_VER
  let payload := buildpos E payload L.position gpst sol
  let s := appendmessage E.charSigned s.1 s.2 ID_POS payload LENGTH_POS
  let payload ← buildstat E payload L.status gpst (wrap 16 week) sol rb
  let s := appendmessage E.charSigned s.1 s.2 ID_STAT payload LENGTH_STAT
  let payload := builddops E payload L.dops gpst sol
  let s := appendmessage E.charSigned s.1 s.2 ID_DOPS payload LENGTH_DOPS
  let payload := buildvel E payload L.velocity gpst sol
  let s := appendmessage E.charSigned s.1 s.2 ID_VEL payload LENGTH_VEL
  let r ← buildsvi E payload L.sviHead L.sviSat gpst sol
  let s := appendmessage E.charSigned s.1 s.2 ID_SVI r.1 r.2
  pure { mem := s.1, p := s.2, ret := s.2 - buff }

/-! ## Reading the output

The definitions below are not part of the code.  They say what is observed of
a call: the frame bytes, the checksum as section 4.1 of the specification words
it, and the frame walk of section 8. -/

/-- The memory function `f` with the bytes `vs` laid over it from address `a`. -/
def overlay (f : Nat → Nat) (a : Nat) (vs : List Nat) : Nat → Nat :=
  fun x => if a ≤ x ∧ x < a + vs.length then vs.getD (x - a) 0 else f x

/-- One update of the checksum of section 4.1 by a byte: `cka = (cka + byte) mod
256`, and then `ckb = (ckb + cka) mod 256` with the new `cka`. -/
def ckStep (c : Nat × Nat) (b : Nat) : Nat × Nat :=
  ((c.1 + b) % 256, (c.2 + (c.1 + b) % 256) % 256)

/-- The checksum of section 4.1 over a list of bytes: from `(0, 0)`, one update
for each byte in order. -/
def fletcher (bs : List Nat) : Nat × Nat := bs.foldl ckStep (0, 0)

/-- The bytes `src 0, ..., src (n-1)` of a local array, as stored in memory. -/
def bytesOf (src : Nat → Nat) (n : Nat) : List Nat :=
  (List.range n).map fun i => src i % 256

/-- The checksummed region of the frame of a payload: id byte, the two bytes of
the payload length, the payload. -/
def covered (mesID : Nat) (payload : List Nat) : List Nat :=
  [mesID % 256, payload.length % 256, payload.length / 256 % 256] ++ payload

/-- The frame of a payload: the sync bytes, the checksummed region, and the two
checksum bytes over that region. -/
def frameBytes (mesID : Nat) (payload : List Nat) : List Nat :=
  [ERB_SYNC_CHAR1, ERB_SYNC_CHAR2] ++ covered mesID payload ++
    [(fletcher (covered mesID payload)).1, (fletcher (covered mesID payload)).2]

/-- The addresses `appendmessage` stores to, in order, for a payload of `n`
bytes written at `p`: each `sprintf` stores its characters and a terminator. -/
def frameLog (p n : Nat) : List Nat :=
  (List.range 3).map (p + ·) ++ (List.range 2).map (p + 2 + ·) ++
    (List.range 3).map (p + 2 + 1 + ·) ++ (List.range n).map (p + 2 + 1 + 2 + ·) ++
    (List.range 3).map (p + 2 + 1 + 2 + n + ·)

/-- One frame found by the walk: where it starts, its id, the value of its
length field, the bytes `[2, 5 + Len)` of the frame, and its last two bytes. -/
structure Frame where
  offset : Nat
  id : Nat
  len : Nat
  region : List Nat
  cka : Nat
  ckb : Nat
  deriving DecidableEq, Repr

/-- The frame walk: at `off`, two sync bytes `0x45 0x52`, an id byte, a 16-bit
little-endian length `Len`, `Len` payload bytes and two checksum bytes; then the
same again right after, until the bytes are used up.  `none` when the bytes do not
split this way.  The first argument bounds the number of frames. -/
def walk : Nat → Nat → List Nat → Option (List Frame)
  | _, _, [] => some []
  | 0, _, _ :: _ => none
  | fuel + 1, off, s1 :: s2 :: id :: lo :: hi :: rest =>
    if s1 = 0x45 ∧ s2 = 0x52 ∧ lo + 256 * hi + 2 ≤ rest.length then
      (walk fuel (off + (lo + 256 * hi) + 7) (rest.drop (lo + 256 * hi + 2))).map fun fs =>
        { offset := off, id := id, len := lo + 256 * hi,
          region := id :: lo :: hi :: rest.take (lo + 256 * hi),
          cka := rest.getD (lo + 256 * hi) 0, ckb := rest.getD (lo + 256 * hi + 1) 0 } :: fs
    else none
  | _ + 1, _, _ :: _ => none

/-- The frames of a byte string, walking from offset 0.  A frame has at least
seven bytes, so the number of bytes bounds the number of frames. -/
def parse (bs : List Nat) : Option (List Frame) := walk bs.length 0 bs

/-- The bytes a completed call reports as written: `ret` bytes from `buff`. -/
def Outcome.output (buff : Nat) (o : Outcome) : List Nat := o.mem.read buff o.ret

/-- The time of the solution in milliseconds of the week, as `outerb` derives it
at its start (erb.c, line 310). -/
def gpstOf (E : Env) (sol : sol_t) : Nat :=
  wrap 32 (trunc (E.rnd64 ((E.time2gpst sol.time).1 * 1000)))

/-- The instant of the last baseline as `buildstat` derives it (erb.c, lines
208-210): the epoch of the solution less the age, split again into whole seconds
and fraction. -/
def lastBaseline (E : Env) (sol : sol_t) : gtime_t :=
  let time_sec : ℚ := E.rnd64 (E.rnd64 (E.rnd64 (sol.time.time : ℚ) + sol.time.sec) - sol.age)
  let tlb_time : Int := trunc time_sec
  { time := tlb_time, sec := E.rnd64 (time_sec - E.rnd64 (tlb_time : ℚ)) }

/-- The value of a 32-bit two's-complement bit pattern. -/
def int32 (x : Nat) : Int := if x < 2 ^ 31 then (x : Int) else (x : Int) - 2 ^ 32

/-- The buffer `buff` with the contents of the cells `i` and `i + 1` exchanged. -/
def exchange (buff : Nat → Nat) (i : Nat) : Nat → Nat :=
  fun k => if k = i then buff (i + 1) else if k = i + 1 then buff i else buff k

/-- Locals holding zero everywhere. -/
def zeroLocals : Locals where
  payload := fun _ => 0
  version := ⟨0, 0, 0, 0⟩
  position := ⟨0, 0, 0, 0, 0, 0, 0⟩
  status := ⟨0, 0, 0, 0, 0, 0, 0, 0, 0, 0, 0, 0, 0, 0, 0⟩
  dops := ⟨0, 0, 0, 0, 0⟩
  velocity := ⟨0, 0, 0, 0, 0, 0, 0⟩
  sviHead := ⟨0, 0⟩
  sviSat := fun _ => ⟨0, 0, 0, 0, 0, 0, 0, 0⟩

/-- A memory holding zero everywhere, nothing stored yet. -/
def zeroMem : Mem := { byte := fun _ => 0, log := [] }

/-- The content of the VERSION payload: what `buildver` leaves in the first
`LENGTH_VER` bytes of the scratch array. -/
def verPayload (gpst : Nat) : List Nat :=
  bytesOf (buildver zeroLocals.payload zeroLocals.version gpst VERSION_HIGH VERSION_MEDIUM
    VERSION_LOW) LENGTH_VER

/-- The content of the POSITION payload, from `buildpos`. -/
def posPayload (E : Env) (gpst : Nat) (sol : sol_t) : List Nat :=
  bytesOf (buildpos E zeroLocals.payload zeroLocals.position gpst sol) LENGTH_POS

/-- The content of the STATUS payload, from `buildstat`, or its fault. -/
def statPayload (E : Env) (gpst week : Nat) (sol : sol_t) (rb : Option (Nat → ℚ)) :
    Except Fault (List Nat) :=
  (buildstat E zeroLocals.payload zeroLocals.status gpst week sol rb).map
    fun pl => bytesOf pl LENGTH_STAT

/-- The content of the DOPS payload, from `builddops`. -/
def dopsPayload (E : Env) (gpst : Nat) (sol : sol_t) : List Nat :=
  bytesOf (builddops E zeroLocals.payload zeroLocals.dops gpst sol) LENGTH_DOPS

/-- The content of the VELOCITY payload, from `buildvel`. -/
def velPayload (E : Env) (gpst : Nat) (sol : sol_t) : List Nat :=
  bytesOf (buildvel E zeroLocals.payload zeroLocals.velocity gpst sol) LENGTH_VEL

/-- The content of the SAT-INFO payload, from `buildsvi`, or its fault. -/
def sviPayload (E : Env) (gpst : Nat) (sol : sol_t) : Except Fault (List Nat) :=
  (buildsvi E zeroLocals.payload zeroLocals.sviHead zeroLocals.sviSat gpst sol).map
    fun r => bytesOf r.1 r.2

/-- The six frames of one epoch, in the order `outerb` appends them; a fault of a
builder is the fault of the whole. -/
def encode (E : Env) (sol : sol_t) (rb : Option (Nat → ℚ)) : Except Fault (List Nat) := do
  let gpst := gpstOf E sol
  let stat ← statPayload E gpst (wrap 16 (E.time2gpst sol.time).2) sol rb
  let svi ← sviPayload E gpst sol
  pure (frameBytes ID_VER (verPayload gpst) ++ frameBytes ID_POS (posPayload E gpst sol) ++
    frameBytes ID_STAT stat ++ frameBytes ID_DOPS (dopsPayload E gpst sol) ++
    frameBytes ID_VEL (velPayload E gpst sol) ++ frameBytes ID_SVI svi)

/-- The addresses `outerb` stores to, in order, for `nSV` satellites. -/
def outerbLog (buff nSV : Nat) : List Nat :=
  frameLog buff LENGTH_VER ++ frameLog (buff + 14) LENGTH_POS ++
    frameLog (buff + 65) LENGTH_STAT ++ frameLog (buff + 109) LENGTH_DOPS ++
    frameLog (buff + 128) LENGTH_VEL ++
    frameLog (buff + 163) (LENGTH_SVI_HEAD + nSV * LENGTH_SVI_SV)

/-! ## Concrete inputs

An environment and inputs on which the embedding is evaluated.  The arithmetic
of `sampleEnv` is exact, `char` is signed, the quality constants and `time2gpst`
are those of RTKLIB; the geodetic helpers are stand-ins, and what is evaluated
below does not depend on them. -/

def sampleEnv : Env where
  charSigned := true
  rnd64 := fun x => x
  rnd32 := fun x => x
  sqrt := fun x => (Nat.sqrt (trunc x).toNat : ℚ)
  atan2 := fun _ _ => 0
  bits64 := fun x => (trunc x).toNat
  R2D := 57
  SOLQ_NONE := 0
  SOLQ_DR := 7
  SOLQ_SINGLE := 5
  SOLQ_FLOAT := 2
  SOLQ_FIX := 1
  time2gpst := fun t =>
    (((t.time - 315964800) - (t.time - 315964800).tdiv 604800 * 604800 : Int) + t.sec,
      (t.time - 315964800).tdiv 604800)
  ecef2pos := fun r => r
  ecef2enu := fun _ r => r
  geoidh := fun _ => 0

/-- A solution of the given type with `nSV` satellites numbered from 1, fix
quality SINGLE, at GPS week 2000, second 0 of the week. -/
def sampleSol (type nSV : Nat) : sol_t where
  time := { time := 315964800 + 2000 * 604800, sec := 0 }
  rr := fun i => if i < 3 then (i : ℚ) + 1 else 0
  qr := fun _ => 0
  type := type
  stat := 5
  ns := nSV
  age := 0
  ratio := 0
  dop := fun _ => 0
  nSV := nSV
  idSV := fun i => (i : ℚ) + 1
  typeSV := fun _ => 0
  carPh := fun _ => 0
  psRan := fun _ => 0
  freqD := fun _ => 0
  snr := fun _ => 0
  azim := fun _ => 0
  elev := fun _ => 0

/-- An enu-baseline solution with a correction age of 700 s. -/
def agedSol : sol_t := { sampleSol 1 0 with age := 700 }

/-- An enu-baseline solution at second 100 of GPS week 2000, with a correction
age of 0. -/
def laterSol : sol_t :=
  { sampleSol 1 0 with time := { time := 315964800 + 2000 * 604800 + 100, sec := 0 } }

/-- A solution with the DOPs 1.5 (geometric), 1.2 (position), 0.9 (horizontal)
and 0.8 (vertical). -/
def dopSol : sol_t :=
  { sampleSol 0 1 with
    dop := fun k => if k = 0 then 3 / 2 else if k = 1 then 6 / 5 else if k = 2 then 9 / 10
      else 4 / 5 }

/-- An enu-baseline solution 1.5 mm South, 2.5 mm East and 0.5 mm above the
base. -/
def nearSol : sol_t :=
  { sampleSol 1 1 with
    rr := fun k => if k = 0 then 25 / 10000 else if k = 1 then -15 / 10000 else 5 / 10000 }

/-- A solution moving due East at 1 m/s. -/
def eastSol : sol_t := { sampleSol 0 1 with rr := fun k => if k = 3 then 1 else 0 }

/-- The sample environment with an `atan2` that returns the quarter turn
`90 / R2D` for a positive first and a zero second argument, and zero
otherwise. -/
def compassEnv : Env :=
  { sampleEnv with atan2 := fun x y => if 0 < x ∧ y = 0 then 90 / 57 else 0 }

/-- A base reference at the origin. -/
def sampleBase : Nat → ℚ := fun _ => 0

end ERB

namespace IERS

/-! ## Diurnal-band tide correction (lib/iers/src_c/step2diu.c)

`step2diu_` is f2c output.  `doublereal` is `double`, `integer` is a machine
integer wide enough for every value the loop counters take, kept as an integer
without a bound.  An array parameter is the function of its index after the
parameter adjustment (`--xsta`, `--xcorsta`): the elements are at 1, 2, 3.  A
read of the constant table `datdi` outside its 279 entries is a `Trap`.  Next to
the values the code computes, a run keeps which entries of the table each pass
of the main loop read. -/

/-- The platform of `step2diu_`: the rounding of an exact result to `double`,
the library functions `sqrt`, `atan2`, `sin`, `cos`, and `d_mod` of libf2c. -/
structure Libm where
  rnd : ℚ → ℚ
  sqrt : ℚ → ℚ
  atan2 : ℚ → ℚ → ℚ
  sin : ℚ → ℚ
  cos : ℚ → ℚ
  d_mod : ℚ → ℚ → ℚ

/-- A `doublereal` value on the platform `P`. -/
structure Dbl (P : Libm) where
  val : ℚ

instance (P : Libm) : Add (Dbl P) := ⟨fun a b => ⟨P.rnd (a.val + b.val)⟩⟩

instance (P : Libm) : Sub (Dbl P) := ⟨fun a b => ⟨P.rnd (a.val - b.val)⟩⟩

instance (P : Libm) : Mul (Dbl P) := ⟨fun a b => ⟨P.rnd (a.val * b.val)⟩⟩

instance (P : Libm) : Div (Dbl P) := ⟨fun a b => ⟨P.rnd (a.val / b.val)⟩⟩

instance (P : Libm) : Neg (Dbl P) := ⟨fun a => ⟨-a.val⟩⟩

instance (P : Libm) (n : Nat) : OfNat (Dbl P) n := ⟨⟨P.rnd n⟩⟩

instance (P : Libm) : OfScientific (Dbl P) :=
  ⟨fun m s e => ⟨P.rnd (OfScientific.ofScientific m s e)⟩⟩

def Dbl.sqrt {P : Libm} (x : Dbl P) : Dbl P := ⟨P.sqrt x.val⟩

def Dbl.atan2 {P : Libm} (y x : Dbl P) : Dbl P := ⟨P.atan2 y.val x.val⟩

def Dbl.sin {P : Libm} (x : Dbl P) : Dbl P := ⟨P.sin x.val⟩

def Dbl.cos {P : Libm} (x : Dbl P) : Dbl P := ⟨P.cos x.val⟩

def Dbl.d_mod {P : Libm} (x y : Dbl P) : Dbl P := ⟨P.d_mod x.val y.val⟩

/-- The constant `c_b2` (step2diu.c, line 16). -/
def c_b2 {P : Libm} : Dbl P := 360

/-- The initialiser of `datdi[279]` (step2diu.c, lines 24-40), nine values to
the line: the Fortran array `DATDI(9,31)`, column after column. -/
def datdi : List ℚ := [
  -3, 0, 2, 0, 0, -0.01, 0, 0, 0,
  -3, 2, 0, 0, 0, -0.01, 0, 0, 0,
  -2, 0, 1, -1, 0, -0.02, 0, 0, 0,
  -2, 0, 1, 0, 0, -0.08, 0, -0.01, 0.01,
  -2, 2, -1, 0, 0, -0.02, 0, 0, 0,
  -1, 0, 0, -1, 0, -0.1, 0, 0, 0,
  -1, 0, 0, 0, 0, -0.51, 0, -0.02, 0.03,
  -1, 2, 0, 0, 0, 0.01, 0, 0, 0,
  0, -2, 1, 0, 0, 0.01, 0, 0, 0,
  0, 0, -1, 0, 0, 0.02, 0, 0, 0,
  0, 0, 1, 0, 0, 0.06, 0, 0, 0,
  0, 0, 1, 1, 0, 0.01, 0, 0, 0,
  0, 2, -1, 0, 0, 0.01, 0, 0, 0,
  1, -3, 0, 0, 1, -0.06, 0, 0, 0,
  1, -2, 0, -1, 0, 0.01, 0, 0, 0,
  1, -2, 0, 0, 0, -1.23, -0.07, 0.06, 0.01,
  1, -1, 0, 0, -1, 0.02, 0, 0, 0,
  1, -1, 0, 0, 1, 0.04, 0, 0, 0,
  1, 0, 0, -1, 0, -0.22, 0.01, 0.01, 0,
  1, 0, 0, 0, 0, 12, -0.8, -0.67, -0.03,
  1, 0, 0, 1, 0, 1.73, -0.12, -0.1, 0,
  1, 0, 0, 2, 0, -0.04, 0, 0, 0,
  1, 1, 0, 0, -1, -0.5, -0.01, 0.03, 0,
  1, 1, 0, 0, 1, 0.01, 0, 0, 0,
  0, 1, 0, 1, -1, -0.01, 0, 0, 0,
  1, 2, -2, 0, 0, -0.01, 0, 0, 0,
  1, 2, 0, 0, 0, -0.11, 0.01, 0.01, 0,
  2, -2, 1, 0, 0, -0.01, 0, 0, 0,
  2, 0, -1, 0, 0, -0.02, 0, 0, 0,
  3, 0, 0, 0, 0, 0, 0, 0, 0,
  3, 0, 0, 1, 0, 0, 0, 0, 0]

/-- A read of the table outside its entries. -/
inductive Trap where
  | datdiIndex : Int → Trap
  deriving DecidableEq, Repr

/-- The expression `datdi[k]`: the entry as a `double`, recorded in the list of
the indices read; a trap when `k` is not an index of `datdi[279]`. -/
def datdiAt (P : Libm) (k : Int) : StateT (List Int) (Except Trap) (Dbl P) :=
  fun reads =>
    if 0 ≤ k ∧ k < 279 then .ok (⟨P.rnd (datdi.getD k.toNat 0)⟩, reads ++ [k])
    else .error (Trap.datdiIndex k)

/-- The statement `for (i = lo; i <= hi; ++i) body`, entered with the counter at
`i`. -/
def forLoop {σ : Type} (hi : Int) (body : Int → σ → Except Trap σ) (i : Int) (s : σ) :
    Except Trap σ :=
  if i ≤ hi then
    match body i s with
    | .error e => .error e
    | .ok s1 => forLoop hi body (i + 1) s1
  else .ok s
termination_by (hi + 1 - i).toNat
decreasing_by omega

/-- The array `a` after `a[i] = v`. -/
def assign {P : Libm} (a : Int → Dbl P) (i : Int) (v : Dbl P) : Int → Dbl P :=
  fun k => if k = i then v else a k

/-- The body of the main loop of `step2diu_` (step2diu.c, lines 180-206) for the
counter `j`: the array `xcorsta` after it. -/
def step2diu.body (P : Libm)
    (tau s h__ p zns ps deg2rad sinphi cosphi zla cosla sinla : Dbl P) (j : Int)
    (xcorsta : Int → Dbl P) : StateT (List Int) (Except Trap) (Int → Dbl P) := do
  let thetaf := (tau + (← datdiAt P (j * 9 - 9)) * s + (← datdiAt P (j * 9 - 8)) * h__ +
    (← datdiAt P (j * 9 - 7)) * p + (← datdiAt P (j * 9 - 6)) * zns +
    (← datdiAt P (j * 9 - 5)) * ps) * deg2rad
  let dr := (← datdiAt P (j * 9 - 4)) * 2 * sinphi * cosphi * Dbl.sin (thetaf + zla) +
    (← datdiAt P (j * 9 - 3)) * 2 * sinphi * cosphi * Dbl.cos (thetaf + zla)
  let d__1 := cosphi
  let d__2 := sinphi
  let d__3 := cosphi
  let d__4 := sinphi
  let dn := (← datdiAt P (j * 9 - 2)) * (d__1 * d__1 - d__2 * d__2) * Dbl.sin (thetaf + zla) +
    (← datdiAt P (j * 9 - 1)) * (d__3 * d__3 - d__4 * d__4) * Dbl.cos (thetaf + zla)
  let de := (← datdiAt P (j * 9 - 2)) * sinphi * Dbl.cos (thetaf + zla) -
    (← datdiAt P (j * 9 - 1)) * sinphi * Dbl.sin (thetaf + zla)
  let xcorsta := assign xcorsta 1
    (xcorsta 1 + dr * cosla * cosphi - de * sinla - dn * sinphi * cosla)
  let xcorsta := assign xcorsta 2
    (xcorsta 2 + dr * sinla * cosphi + de * cosla - dn * sinphi * sinla)
  let xcorsta := assign xcorsta 3 (xcorsta 3 + dr * sinphi + dn * cosphi)
  pure xcorsta

/-- The state of the main loop: the array `xcorsta`, and for every pass so far
the value of `j` with the indices of `datdi` the pass read, oldest first. -/
structure Run (P : Libm) where
  xcorsta : Int → Dbl P
  passes : List (Int × List Int)

/-- One pass of the main loop, with its reads recorded. -/
def step2diu.pass (P : Libm)
    (tau s h__ p zns ps deg2rad sinphi cosphi zla cosla sinla : Dbl P) (j : Int)
    (r : Run P) : Except Trap (Run P) :=
  match step2diu.body P tau s h__ p zns ps deg2rad sinphi cosphi zla cosla sinla j
      r.xcorsta [] with
  | .error e => .error e
  | .ok (x, reads) => .ok { xcorsta := x, passes := r.passes ++ [(j, reads)] }

/-- What a completed call of `step2diu_` leaves: the array `xcorsta`, the passes
of the main loop, and the returned value. -/
structure Result (P : Libm) where
  xcorsta : Int → Dbl P
  passes : List (Int × List Int)
  ret : Int

/-- `step2diu_(xsta, fhr, t, xcorsta)` (step2diu.c, lines 18-212). -/
def step2diu_ (P : Libm) (xsta : Int → Dbl P) (fhr t : Dbl P) (xcorsta : Int → Dbl P) :
    Except Trap (Result P) := do
  let deg2rad : Dbl P := 0.017453292519943295
  let s : Dbl P := ((t * 1.85139e-6 - 0.0014663889) * t + 481267.88194) * t + 218.31664563
  let tau : Dbl P := fhr * 15 + 280.4606184 +
    ((t * -2.58e-8 + 3.8793e-4) * t + 36000.7700536) * t + (-s)
  let pr : Dbl P := (((t * 7e-9 + 2.1e-8) * t + 3.08889e-4) * t + 1.396971278) * t
  let s := s + pr
  let h__ : Dbl P := (((t * -6.54e-9 + 2e-8) * t + 3.0322222e-4) * t + 36000.7697489) * t +
    280.46645
  let p : Dbl P := (((t * 5.263e-8 - 1.24991e-5) * t - 0.01032172222) * t + 4069.01363525) * t +
    83.35324312
  let zns : Dbl P := (((t * 1.65e-8 - 2.13944e-6) * t - 0.00207561111) * t + 1934.13626197) * t +
    234.95544499
  let ps : Dbl P := (((t * -3.34e-9 - 1.778e-8) * t + 4.5688889e-4) * t + 1.71945766667) * t +
    282.93734098
  let s := Dbl.d_mod s c_b2
  let tau := Dbl.d_mod tau c_b2
  let h__ := Dbl.d_mod h__ c_b2
  let p := Dbl.d_mod p c_b2
  let zns := Dbl.d_mod zns c_b2
  let ps := Dbl.d_mod ps c_b2
  let d__1 := xsta 1
  let d__2 := xsta 2
  let d__3 := xsta 3
  let rsta := Dbl.sqrt (d__1 * d__1 + d__2 * d__2 + d__3 * d__3)
  let sinphi := xsta 3 / rsta
  let d__1 := xsta 1
  let d__2 := xsta 2
  let cosphi := Dbl.sqrt (d__1 * d__1 + d__2 * d__2) / rsta
  let cosla := xsta 1 / cosphi / rsta
  let sinla := xsta 2 / cosphi / rsta
  let zla := Dbl.atan2 (xsta 2) (xsta 1)
  let xcorsta ← forLoop 3 (fun i__ x => .ok (assign x i__ 0)) 1 xcorsta
  let r ← forLoop 31
    (step2diu.pass P tau s h__ p zns ps deg2rad sinphi cosphi zla cosla sinla) 1
    { xcorsta := xcorsta, passes := [] }
  let xcorsta ← forLoop 3 (fun i__ x => .ok (assign x i__ (x i__ / 1e3))) 1 r.xcorsta
  pure { xcorsta := xcorsta, passes := r.passes, ret := 0 }

/-- The indices of `datdi` in the body of the main loop, in the order of the
source text, for the counter `j`. -/
def bodyReads (j : Int) : List Int :=
  [j * 9 - 9, j * 9 - 8, j * 9 - 7, j * 9 - 6, j * 9 - 5, j * 9 - 4, j * 9 - 3, j * 9 - 2,
    j * 9 - 1, j * 9 - 2, j * 9 - 1]

end IERS

namespace ERB

/-! ## Bytes and memory -/

theorem le_length (n x : Nat) : (le n x).length = n := by
  induction n generalizing x with
  | zero => rfl
  | succ n ih => simp [le, ih]

theorem le_lt (n x : Nat) : ∀ b ∈ le n x, b < 256 := by
  induction n generalizing x with
  | zero => simp [le]
  | succ n ih =>
    intro b hb
    simp only [le, List.mem_cons] at hb
    rcases hb with rfl | hb
    · exact Nat.mod_lt _ (by norm_num)
    · exact ih _ b hb

theorem overlay_nil (f : Nat → Nat) (a : Nat) : overlay f a [] = f := by
  funext x
  simp [overlay]

theorem overlay_lt (f : Nat → Nat) (a : Nat) (vs : List Nat) (x : Nat) (h : x < a) :
    overlay f a vs x = f x := by
  have : ¬ (a ≤ x ∧ x < a + vs.length) := by omega
  simp [overlay, this]

theorem overlay_ge (f : Nat → Nat) (a : Nat) (vs : List Nat) (x : Nat)
    (h : a + vs.length ≤ x) : overlay f a vs x = f x := by
  have : ¬ (a ≤ x ∧ x < a + vs.length) := by omega
  simp [overlay, this]

theorem overlay_at (f : Nat → Nat) (a : Nat) (vs : List Nat) (i : Nat)
    (h : i < vs.length) : overlay f a vs (a + i) = vs.getD i 0 := by
  have : a ≤ a + i ∧ a + i < a + vs.length := by omega
  simp only [overlay, this, and_self, if_true, Nat.add_sub_cancel_left]

theorem overlay_cons (f : Nat → Nat) (a v : Nat) (vs : List Nat) :
    overlay f a (v :: vs) = overlay (fun x => if x = a then v else f x) (a + 1) vs := by
  funext x
  by_cases h1 : x < a
  · rw [overlay_lt _ _ _ _ h1, overlay_lt _ _ _ _ (by omega)]
    simp [Nat.ne_of_lt h1]
  · by_cases h2 : x = a
    · subst h2
      have := overlay_at f x (v :: vs) 0 (by simp)
      simp only [Nat.add_zero] at this
      rw [this, overlay_lt _ _ _ _ (by omega)]
      simp
    · by_cases h3 : x < a + 1 + vs.length
      · obtain ⟨i, rfl⟩ : ∃ i, x = a + 1 + i := ⟨x - (a + 1), by omega⟩
        rw [overlay_at _ _ _ _ (by omega)]
        have := overlay_at f a (v :: vs) (1 + i) (by simp; omega)
        rw [← Nat.add_assoc] at this
        rw [this, Nat.add_comm 1 i]
        rfl
      · rw [overlay_ge _ _ _ _ (by simp; omega), overlay_ge _ _ _ _ (by omega)]
        simp [h2]

theorem overlay_append (f : Nat → Nat) (a : Nat) (xs ys : List Nat) :
    overlay (overlay f a xs) (a + xs.length) ys = overlay f a (xs ++ ys) := by
  induction xs generalizing f a with
  | nil => simp [overlay_nil]
  | cons v xs ih =>
    rw [List.cons_append, overlay_cons, overlay_cons, ← ih]
    simp only [List.length_cons]
    rw [show a + (xs.length + 1) = a + 1 + xs.length by omega]

/-- Bytes laid over the tail of an earlier overlay replace it. -/
theorem overlay_over (f : Nat → Nat) (a : Nat) (xs us vs : List Nat)
    (h : us.length ≤ vs.length) :
    overlay (overlay f a (xs ++ us)) (a + xs.length) vs = overlay f a (xs ++ vs) := by
  rw [← overlay_append, ← overlay_append]
  generalize overlay f a xs = g
  generalize a + xs.length = b
  funext x
  by_cases h1 : b ≤ x ∧ x < b + vs.length
  · simp [overlay, h1]
  · have h2 : ¬ (b ≤ x ∧ x < b + us.length) := by omega
    simp [overlay, h1, h2]

theorem storeList_byte (m : Mem) (a : Nat) (vs : List Nat) :
    (m.storeList a vs).byte = overlay m.byte a (vs.map (· % 256)) := by
  induction vs generalizing m a with
  | nil => simp [Mem.storeList, overlay_nil]
  | cons v vs ih =>
    rw [Mem.storeList, ih, List.map_cons, overlay_cons]
    rfl

theorem storeList_log (m : Mem) (a : Nat) (vs : List Nat) :
    (m.storeList a vs).log = m.log ++ (List.range vs.length).map (a + ·) := by
  induction vs generalizing m a with
  | nil => simp [Mem.storeList]
  | cons v vs ih =>
    rw [Mem.storeList, ih]
    simp only [Mem.store, List.length_cons, List.range_succ_eq_map, List.map_cons,
      List.map_map, List.append_assoc, List.singleton_append, Nat.add_zero]
    congr 2
    apply List.map_congr_left
    intro i _
    simp only [Function.comp]
    omega

/-- Reading back what an overlay holds. -/
theorem read_overlay (m : Mem) (f : Nat → Nat) (a : Nat) (vs ws : List Nat)
    (h : m.byte = overlay f a (vs ++ ws)) : m.read a vs.length = vs := by
  apply List.ext_getElem
  · simp [Mem.read]
  · intro i h1 h2
    have hi : i < vs.length := by simpa [Mem.read] using h1
    simp only [Mem.read, List.getElem_map, List.getElem_range, h]
    rw [overlay_at _ _ _ _ (by simp; omega), List.getD_append _ _ _ _ hi,
      List.getD_eq_getElem _ _ hi]

/-! ## Checksum -/

theorem wrap_char (sc : Bool) (a b : Nat) :
    wrap 8 ((a : Int) + charValue sc b) = (a + b) % 256 := by
  unfold wrap charValue
  have hb : b % 256 < 256 := Nat.mod_lt _ (by norm_num)
  split <;> omega

theorem wrap_nat (a b : Nat) : wrap 8 ((a : Int) + (b : Int)) = (a + b) % 256 := by
  unfold wrap
  omega

theorem ckStep_mod (c : Nat × Nat) (b : Nat) : ckStep c (b % 256) = ckStep c b := by
  simp [ckStep]

theorem foldl_ckStep_mod (l : List Nat) (c : Nat × Nat) :
    (l.map (· % 256)).foldl ckStep c = l.foldl ckStep c := by
  induction l generalizing c with
  | nil => rfl
  | cons b l ih => rw [List.map_cons, List.foldl_cons, List.foldl_cons, ckStep_mod, ih]

theorem fletcher_map_mod (l : List Nat) : fletcher (l.map (· % 256)) = fletcher l :=
  foldl_ckStep_mod l (0, 0)

theorem calculatesum_loop_eq (sc : Bool) (buff : Nat → Nat) (n i a b : Nat) :
    calculatesum.loop sc buff n i a b =
      ((List.range n).map fun k => buff (i + k)).foldl ckStep (a, b) := by
  induction n generalizing i a b with
  | zero => rfl
  | succ n ih =>
    rw [calculatesum.loop, ih, List.range_succ_eq_map, List.map_cons, List.foldl_cons,
      List.map_map, wrap_char, wrap_nat]
    have h : (fun k => buff (i + 1 + k)) = (fun k => buff (i + k)) ∘ Nat.succ := by
      funext k
      simp only [Function.comp]
      congr 1
      omega
    rw [h]
    rfl

/-- The code's checksum is the checksum of section 4.1 over the bytes at the
indices `2, ..., len - 1`. -/
theorem calculatesum_eq (sc : Bool) (buff : Nat → Nat) (len : Int) :
    calculatesum sc buff len =
      fletcher ((List.range (len - 2).toNat).map fun k => buff (2 + k) % 256) := by
  rw [calculatesum, calculatesum_loop_eq, ← foldl_ckStep_mod, List.map_map]
  rfl

theorem foldl_ckStep_lt (l : List Nat) (c : Nat × Nat) (h : c.1 < 256 ∧ c.2 < 256) :
    (l.foldl ckStep c).1 < 256 ∧ (l.foldl ckStep c).2 < 256 := by
  induction l generalizing c with
  | nil => exact h
  | cons b l ih =>
    apply ih
    exact ⟨Nat.mod_lt _ (by norm_num), Nat.mod_lt _ (by norm_num)⟩

theorem fletcher_lt (l : List Nat) : (fletcher l).1 < 256 ∧ (fletcher l).2 < 256 :=
  foldl_ckStep_lt l (0, 0) ⟨by norm_num, by norm_num⟩

/-! ## Frame writer -/

theorem bytesOf_length (src : Nat → Nat) (n : Nat) : (bytesOf src n).length = n := by
  simp [bytesOf]

theorem covered_length (id : Nat) (bs : List Nat) :
    (covered id bs).length = bs.length + 3 := by
  simp [covered]

theorem frameBytes_length (id : Nat) (bs : List Nat) :
    (frameBytes id bs).length = bs.length + 7 := by
  simp [frameBytes, covered_length]

/-- Where an overlay has been laid over the tail of another, the result is read
as one overlay below the end of the second. -/
theorem overlay_over_at (f : Nat → Nat) (a : Nat) (xs us vs : List Nat) (x : Nat)
    (h : x < a + xs.length + vs.length) :
    overlay (overlay f a (xs ++ us)) (a + xs.length) vs x = overlay f a (xs ++ vs) x := by
  rw [← overlay_append, ← overlay_append]
  generalize overlay f a xs = g
  by_cases h1 : a + xs.length ≤ x
  · have h2 : a + xs.length ≤ x ∧ x < a + xs.length + vs.length := ⟨h1, h⟩
    simp [overlay, h2]
  · rw [overlay_lt _ _ _ _ (by omega), overlay_lt _ _ _ _ (by omega),
      overlay_lt _ _ _ _ (by omega)]

theorem appendmessage_snd (sc : Bool) (m : Mem) (p id : Nat) (pl : Nat → Nat) (n : Nat) :
    (appendmessage sc m p id pl n).2 = p + n + 7 := by
  simp only [appendmessage, sprintf, List.length_cons, List.length_nil]
  omega

theorem overlay_over_eq (f : Nat → Nat) (a b : Nat) (xs us vs : List Nat)
    (hb : b = a + xs.length) (h : us.length ≤ vs.length) :
    overlay (overlay f a (xs ++ us)) b vs = overlay f a (xs ++ vs) := by
  subst hb
  exact overlay_over f a xs us vs h

theorem overlay_over_at_eq (f : Nat → Nat) (a b : Nat) (xs us vs : List Nat) (x : Nat)
    (hb : b = a + xs.length) (h : x < b + vs.length) :
    overlay (overlay f a (xs ++ us)) b vs x = overlay f a (xs ++ vs) x := by
  subst hb
  exact overlay_over_at f a xs us vs x h

theorem sprintf_snd (m : Mem) (p : Nat) (cs : List Nat) : (sprintf m p cs).2 = cs.length := rfl

theorem sprintf_byte (m : Mem) (p : Nat) (cs : List Nat) :
    (sprintf m p cs).1.byte = overlay m.byte p (cs.map (· % 256) ++ [0]) := by
  simp [sprintf, storeList_byte]

theorem memcpy_byte (m : Mem) (p : Nat) (pl : Nat → Nat) (n : Nat) :
    (memcpy m p pl n).byte = overlay m.byte p (bytesOf pl n) := by
  simp [memcpy, storeList_byte, bytesOf, Function.comp_def]

/-- The five bytes ahead of the payload, as the three `sprintf` calls leave
them, with the terminator of the third. -/
theorem appendmessage_head (m : Mem) (p id n : Nat) :
    (sprintf (sprintf (sprintf m p [ERB_SYNC_CHAR1, ERB_SYNC_CHAR2]).1 (p + 2) [id]).1
        (p + 2 + 1) [n, n >>> 8]).1.byte =
      overlay m.byte p ([0x45, 0x52, id % 256, n % 256, n / 256 % 256] ++ [0]) := by
  rw [sprintf_byte, sprintf_byte, sprintf_byte]
  simp only [List.map_cons, List.map_nil]
  rw [overlay_over_eq m.byte p (p + 2) [ERB_SYNC_CHAR1 % 256, ERB_SYNC_CHAR2 % 256] [0]
      ([id % 256] ++ [0]) rfl (by simp),
    ← List.append_assoc,
    overlay_over_eq m.byte p (p + 2 + 1) ([ERB_SYNC_CHAR1 % 256, ERB_SYNC_CHAR2 % 256] ++
      [id % 256]) [0] ([n % 256, n >>> 8 % 256] ++ [0]) rfl (by simp),
    ← List.append_assoc]
  simp [ERB_SYNC_CHAR1, ERB_SYNC_CHAR2, Nat.shiftRight_eq_div_pow]

/-- The memory before the checksum is computed holds the sync bytes and the
checksummed region from `p` on. -/
theorem appendmessage_pre (m : Mem) (p id : Nat) (pl : Nat → Nat) (n : Nat) (x : Nat)
    (hx : x < p + 5 + n) :
    (memcpy (sprintf (sprintf (sprintf m p [ERB_SYNC_CHAR1, ERB_SYNC_CHAR2]).1 (p + 2) [id]).1
        (p + 2 + 1) [n, n >>> 8]).1 (p + 2 + 1 + 2) pl n).byte x =
      overlay m.byte p ([0x45, 0x52] ++ covered id (bytesOf pl n)) x := by
  rw [memcpy_byte, appendmessage_head,
    overlay_over_at_eq m.byte p (p + 2 + 1 + 2) [0x45, 0x52, id % 256, n % 256, n / 256 % 256]
      [0] (bytesOf pl n) x rfl (by rw [bytesOf_length]; omega)]
  simp [covered, bytesOf_length]

theorem appendmessage_ck (sc : Bool) (m : Mem) (p id : Nat) (pl : Nat → Nat) (n : Nat) :
    calculatesum sc (fun i => (memcpy (sprintf (sprintf (sprintf m p
        [ERB_SYNC_CHAR1, ERB_SYNC_CHAR2]).1 (p + 2) [id]).1 (p + 2 + 1) [n, n >>> 8]).1
        (p + 2 + 1 + 2) pl n).byte (p + 2 + 1 + 2 + n - (n + 5) + i)) ((n : Int) + 5) =
      fletcher (covered id (bytesOf pl n)) := by
  rw [calculatesum_eq, ← fletcher_map_mod (covered id (bytesOf pl n))]
  congr 1
  apply List.ext_getElem
  · simp [covered_length, bytesOf_length]
    omega
  · intro i h1 h2
    have hi : i < n + 3 := by simpa [covered_length, bytesOf_length] using h2
    simp only [List.getElem_map, List.getElem_range]
    rw [show p + 2 + 1 + 2 + n - (n + 5) + (2 + i) = p + (2 + i) by omega,
      appendmessage_pre _ _ _ _ _ _ (by omega),
      overlay_at _ _ _ _ (by simp [covered_length, bytesOf_length]; omega),
      List.getD_append_right _ _ _ _ (by simp)]
    simp only [List.length_cons, List.length_nil, Nat.zero_add, Nat.reduceAdd,
      Nat.add_sub_cancel_left]
    rw [List.getD_eq_getElem _ _ (by simpa [covered_length, bytesOf_length] using hi)]

/-- The memory after `appendmessage`: the frame from `p` on, and the terminating
zero of the last `sprintf` right after it. -/
theorem appendmessage_byte (sc : Bool) (m : Mem) (p id : Nat) (pl : Nat → Nat) (n : Nat) :
    (appendmessage sc m p id pl n).1.byte = overlay m.byte p (frameBytes id (bytesOf pl n) ++ [0]) := by
  simp only [appendmessage, sprintf_snd, List.length_cons, List.length_nil, Nat.zero_add,
    Nat.reduceAdd]
  rw [appendmessage_ck, sprintf_byte, memcpy_byte, appendmessage_head]
  have h5 : p + 2 + 1 + 2 + n = p + 2 + 1 + 2 + (bytesOf pl n).length := by
    rw [bytesOf_length]
  rw [h5, overlay_append,
    overlay_over_eq m.byte p (p + 2 + 1 + 2) [0x45, 0x52, id % 256, n % 256, n / 256 % 256]
      [0] _ rfl (by simp)]
  have h1 := (fletcher_lt (covered id (bytesOf pl n))).1
  have h2 := (fletcher_lt (covered id (bytesOf pl n))).2
  simp only [List.map_cons, List.map_nil, Nat.mod_eq_of_lt h1, Nat.mod_eq_of_lt h2]
  simp [frameBytes, covered, ERB_SYNC_CHAR1, ERB_SYNC_CHAR2, bytesOf_length]


theorem appendmessage_log (sc : Bool) (m : Mem) (p id : Nat) (pl : Nat → Nat) (n : Nat) :
    (appendmessage sc m p id pl n).1.log = m.log ++ frameLog p n := by
  simp only [appendmessage, sprintf, memcpy, storeList_log, List.length_cons, List.length_nil,
    List.length_append, List.length_map, List.length_range, Nat.zero_add, Nat.reduceAdd,
    frameLog, List.append_assoc]

/-- What `appendmessage` does: the frame of the first `n` bytes of `payload` is
in memory from `p` on, a zero byte follows it, the stores are those of
`frameLog`, and the cursor has advanced by `n + 7`. -/
theorem appendmessage_eq (sc : Bool) (m : Mem) (p id : Nat) (pl : Nat → Nat) (n : Nat) :
    appendmessage sc m p id pl n =
      ({ byte := overlay m.byte p (frameBytes id (bytesOf pl n) ++ [0]),
         log := m.log ++ frameLog p n }, p + n + 7) := by
  apply Prod.ext
  · show (appendmessage sc m p id pl n).1 = _
    rcases h : (appendmessage sc m p id pl n).1 with ⟨b, l⟩
    have hb := appendmessage_byte sc m p id pl n
    have hl := appendmessage_log sc m p id pl n
    rw [h] at hb hl
    simp only at hb hl
    rw [hb, hl]
  · exact appendmessage_snd sc m p id pl n

theorem mem_frameLog (p n x : Nat) : x ∈ frameLog p n ↔ p ≤ x ∧ x ≤ p + n + 7 := by
  simp only [frameLog, List.mem_append, List.mem_map, List.mem_range]
  constructor
  · rintro ((((⟨i, hi, rfl⟩ | ⟨i, hi, rfl⟩) | ⟨i, hi, rfl⟩) | ⟨i, hi, rfl⟩) | ⟨i, hi, rfl⟩) <;> omega
  · rintro ⟨h1, h2⟩
    by_cases h3 : x < p + 5
    · by_cases h0 : x < p + 3
      · left; left; left; left
        exact ⟨x - p, by omega, by omega⟩
      · left; left; right
        exact ⟨x - (p + 3), by omega, by omega⟩
    · by_cases h4 : x < p + 5 + n
      · left; right
        exact ⟨x - (p + 5), by omega, by omega⟩
      · right
        exact ⟨x - (p + 5 + n), by omega, by omega⟩

/-! ## Payload builders -/

theorem erb_ver_bytes_length (s : erb_ver) : s.bytes.length = LENGTH_VER := by
  simp [erb_ver.bytes, le_length, LENGTH_VER]

theorem erb_pos_bytes_length (E : Env) (s : erb_pos) : (s.bytes E).length = LENGTH_POS := by
  simp [erb_pos.bytes, le_length, LENGTH_POS]

theorem erb_stat_bytes_length (s : erb_stat) : s.bytes.length = LENGTH_STAT := by
  simp [erb_stat.bytes, le_length, LENGTH_STAT]

theorem erb_dops_bytes_length (s : erb_dops) : s.bytes.length = LENGTH_DOPS := by
  simp [erb_dops.bytes, le_length, LENGTH_DOPS]

theorem erb_vel_bytes_length (s : erb_vel) : s.bytes.length = LENGTH_VEL := by
  simp [erb_vel.bytes, le_length, LENGTH_VEL]

theorem erb_svi_head_bytes_length (s : erb_svi_head) : s.bytes.length = LENGTH_SVI_HEAD := by
  simp [erb_svi_head.bytes, le_length, LENGTH_SVI_HEAD]

theorem erb_svi_sat_bytes_length (s : erb_svi_sat) : s.bytes.length = LENGTH_SVI_SV := by
  simp [erb_svi_sat.bytes, le_length, LENGTH_SVI_SV]

theorem erb_ver_bytes_lt (s : erb_ver) : ∀ b ∈ s.bytes, b < 256 := by
  intro b hb
  simp only [erb_ver.bytes, List.mem_append] at hb
  casesm* _ ∨ _ <;> exact le_lt _ _ _ ‹_›

theorem erb_pos_bytes_lt (E : Env) (s : erb_pos) : ∀ b ∈ s.bytes E, b < 256 := by
  intro b hb
  simp only [erb_pos.bytes, List.mem_append] at hb
  casesm* _ ∨ _ <;> exact le_lt _ _ _ ‹_›

theorem erb_stat_bytes_lt (s : erb_stat) : ∀ b ∈ s.bytes, b < 256 := by
  intro b hb
  simp only [erb_stat.bytes, List.mem_append] at hb
  casesm* _ ∨ _ <;> exact le_lt _ _ _ ‹_›

theorem erb_dops_bytes_lt (s : erb_dops) : ∀ b ∈ s.bytes, b < 256 := by
  intro b hb
  simp only [erb_dops.bytes, List.mem_append] at hb
  casesm* _ ∨ _ <;> exact le_lt _ _ _ ‹_›

theorem erb_vel_bytes_lt (s : erb_vel) : ∀ b ∈ s.bytes, b < 256 := by
  intro b hb
  simp only [erb_vel.bytes, List.mem_append] at hb
  casesm* _ ∨ _ <;> exact le_lt _ _ _ ‹_›

theorem erb_svi_head_bytes_lt (s : erb_svi_head) : ∀ b ∈ s.bytes, b < 256 := by
  intro b hb
  simp only [erb_svi_head.bytes, List.mem_append] at hb
  casesm* _ ∨ _ <;> exact le_lt _ _ _ ‹_›

theorem erb_svi_sat_bytes_lt (s : erb_svi_sat) : ∀ b ∈ s.bytes, b < 256 := by
  intro b hb
  simp only [erb_svi_sat.bytes, List.mem_append] at hb
  casesm* _ ∨ _ <;> exact le_lt _ _ _ ‹_›

/-- The bytes copied to the start of a local array are read back from it. -/
theorem bytesOf_fill (dst : Nat → Nat) (bs : List Nat) (n : Nat) (hn : bs.length = n)
    (hb : ∀ b ∈ bs, b < 256) : bytesOf (fill dst 0 (bs.take n)) n = bs := by
  subst hn
  rw [List.take_length]
  apply List.ext_getElem
  · simp [bytesOf]
  · intro i h1 h2
    simp only [bytesOf, fill, List.getElem_map, List.getElem_range, Nat.zero_le, Nat.zero_add,
      h2, and_self, if_true, Nat.sub_zero, Nat.mod_mod]
    rw [List.getD_eq_getElem _ _ h2]
    exact Nat.mod_eq_of_lt (hb _ (List.getElem_mem _))

/-- Two blocks copied one after the other are read back as their concatenation. -/
theorem bytesOf_fill_fill (dst : Nat → Nat) (xs ys : List Nat) (a n : Nat)
    (ha : xs.length = a) (hn : a + ys.length = n)
    (hx : ∀ b ∈ xs, b < 256) (hy : ∀ b ∈ ys, b < 256) :
    bytesOf (fill (fill dst 0 (xs.take a)) a ys) n = xs ++ ys := by
  subst ha
  subst hn
  rw [List.take_length]
  apply List.ext_getElem
  · simp [bytesOf]
  · intro i h1 h2
    simp only [bytesOf, fill, List.getElem_map, List.getElem_range, Nat.zero_le, Nat.zero_add,
      true_and, Nat.sub_zero, Nat.mod_mod]
    by_cases h3 : i < xs.length
    · have h4 : ¬ (xs.length ≤ i ∧ i < xs.length + ys.length) := by omega
      rw [if_neg h4, if_pos h3, List.getD_eq_getElem _ _ h3, List.getElem_append_left h3,
        Nat.mod_mod]
      exact Nat.mod_eq_of_lt (hx _ (List.getElem_mem _))
    · have h4 : xs.length ≤ i ∧ i < xs.length + ys.length := by
        simp only [List.length_append] at h2
        omega
      have h5 : i - xs.length < ys.length := by omega
      rw [if_pos h4, List.getD_eq_getElem _ _ h5, List.getElem_append_right (by omega),
        Nat.mod_mod]
      exact Nat.mod_eq_of_lt (hy _ (List.getElem_mem _))

theorem buildver_bytes (pl : Nat → Nat) (v : erb_ver) (gpst : Nat) :
    bytesOf (buildver pl v gpst VERSION_HIGH VERSION_MEDIUM VERSION_LOW) LENGTH_VER =
      verPayload gpst := by
  simp only [verPayload, buildver]
  rw [bytesOf_fill _ _ _ (erb_ver_bytes_length _) (erb_ver_bytes_lt _),
    bytesOf_fill _ _ _ (erb_ver_bytes_length _) (erb_ver_bytes_lt _)]

theorem buildpos_bytes (E : Env) (pl : Nat → Nat) (v : erb_pos) (gpst : Nat) (sol : sol_t) :
    bytesOf (buildpos E pl v gpst sol) LENGTH_POS = posPayload E gpst sol := by
  simp only [posPayload, buildpos]
  rw [bytesOf_fill _ _ _ (erb_pos_bytes_length _ _) (erb_pos_bytes_lt _ _),
    bytesOf_fill _ _ _ (erb_pos_bytes_length _ _) (erb_pos_bytes_lt _ _)]

theorem builddops_bytes (E : Env) (pl : Nat → Nat) (v : erb_dops) (gpst : Nat) (sol : sol_t) :
    bytesOf (builddops E pl v gpst sol) LENGTH_DOPS = dopsPayload E gpst sol := by
  simp only [dopsPayload, builddops]
  rw [bytesOf_fill _ _ _ (erb_dops_bytes_length _) (erb_dops_bytes_lt _),
    bytesOf_fill _ _ _ (erb_dops_bytes_length _) (erb_dops_bytes_lt _)]

theorem buildvel_bytes (E : Env) (pl : Nat → Nat) (v : erb_vel) (gpst : Nat) (sol : sol_t) :
    bytesOf (buildvel E pl v gpst sol) LENGTH_VEL = velPayload E gpst sol := by
  simp only [velPayload, buildvel]
  rw [bytesOf_fill _ _ _ (erb_vel_bytes_length _) (erb_vel_bytes_lt _),
    bytesOf_fill _ _ _ (erb_vel_bytes_length _) (erb_vel_bytes_lt _)]

theorem buildstat_map (E : Env) (pl : Nat → Nat) (s : erb_stat) (gpst week : Nat)
    (sol : sol_t) (rb : Option (Nat → ℚ)) :
    (buildstat E pl s gpst week sol rb).map (fun q => bytesOf q LENGTH_STAT) =
      statPayload E gpst week sol rb := by
  unfold statPayload buildstat
  by_cases h : sol.type = 0
  · cases rb with
    | none => simp [h, Except.map, bind, Except.bind, throw, throwThe, MonadExceptOf.throw]
    | some rb =>
      simp only [h, if_true, Except.map, bind, Except.bind, pure, Except.pure]
      rw [bytesOf_fill _ _ _ (erb_stat_bytes_length _) (erb_stat_bytes_lt _),
        bytesOf_fill _ _ _ (erb_stat_bytes_length _) (erb_stat_bytes_lt _)]
  · simp only [h, if_false, Except.map, bind, Except.bind, pure, Except.pure]
    rw [bytesOf_fill _ _ _ (erb_stat_bytes_length _) (erb_stat_bytes_lt _),
      bytesOf_fill _ _ _ (erb_stat_bytes_length _) (erb_stat_bytes_lt _)]

theorem buildstat_ok (E : Env) (pl : Nat → Nat) (s : erb_stat) (gpst week : Nat)
    (sol : sol_t) (rb : Option (Nat → ℚ)) (h : sol.type = 0 → rb ≠ none) :
    ∃ q, buildstat E pl s gpst week sol rb = .ok q := by
  unfold buildstat
  by_cases h0 : sol.type = 0
  · cases rb with
    | none => exact absurd rfl (h h0)
    | some rb => simp [h0, bind, Except.bind, pure, Except.pure]
  · simp [h0, bind, Except.bind, pure, Except.pure]

theorem buildstat_null (E : Env) (pl : Nat → Nat) (s : erb_stat) (gpst week : Nat)
    (sol : sol_t) (h : sol.type = 0) :
    buildstat E pl s gpst week sol none = .error Fault.nullBase := by
  unfold buildstat
  simp [h, bind, Except.bind, throw, throwThe, MonadExceptOf.throw]

theorem buildsvi_sat_eq (E : Env) (sol : sol_t) (s t : erb_svi_sat) (i : Nat) :
    buildsvi.sat E sol s i = buildsvi.sat E sol t i := rfl

theorem buildsvi_loop_ok (E : Env) (sol : sol_t) (n i : Nat) (sv : Nat → erb_svi_sat)
    (h : i + n ≤ 32) :
    buildsvi.loop E sol n i sv =
      .ok (fun j => if i ≤ j ∧ j < i + n then buildsvi.sat E sol (sv j) j else sv j) := by
  induction n generalizing i sv with
  | zero =>
    simp only [buildsvi.loop, pure, Except.pure]
    congr 1
    funext j
    have : ¬ (i ≤ j ∧ j < i + 0) := by omega
    rw [if_neg this]
  | succ n ih =>
    have h1 : ¬ 32 ≤ i := by omega
    rw [buildsvi.loop, if_neg h1, ih _ _ (by omega)]
    congr 1
    funext j
    by_cases hj : j = i
    · subst hj
      have h2 : ¬ (j + 1 ≤ j ∧ j < j + 1 + n) := by omega
      have h3 : j ≤ j ∧ j < j + (n + 1) := by omega
      simp [h2, h3]
    · by_cases h4 : i + 1 ≤ j ∧ j < i + 1 + n
      · have h5 : i ≤ j ∧ j < i + (n + 1) := by omega
        simp [h4, h5, hj]
      · have h5 : ¬ (i ≤ j ∧ j < i + (n + 1)) := by omega
        simp [h4, h5, hj]

theorem buildsvi_loop_fault (E : Env) (sol : sol_t) (n i : Nat) (sv : Nat → erb_svi_sat)
    (h1 : i ≤ 32) (h2 : 32 < i + n) :
    buildsvi.loop E sol n i sv = .error (Fault.sviSatIndex 32) := by
  induction n generalizing i sv with
  | zero => omega
  | succ n ih =>
    rw [buildsvi.loop]
    by_cases h3 : 32 ≤ i
    · have : i = 32 := by omega
      subst this
      simp [throw, throwThe, MonadExceptOf.throw]
    · rw [if_neg h3]
      exact ih _ _ (by omega) (by omega)

theorem sviSatBytes_length (sv : Nat → erb_svi_sat) (n : Nat) :
    (sviSatBytes sv n).length = n * LENGTH_SVI_SV := by
  induction n with
  | zero => simp [sviSatBytes]
  | succ n ih =>
    simp only [sviSatBytes] at ih ⊢
    rw [List.range_succ, List.map_append, List.flatten_append, List.length_append, ih]
    simp [erb_svi_sat_bytes_length]
    ring

theorem sviSatBytes_lt (sv : Nat → erb_svi_sat) (n : Nat) : ∀ b ∈ sviSatBytes sv n, b < 256 := by
  intro b hb
  simp only [sviSatBytes, List.mem_flatten, List.mem_map, List.mem_range] at hb
  obtain ⟨l, ⟨i, _, rfl⟩, hb⟩ := hb
  exact erb_svi_sat_bytes_lt _ b hb

theorem sviSatBytes_congr (sv sw : Nat → erb_svi_sat) (n : Nat)
    (h : ∀ j, j < n → sv j = sw j) : sviSatBytes sv n = sviSatBytes sw n := by
  unfold sviSatBytes
  congr 1
  apply List.map_congr_left
  intro j hj
  rw [h j (List.mem_range.mp hj)]

theorem buildsvi_ok (E : Env) (pl : Nat → Nat) (hd : erb_svi_head) (sv : Nat → erb_svi_sat)
    (gpst : Nat) (sol : sol_t) (h : sol.nSV ≤ 32) :
    ∃ q, buildsvi E pl hd sv gpst sol = .ok (q, LENGTH_SVI_HEAD + sol.nSV * LENGTH_SVI_SV) ∧
      bytesOf q (LENGTH_SVI_HEAD + sol.nSV * LENGTH_SVI_SV) =
        (⟨gpst % 2 ^ 32, sol.nSV % 256⟩ : erb_svi_head).bytes ++
          sviSatBytes (fun j => buildsvi.sat E sol (zeroLocals.sviSat j) j) sol.nSV := by
  simp only [buildsvi]
  rw [buildsvi_loop_ok E sol _ _ _ (by omega)]
  simp only [bind, Except.bind, pure, Except.pure]
  refine ⟨_, rfl, ?_⟩
  rw [bytesOf_fill_fill _ _ _ _ _ (erb_svi_head_bytes_length _)
    (by rw [sviSatBytes_length]) (erb_svi_head_bytes_lt _) (sviSatBytes_lt _ _)]
  congr 1
  apply sviSatBytes_congr
  intro j hj
  have : 0 ≤ j ∧ j < 0 + sol.nSV := by omega
  rw [if_pos this]
  rfl

theorem buildsvi_fault (E : Env) (pl : Nat → Nat) (hd : erb_svi_head)
    (sv : Nat → erb_svi_sat) (gpst : Nat) (sol : sol_t) (h : 32 < sol.nSV) :
    buildsvi E pl hd sv gpst sol = .error (Fault.sviSatIndex 32) := by
  simp only [buildsvi]
  rw [buildsvi_loop_fault E sol _ _ _ (by omega) (by omega)]
  rfl

theorem buildsvi_map (E : Env) (pl : Nat → Nat) (hd : erb_svi_head) (sv : Nat → erb_svi_sat)
    (gpst : Nat) (sol : sol_t) :
    (buildsvi E pl hd sv gpst sol).map (fun r => (bytesOf r.1 r.2, r.2)) =
      (sviPayload E gpst sol).map
        (fun bs => (bs, LENGTH_SVI_HEAD + sol.nSV * LENGTH_SVI_SV)) := by
  unfold sviPayload
  by_cases h : sol.nSV ≤ 32
  · obtain ⟨q, hq, hb⟩ := buildsvi_ok E pl hd sv gpst sol h
    obtain ⟨q0, hq0, hb0⟩ :=
      buildsvi_ok E zeroLocals.payload zeroLocals.sviHead zeroLocals.sviSat gpst sol h
    rw [hq, hq0]
    simp only [Except.map]
    rw [hb, hb0]
  · rw [buildsvi_fault _ _ _ _ _ _ (by omega), buildsvi_fault _ _ _ _ _ _ (by omega)]
    rfl

/-- The content of the SAT-INFO payload when the count is within the array: the
head and the `nSV` records, `5 + 20 * nSV` bytes. -/
theorem sviPayload_ok (E : Env) (gpst : Nat) (sol : sol_t) (h : sol.nSV ≤ 32) :
    sviPayload E gpst sol =
      .ok ((⟨gpst % 2 ^ 32, sol.nSV % 256⟩ : erb_svi_head).bytes ++
        sviSatBytes (fun j => buildsvi.sat E sol (zeroLocals.sviSat j) j) sol.nSV) := by
  unfold sviPayload
  obtain ⟨q0, hq0, hb0⟩ :=
    buildsvi_ok E zeroLocals.payload zeroLocals.sviHead zeroLocals.sviSat gpst sol h
  rw [hq0]
  simp only [Except.map]
  rw [hb0]

theorem sviPayload_fault (E : Env) (gpst : Nat) (sol : sol_t) (h : 32 < sol.nSV) :
    sviPayload E gpst sol = .error (Fault.sviSatIndex 32) := by
  unfold sviPayload
  rw [buildsvi_fault _ _ _ _ _ _ h]
  rfl

/-! ## The encoder -/

theorem overlay_chain (f : Nat → Nat) (a b : Nat) (xs ys : List Nat)
    (hb : b = a + xs.length) :
    overlay (overlay f a (xs ++ [0])) b (ys ++ [0]) = overlay f a (xs ++ ys ++ [0]) := by
  rw [overlay_over_eq f a b xs [0] (ys ++ [0]) hb (by simp), List.append_assoc]

theorem verPayload_length (g : Nat) : (verPayload g).length = 7 := bytesOf_length _ _

theorem posPayload_length (E : Env) (g : Nat) (sol : sol_t) :
    (posPayload E g sol).length = 44 := bytesOf_length _ _

theorem dopsPayload_length (E : Env) (g : Nat) (sol : sol_t) :
    (dopsPayload E g sol).length = 12 := bytesOf_length _ _

theorem velPayload_length (E : Env) (g : Nat) (sol : sol_t) :
    (velPayload E g sol).length = 28 := bytesOf_length _ _

theorem outerb_eq (E : Env) (L : Locals) (m : Mem) (buff : Nat) (sol : sol_t)
    (rb : Option (Nat → ℚ)) :
    outerb E L m buff sol rb =
      (encode E sol rb).map fun bs =>
        { mem := { byte := overlay m.byte buff (bs ++ [0]),
                   log := m.log ++ outerbLog buff sol.nSV },
          p := buff + bs.length, ret := bs.length } := by
  simp only [outerb, encode, gpstOf, appendmessage_eq, bind, Except.bind, pure, Except.pure]
  split
  · rename_i e hs
    have h := congrArg (Except.map fun q => bytesOf q LENGTH_STAT) hs
    rw [buildstat_map] at h
    rw [h]
    rfl
  · rename_i q hs
    have h := congrArg (Except.map fun q => bytesOf q LENGTH_STAT) hs
    rw [buildstat_map] at h
    rw [h]
    simp only [Except.map]
    split
    · rename_i e hv
      have h2 := congrArg (Except.map fun r => (bytesOf r.1 r.2, r.2)) hv
      rw [buildsvi_map] at h2
      cases hsp : sviPayload E (wrap 32 (trunc (E.rnd64 ((E.time2gpst sol.time).1 * 1000)))) sol with
      | error e2 =>
        rw [hsp] at h2
        simp only [Except.map, Except.error.injEq] at h2
        rw [← h2]
      | ok bs =>
        rw [hsp] at h2
        simp [Except.map] at h2
    · rename_i r hv
      have h2 := congrArg (Except.map fun r => (bytesOf r.1 r.2, r.2)) hv
      rw [buildsvi_map] at h2
      cases hsp : sviPayload E (wrap 32 (trunc (E.rnd64 ((E.time2gpst sol.time).1 * 1000)))) sol with
      | error e2 =>
        rw [hsp] at h2
        simp [Except.map] at h2
      | ok bs =>
        rw [hsp] at h2
        simp only [Except.map, Except.ok.injEq, Prod.mk.injEq] at h2
        obtain ⟨h3, h4⟩ := h2
        obtain ⟨r1, r2⟩ := r
        simp only at h3 h4
        subst h4
        subst h3
        simp only [buildver_bytes, buildpos_bytes, builddops_bytes, buildvel_bytes]
        rw [overlay_chain m.byte buff _ _ _ (by
              simp only [frameBytes_length, verPayload_length, LENGTH_VER]),
          overlay_chain m.byte buff _ _ _ (by
              simp only [List.length_append, frameBytes_length, verPayload_length,
                posPayload_length, LENGTH_VER, LENGTH_POS]),
          overlay_chain m.byte buff _ _ _ (by
              simp only [List.length_append, frameBytes_length, verPayload_length,
                posPayload_length, bytesOf_length, LENGTH_VER, LENGTH_POS, LENGTH_STAT]),
          overlay_chain m.byte buff _ _ _ (by
              simp only [List.length_append, frameBytes_length, verPayload_length,
                posPayload_length, dopsPayload_length, bytesOf_length, LENGTH_VER, LENGTH_POS,
                LENGTH_STAT, LENGTH_DOPS]),
          overlay_chain m.byte buff _ _ _ (by
              simp only [List.length_append, frameBytes_length, verPayload_length,
                posPayload_length, dopsPayload_length, velPayload_length, bytesOf_length,
                LENGTH_VER, LENGTH_POS, LENGTH_STAT, LENGTH_DOPS, LENGTH_VEL])]
        simp only [List.length_append, frameBytes_length, verPayload_length,
          posPayload_length, dopsPayload_length, velPayload_length, bytesOf_length,
          outerbLog, LENGTH_VER, LENGTH_POS, LENGTH_STAT, LENGTH_DOPS, LENGTH_VEL,
          List.append_assoc, Nat.add_assoc, Nat.reduceAdd]
        congr 2 <;> omega

theorem statPayload_ok (E : Env) (g w : Nat) (sol : sol_t) (rb : Option (Nat → ℚ))
    (h : sol.type = 0 → rb ≠ none) :
    ∃ st, statPayload E g w sol rb = .ok st ∧ st.length = 37 := by
  obtain ⟨q, hq⟩ := buildstat_ok E zeroLocals.payload zeroLocals.status g w sol rb h
  refine ⟨bytesOf q LENGTH_STAT, ?_, bytesOf_length _ _⟩
  rw [statPayload, hq]
  rfl

theorem statPayload_null (E : Env) (g w : Nat) (sol : sol_t) (h : sol.type = 0) :
    statPayload E g w sol none = .error Fault.nullBase := by
  rw [statPayload, buildstat_null _ _ _ _ _ _ h]
  rfl

theorem sviPayload_ok_length (E : Env) (g : Nat) (sol : sol_t) (h : sol.nSV ≤ 32) :
    ∃ sv, sviPayload E g sol = .ok sv ∧ sv.length = 5 + 20 * sol.nSV := by
  refine ⟨_, sviPayload_ok E g sol h, ?_⟩
  rw [List.length_append, erb_svi_head_bytes_length, sviSatBytes_length, LENGTH_SVI_HEAD,
    LENGTH_SVI_SV]
  omega

/-- With at most 32 satellites, and a base reference when the solution is of
type 0, the six frames are produced. -/
theorem encode_ok (E : Env) (sol : sol_t) (rb : Option (Nat → ℚ)) (hn : sol.nSV ≤ 32)
    (hrb : sol.type = 0 → rb ≠ none) :
    ∃ st sv, st.length = 37 ∧ sv.length = 5 + 20 * sol.nSV ∧
      statPayload E (gpstOf E sol) (wrap 16 (E.time2gpst sol.time).2) sol rb = .ok st ∧
      sviPayload E (gpstOf E sol) sol = .ok sv ∧
      encode E sol rb = .ok
        (frameBytes ID_VER (verPayload (gpstOf E sol)) ++
          frameBytes ID_POS (posPayload E (gpstOf E sol) sol) ++ frameBytes ID_STAT st ++
          frameBytes ID_DOPS (dopsPayload E (gpstOf E sol) sol) ++
          frameBytes ID_VEL (velPayload E (gpstOf E sol) sol) ++ frameBytes ID_SVI sv) := by
  obtain ⟨st, hst, hl⟩ := statPayload_ok E (gpstOf E sol) (wrap 16 (E.time2gpst sol.time).2)
    sol rb hrb
  obtain ⟨sv, hsv, hl2⟩ := sviPayload_ok_length E (gpstOf E sol) sol hn
  refine ⟨st, sv, hl, hl2, hst, hsv, ?_⟩
  simp only [encode, hst, hsv, bind, Except.bind, pure, Except.pure]

/-- The length of six frames with the payload lengths of the protocol. -/
theorem six_length (v p st d ve sv : List Nat) (i1 i2 i3 i4 i5 i6 n : Nat)
    (h1 : v.length = 7) (h2 : p.length = 44) (h3 : st.length = 37) (h4 : d.length = 12)
    (h5 : ve.length = 28) (h6 : sv.length = 5 + 20 * n) :
    (frameBytes i1 v ++ frameBytes i2 p ++ frameBytes i3 st ++ frameBytes i4 d ++
      frameBytes i5 ve ++ frameBytes i6 sv).length = 175 + 20 * n := by
  simp only [List.length_append, frameBytes_length, h1, h2, h3, h4, h5, h6]
  omega

/-- A completed call: the outcome in terms of the encoded frames. -/
theorem outerb_ok (E : Env) (L : Locals) (m : Mem) (buff : Nat) (sol : sol_t)
    (rb : Option (Nat → ℚ)) (hn : sol.nSV ≤ 32) (hrb : sol.type = 0 → rb ≠ none) :
    ∃ bs, encode E sol rb = .ok bs ∧ bs.length = 175 + 20 * sol.nSV ∧
      outerb E L m buff sol rb = .ok
        { mem := { byte := overlay m.byte buff (bs ++ [0]),
                   log := m.log ++ outerbLog buff sol.nSV },
          p := buff + bs.length, ret := bs.length } := by
  obtain ⟨st, sv, h1, h2, -, -, h3⟩ := encode_ok E sol rb hn hrb
  refine ⟨_, h3, ?_, ?_⟩
  · exact six_length _ _ _ _ _ _ _ _ _ _ _ _ _ (verPayload_length _) (posPayload_length _ _ _) h1
      (dopsPayload_length _ _ _) (velPayload_length _ _ _) h2
  · rw [outerb_eq, h3]
    rfl

theorem mem_outerbLog (buff n x : Nat) :
    x ∈ outerbLog buff n ↔ buff ≤ x ∧ x ≤ buff + (175 + 20 * n) := by
  simp only [outerbLog, List.mem_append, mem_frameLog, LENGTH_VER, LENGTH_POS, LENGTH_STAT,
    LENGTH_DOPS, LENGTH_VEL, LENGTH_SVI_HEAD, LENGTH_SVI_SV]
  omega

/-! ## The frame walk -/

theorem walk_nil (fuel off : Nat) : walk fuel off [] = some [] := by
  cases fuel <;> rfl

/-- The walk over a frame followed by more bytes: the frame is found and the walk
goes on right after it. -/
theorem walk_frame (fuel off id : Nat) (bs rest : List Nat) (hid : id < 256)
    (hlen : bs.length < 65536) :
    walk (fuel + 1) off (frameBytes id bs ++ rest) =
      (walk fuel (off + bs.length + 7) rest).map fun fs =>
        { offset := off, id := id, len := bs.length, region := covered id bs,
          cka := (fletcher (covered id bs)).1, ckb := (fletcher (covered id bs)).2 } :: fs := by
  have e1 : bs.length % 256 + 256 * (bs.length / 256 % 256) = bs.length := by omega
  have e0 : frameBytes id bs ++ rest =
      0x45 :: 0x52 :: (id % 256) :: (bs.length % 256) :: (bs.length / 256 % 256) ::
        (bs ++ ((fletcher (covered id bs)).1 :: (fletcher (covered id bs)).2 :: rest)) := by
    simp [frameBytes, covered, ERB_SYNC_CHAR1, ERB_SYNC_CHAR2]
  rw [e0, walk, e1]
  have e2 : bs.length + 2 ≤
      (bs ++ ((fletcher (covered id bs)).1 :: (fletcher (covered id bs)).2 :: rest)).length := by
    simp
  simp only [e2, and_self, if_true, true_and]
  have e3 : List.drop (bs.length + 2)
      (bs ++ ((fletcher (covered id bs)).1 :: (fletcher (covered id bs)).2 :: rest)) = rest := by
    rw [List.drop_append]
    rfl
  have e4 : List.take bs.length
      (bs ++ ((fletcher (covered id bs)).1 :: (fletcher (covered id bs)).2 :: rest)) = bs := by
    simp
  have e5 : List.getD (bs ++ ((fletcher (covered id bs)).1 :: (fletcher (covered id bs)).2 ::
      rest)) bs.length 0 = (fletcher (covered id bs)).1 := by
    rw [List.getD_append_right _ _ _ _ (Nat.le_refl _), Nat.sub_self]
    rfl
  have e6 : List.getD (bs ++ ((fletcher (covered id bs)).1 :: (fletcher (covered id bs)).2 ::
      rest)) (bs.length + 1) 0 = (fletcher (covered id bs)).2 := by
    rw [List.getD_append_right _ _ _ _ (by omega), Nat.add_sub_cancel_left]
    rfl
  rw [e3, e4, e5, e6, Nat.mod_eq_of_lt hid]
  simp only [covered, Nat.mod_eq_of_lt hid, List.cons_append, List.nil_append]

/-- The record the walk makes of the frame of a payload found at `off`. -/
theorem walk_six (v p st d ve sv : List Nat) (n fuel : Nat)
    (h1 : v.length = 7) (h2 : p.length = 44) (h3 : st.length = 37) (h4 : d.length = 12)
    (h5 : ve.length = 28) (h6 : sv.length = 5 + 20 * n) (hn : n ≤ 32) :
    walk (fuel + 6) 0 (frameBytes ID_VER v ++ frameBytes ID_POS p ++ frameBytes ID_STAT st ++
        frameBytes ID_DOPS d ++ frameBytes ID_VEL ve ++ frameBytes ID_SVI sv) =
      some
        [{ offset := 0, id := 1, len := 7, region := covered ID_VER v,
           cka := (fletcher (covered ID_VER v)).1, ckb := (fletcher (covered ID_VER v)).2 },
         { offset := 14, id := 2, len := 44, region := covered ID_POS p,
           cka := (fletcher (covered ID_POS p)).1, ckb := (fletcher (covered ID_POS p)).2 },
         { offset := 65, id := 3, len := 37, region := covered ID_STAT st,
           cka := (fletcher (covered ID_STAT st)).1, ckb := (fletcher (covered ID_STAT st)).2 },
         { offset := 109, id := 4, len := 12, region := covered ID_DOPS d,
           cka := (fletcher (covered ID_DOPS d)).1, ckb := (fletcher (covered ID_DOPS d)).2 },
         { offset := 128, id := 5, len := 28, region := covered ID_VEL ve,
           cka := (fletcher (covered ID_VEL ve)).1, ckb := (fletcher (covered ID_VEL ve)).2 },
         { offset := 163, id := 6, len := 5 + 20 * n, region := covered ID_SVI sv,
           cka := (fletcher (covered ID_SVI sv)).1,
           ckb := (fletcher (covered ID_SVI sv)).2 }] := by
  have e : frameBytes ID_VER v ++ frameBytes ID_POS p ++ frameBytes ID_STAT st ++
        frameBytes ID_DOPS d ++ frameBytes ID_VEL ve ++ frameBytes ID_SVI sv =
      frameBytes ID_VER v ++ (frameBytes ID_POS p ++ (frameBytes ID_STAT st ++
        (frameBytes ID_DOPS d ++ (frameBytes ID_VEL ve ++ (frameBytes ID_SVI sv ++ []))))) := by
    simp only [List.append_assoc, List.append_nil]
  rw [e, walk_frame _ _ _ _ _ (by decide) (by omega),
    walk_frame _ _ _ _ _ (by decide) (by omega),
    walk_frame _ _ _ _ _ (by decide) (by omega),
    walk_frame _ _ _ _ _ (by decide) (by omega),
    walk_frame _ _ _ _ _ (by decide) (by omega),
    walk_frame _ _ _ _ _ (by decide) (by omega), walk_nil]
  simp only [Option.map_some', h1, h2, h3, h4, h5, h6, ID_VER, ID_POS, ID_STAT, ID_DOPS, ID_VEL,
    ID_SVI, Nat.zero_add, Nat.reduceAdd]

/-- The frames found in the encoded bytes of one epoch. -/
theorem parse_six (v p st d ve sv : List Nat) (n : Nat)
    (h1 : v.length = 7) (h2 : p.length = 44) (h3 : st.length = 37) (h4 : d.length = 12)
    (h5 : ve.length = 28) (h6 : sv.length = 5 + 20 * n) (hn : n ≤ 32) :
    parse (frameBytes ID_VER v ++ frameBytes ID_POS p ++ frameBytes ID_STAT st ++
        frameBytes ID_DOPS d ++ frameBytes ID_VEL ve ++ frameBytes ID_SVI sv) =
      some
        [{ offset := 0, id := 1, len := 7, region := covered ID_VER v,
           cka := (fletcher (covered ID_VER v)).1, ckb := (fletcher (covered ID_VER v)).2 },
         { offset := 14, id := 2, len := 44, region := covered ID_POS p,
           cka := (fletcher (covered ID_POS p)).1, ckb := (fletcher (covered ID_POS p)).2 },
         { offset := 65, id := 3, len := 37, region := covered ID_STAT st,
           cka := (fletcher (covered ID_STAT st)).1, ckb := (fletcher (covered ID_STAT st)).2 },
         { offset := 109, id := 4, len := 12, region := covered ID_DOPS d,
           cka := (fletcher (covered ID_DOPS d)).1, ckb := (fletcher (covered ID_DOPS d)).2 },
         { offset := 128, id := 5, len := 28, region := covered ID_VEL ve,
           cka := (fletcher (covered ID_VEL ve)).1, ckb := (fletcher (covered ID_VEL ve)).2 },
         { offset := 163, id := 6, len := 5 + 20 * n, region := covered ID_SVI sv,
           cka := (fletcher (covered ID_SVI sv)).1,
           ckb := (fletcher (covered ID_SVI sv)).2 }] := by
  rw [parse, six_length _ _ _ _ _ _ _ _ _ _ _ _ n h1 h2 h3 h4 h5 h6,
    show 175 + 20 * n = (169 + 20 * n) + 6 by omega]
  exact walk_six v p st d ve sv n _ h1 h2 h3 h4 h5 h6 hn

/-- The bytes a completed call reports are the encoded frames. -/
theorem output_eq (f : Nat → Nat) (l : List Nat) (buff : Nat) (bs : List Nat) (p : Nat) :
    Outcome.output buff
      { mem := { byte := overlay f buff (bs ++ [0]), log := l }, p := p, ret := bs.length } =
      bs :=
  read_overlay _ f buff bs [0] rfl

/-- A completed call, with the frames it wrote. -/
theorem outerb_frames (E : Env) (L : Locals) (m : Mem) (buff : Nat) (sol : sol_t)
    (rb : Option (Nat → ℚ)) (hn : sol.nSV ≤ 32) (hrb : sol.type = 0 → rb ≠ none) :
    ∃ o st sv, outerb E L m buff sol rb = .ok o ∧
      o.ret = 175 + 20 * sol.nSV ∧ o.p = buff + o.ret ∧
      st.length = 37 ∧ sv.length = 5 + 20 * sol.nSV ∧
      o.output buff =
        frameBytes ID_VER (verPayload (gpstOf E sol)) ++
          frameBytes ID_POS (posPayload E (gpstOf E sol) sol) ++ frameBytes ID_STAT st ++
          frameBytes ID_DOPS (dopsPayload E (gpstOf E sol) sol) ++
          frameBytes ID_VEL (velPayload E (gpstOf E sol) sol) ++ frameBytes ID_SVI sv := by
  obtain ⟨st, sv, h1, h2, -, -, h3⟩ := encode_ok E sol rb hn hrb
  have ho := outerb_eq E L m buff sol rb
  rw [h3] at ho
  refine ⟨_, st, sv, ho, ?_, rfl, h1, h2, output_eq _ _ _ _ _⟩
  exact six_length _ _ _ _ _ _ _ _ _ _ _ _ _ (verPayload_length _) (posPayload_length _ _ _) h1
    (dopsPayload_length _ _ _) (velPayload_length _ _ _) h2

/-! ## Reading payloads back from the memory -/

/-- A block inside an overlay is read back at its place. -/
theorem read_slice (m : Mem) (f : Nat → Nat) (a : Nat) (xs ys zs : List Nat)
    (h : m.byte = overlay f a (xs ++ ys ++ zs)) : m.read (a + xs.length) ys.length = ys := by
  rw [List.append_assoc, ← overlay_append] at h
  exact read_overlay m _ _ ys zs h

theorem read_drop_take (m : Mem) (a n k j : Nat) (l : List Nat) (h : m.read a n = l)
    (hk : k + j ≤ n) : m.read (a + k) j = (l.drop k).take j := by
  subst h
  apply List.ext_getElem
  · simp [Mem.read]
    omega
  · intro i h1 h2
    simp [Mem.read, Nat.add_assoc]

/-- The payload of a frame inside an overlay is read back five bytes after the
start of the frame. -/
theorem read_payload (m : Mem) (f : Nat → Nat) (a k : Nat) (pre post : List Nat) (id : Nat)
    (bs : List Nat) (h : m.byte = overlay f a (pre ++ frameBytes id bs ++ post))
    (hk : k = pre.length + 5) : m.read (a + k) bs.length = bs := by
  subst hk
  have e : pre ++ frameBytes id bs ++ post =
      (pre ++ [ERB_SYNC_CHAR1, ERB_SYNC_CHAR2, id % 256, bs.length % 256,
        bs.length / 256 % 256]) ++ bs ++
        ([(fletcher (covered id bs)).1, (fletcher (covered id bs)).2] ++ post) := by
    simp [frameBytes, covered]
  rw [e] at h
  have := read_slice m f a _ bs _ h
  simpa using this

/-- The six payloads inside the overlay of six frames. -/
theorem read_six (m : Mem) (f : Nat → Nat) (a i1 i2 i3 i4 i5 i6 : Nat)
    (b1 b2 b3 b4 b5 b6 : List Nat)
    (h : m.byte = overlay f a (frameBytes i1 b1 ++ frameBytes i2 b2 ++ frameBytes i3 b3 ++
      frameBytes i4 b4 ++ frameBytes i5 b5 ++ frameBytes i6 b6 ++ [0]))
    (h1 : b1.length = 7) (h2 : b2.length = 44) (h3 : b3.length = 37) (h4 : b4.length = 12)
    (h5 : b5.length = 28) :
    m.read (a + 5) 7 = b1 ∧ m.read (a + 19) 44 = b2 ∧ m.read (a + 70) 37 = b3 ∧
      m.read (a + 114) 12 = b4 ∧ m.read (a + 133) 28 = b5 ∧
      m.read (a + 168) b6.length = b6 := by
  refine ⟨?_, ?_, ?_, ?_, ?_, ?_⟩
  · rw [← h1]
    exact read_payload m f a 5 [] (frameBytes i2 b2 ++ frameBytes i3 b3 ++
      frameBytes i4 b4 ++ frameBytes i5 b5 ++ frameBytes i6 b6 ++ [0]) i1 b1
      (by rw [h]; simp only [List.append_assoc, List.nil_append]) (by simp)
  · rw [← h2]
    exact read_payload m f a 19 (frameBytes i1 b1) (frameBytes i3 b3 ++
      frameBytes i4 b4 ++ frameBytes i5 b5 ++ frameBytes i6 b6 ++ [0]) i2 b2
      (by rw [h]; simp only [List.append_assoc]) (by simp [frameBytes_length, h1])
  · rw [← h3]
    exact read_payload m f a 70 (frameBytes i1 b1 ++ frameBytes i2 b2) (
      frameBytes i4 b4 ++ frameBytes i5 b5 ++ frameBytes i6 b6 ++ [0]) i3 b3
      (by rw [h]; simp only [List.append_assoc]) (by simp [frameBytes_length, h1, h2])
  · rw [← h4]
    exact read_payload m f a 114 (frameBytes i1 b1 ++ frameBytes i2 b2 ++ frameBytes i3 b3)
      (frameBytes i5 b5 ++ frameBytes i6 b6 ++ [0]) i4 b4
      (by rw [h]; simp only [List.append_assoc]) (by simp [frameBytes_length, h1, h2, h3])
  · rw [← h5]
    exact read_payload m f a 133 (frameBytes i1 b1 ++ frameBytes i2 b2 ++ frameBytes i3 b3 ++
      frameBytes i4 b4) (frameBytes i6 b6 ++ [0]) i5 b5
      (by rw [h]; simp only [List.append_assoc]) (by simp [frameBytes_length, h1, h2, h3, h4])
  · exact read_payload m f a 168 (frameBytes i1 b1 ++ frameBytes i2 b2 ++ frameBytes i3 b3 ++
      frameBytes i4 b4 ++ frameBytes i5 b5) [0] i6 b6
      (by rw [h]) (by simp [frameBytes_length, h1, h2, h3, h4, h5])

/-- A completed call: each payload is read back from its place in the buffer. -/
theorem outerb_payloads (E : Env) (L : Locals) (m : Mem) (buff : Nat) (sol : sol_t)
    (rb : Option (Nat → ℚ)) (hn : sol.nSV ≤ 32) (hrb : sol.type = 0 → rb ≠ none) :
    ∃ o st sv, outerb E L m buff sol rb = .ok o ∧
      statPayload E (gpstOf E sol) (wrap 16 (E.time2gpst sol.time).2) sol rb = .ok st ∧
      sviPayload E (gpstOf E sol) sol = .ok sv ∧
      o.mem.read (buff + 5) 7 = verPayload (gpstOf E sol) ∧
      o.mem.read (buff + 19) 44 = posPayload E (gpstOf E sol) sol ∧
      o.mem.read (buff + 70) 37 = st ∧
      o.mem.read (buff + 114) 12 = dopsPayload E (gpstOf E sol) sol ∧
      o.mem.read (buff + 133) 28 = velPayload E (gpstOf E sol) sol ∧
      o.mem.read (buff + 168) (5 + 20 * sol.nSV) = sv := by
  obtain ⟨st, sv, h1, h2, hst, hsv, h3⟩ := encode_ok E sol rb hn hrb
  have ho := outerb_eq E L m buff sol rb
  rw [h3] at ho
  simp only [Except.map] at ho
  have h6 := read_six
    ⟨overlay m.byte buff (frameBytes ID_VER (verPayload (gpstOf E sol)) ++
      frameBytes ID_POS (posPayload E (gpstOf E sol) sol) ++ frameBytes ID_STAT st ++
      frameBytes ID_DOPS (dopsPayload E (gpstOf E sol) sol) ++
      frameBytes ID_VEL (velPayload E (gpstOf E sol) sol) ++ frameBytes ID_SVI sv ++ [0]),
      m.log ++ outerbLog buff sol.nSV⟩ m.byte buff ID_VER ID_POS ID_STAT ID_DOPS ID_VEL ID_SVI
    _ _ st _ _ sv
    rfl (verPayload_length (gpstOf E sol)) (posPayload_length E (gpstOf E sol) sol) h1
    (dopsPayload_length E (gpstOf E sol) sol) (velPayload_length E (gpstOf E sol) sol)
  rw [h2] at h6
  exact ⟨_, st, sv, ho, hst, hsv, h6⟩

/-- The baseline fields of the STATUS payload of a solution that is not of type
0: bytes 12..23 are the solution's own components, in millimetres. -/
theorem statPayload_enu (E : Env) (g w : Nat) (sol : sol_t) (rb : Option (Nat → ℚ))
    (h : sol.type ≠ 0) :
    ∃ st, statPayload E g w sol rb = .ok st ∧
      (st.drop 12).take 12 =
        le 4 (wrap 32 (trunc (E.rnd64 (1000 * sol.rr 1)))) ++
        le 4 (wrap 32 (trunc (E.rnd64 (1000 * sol.rr 0)))) ++
        le 4 (wrap 32 (trunc (E.rnd64 (-1000 * sol.rr 2)))) := by
  simp only [statPayload, buildstat, h, if_false, Except.map, bind, Except.bind, pure,
    Except.pure]
  rw [bytesOf_fill _ _ _ (erb_stat_bytes_length _) (erb_stat_bytes_lt _)]
  refine ⟨_, rfl, ?_⟩
  simp [erb_stat.bytes, le]

theorem encode_fault_svi (E : Env) (sol : sol_t) (rb : Option (Nat → ℚ))
    (hrb : sol.type = 0 → rb ≠ none) (h : 32 < sol.nSV) :
    encode E sol rb = .error (Fault.sviSatIndex 32) := by
  obtain ⟨st, hst, -⟩ := statPayload_ok E (gpstOf E sol) (wrap 16 (E.time2gpst sol.time).2)
    sol rb hrb
  simp only [encode, hst, sviPayload_fault E _ sol h, bind, Except.bind]

theorem encode_fault_null (E : Env) (sol : sol_t) (h : sol.type = 0) :
    encode E sol none = .error Fault.nullBase := by
  simp only [encode, statPayload_null E _ _ sol h, bind, Except.bind]

/-- With more than 32 satellites the loop of `buildsvi` runs on to `sviSat[32]`. -/
theorem outerb_fault_svi (E : Env) (L : Locals) (m : Mem) (buff : Nat) (sol : sol_t)
    (rb : Option (Nat → ℚ)) (hrb : sol.type = 0 → rb ≠ none) (h : 32 < sol.nSV) :
    outerb E L m buff sol rb = .error (Fault.sviSatIndex 32) := by
  rw [outerb_eq, encode_fault_svi E sol rb hrb h]
  rfl

/-- Without a base reference a solution of type 0 makes `buildstat` read through
the null pointer. -/
theorem outerb_fault_null (E : Env) (L : Locals) (m : Mem) (buff : Nat) (sol : sol_t)
    (h : sol.type = 0) : outerb E L m buff sol none = .error Fault.nullBase := by
  rw [outerb_eq, encode_fault_null E sol h]
  rfl

/-- A completed call, with the payloads of the two builders that can fault. -/
theorem outerb_output (E : Env) (L : Locals) (m : Mem) (buff : Nat) (sol : sol_t)
    (rb : Option (Nat → ℚ)) (hn : sol.nSV ≤ 32) (hrb : sol.type = 0 → rb ≠ none) :
    ∃ o st sv, outerb E L m buff sol rb = .ok o ∧
      statPayload E (gpstOf E sol) (wrap 16 (E.time2gpst sol.time).2) sol rb = .ok st ∧
      sviPayload E (gpstOf E sol) sol = .ok sv ∧
      st.length = 37 ∧ sv.length = 5 + 20 * sol.nSV ∧
      o.output buff =
        frameBytes ID_VER (verPayload (gpstOf E sol)) ++
          frameBytes ID_POS (posPayload E (gpstOf E sol) sol) ++ frameBytes ID_STAT st ++
          frameBytes ID_DOPS (dopsPayload E (gpstOf E sol) sol) ++
          frameBytes ID_VEL (velPayload E (gpstOf E sol) sol) ++ frameBytes ID_SVI sv := by
  obtain ⟨st, sv, h1, h2, hst, hsv, h3⟩ := encode_ok E sol rb hn hrb
  have ho := outerb_eq E L m buff sol rb
  rw [h3] at ho
  exact ⟨_, st, sv, ho, hst, hsv, h1, h2, output_eq _ _ _ _ _⟩

/-! ## The content of the payloads -/

theorem le_mod (n x : Nat) : le n (x % 256 ^ n) = le n x := by
  induction n generalizing x with
  | zero => rfl
  | succ n ih =>
    simp only [le]
    have h1 : x % 256 ^ (n + 1) % 256 = x % 256 :=
      Nat.mod_mod_of_dvd x (Dvd.intro_left (256 ^ n) rfl)
    have h2 : x % 256 ^ (n + 1) / 256 = x / 256 % 256 ^ n := by
      rw [pow_succ, Nat.mul_comm, Nat.mod_mul_right_div_self]
    rw [h1, h2, ih]

theorem le_four_mod (x : Nat) : le 4 (x % 2 ^ 32) = le 4 x := le_mod 4 x

theorem le_two_mod (x : Nat) : le 2 (x % 2 ^ 16) = le 2 x := le_mod 2 x

theorem verPayload_eq (g : Nat) : verPayload g = le 4 g ++ [0, 2, 0] := by
  simp only [verPayload, buildver]
  rw [bytesOf_fill _ _ _ (erb_ver_bytes_length _) (erb_ver_bytes_lt _)]
  simp only [erb_ver.bytes, le_four_mod]
  rfl

theorem posPayload_eq (E : Env) (g : Nat) (sol : sol_t) :
    posPayload E g sol =
      le 4 g ++ le 8 (E.bits64 (E.rnd64 (E.ecef2pos sol.rr 1 * E.R2D))) ++
        le 8 (E.bits64 (E.rnd64 (E.ecef2pos sol.rr 0 * E.R2D))) ++
        le 8 (E.bits64 (E.ecef2pos sol.rr 2)) ++
        le 8 (E.bits64 (E.rnd64 (E.ecef2pos sol.rr 2 - E.geoidh (E.ecef2pos sol.rr)))) ++
        le 4 (wrap 32 (trunc (E.rnd64 (1000 * SQRT E (E.rnd32
          ((if sol.stat ≠ E.SOLQ_NONE ∧ sol.stat ≠ E.SOLQ_DR ∧ sol.qr 0 > 0 then sol.qr 0
              else 0) +
            (if sol.stat ≠ E.SOLQ_NONE ∧ sol.stat ≠ E.SOLQ_DR ∧ sol.qr 1 > 0 then sol.qr 1
              else 0))))))) ++
        le 4 (wrap 32 (trunc (E.rnd64 (1000 * SQRT E
          (if sol.stat ≠ E.SOLQ_NONE ∧ sol.stat ≠ E.SOLQ_DR ∧ sol.qr 2 > 0 then sol.qr 2
            else 0))))) := by
  simp only [posPayload, buildpos]
  rw [bytesOf_fill _ _ _ (erb_pos_bytes_length _ _) (erb_pos_bytes_lt _ _)]
  simp only [erb_pos.bytes, le_four_mod]

theorem dopsPayload_eq (E : Env) (g : Nat) (sol : sol_t) :
    dopsPayload E g sol =
      le 4 g ++ le 2 (wrap 16 (trunc (E.rnd64 (100 * sol.dop 0)))) ++
        le 2 (wrap 16 (trunc (E.rnd64 (100 * sol.dop 1)))) ++
        le 2 (wrap 16 (trunc (E.rnd64 (100 * sol.dop 3)))) ++
        le 2 (wrap 16 (trunc (E.rnd64 (100 * sol.dop 2)))) := by
  simp only [dopsPayload, builddops]
  rw [bytesOf_fill _ _ _ (erb_dops_bytes_length _) (erb_dops_bytes_lt _)]
  simp only [erb_dops.bytes, le_four_mod]

theorem velPayload_eq (E : Env) (g : Nat) (sol : sol_t) :
    velPayload E g sol =
      le 4 g ++
        le 4 (wrap 32 (trunc (E.rnd64
          (100 * E.ecef2enu (E.ecef2pos sol.rr) (fun i => sol.rr (3 + i)) 1)))) ++
        le 4 (wrap 32 (trunc (E.rnd64
          (100 * E.ecef2enu (E.ecef2pos sol.rr) (fun i => sol.rr (3 + i)) 0)))) ++
        le 4 (wrap 32 (trunc (E.rnd64
          (100 * -E.ecef2enu (E.ecef2pos sol.rr) (fun i => sol.rr (3 + i)) 2)))) ++
        le 4 (wrap 32 (trunc (E.rnd64 (100 * SQRT E (E.rnd64
          (E.rnd64 (E.ecef2enu (E.ecef2pos sol.rr) (fun i => sol.rr (3 + i)) 0 *
              E.ecef2enu (E.ecef2pos sol.rr) (fun i => sol.rr (3 + i)) 0) +
            E.rnd64 (E.ecef2enu (E.ecef2pos sol.rr) (fun i => sol.rr (3 + i)) 1 *
              E.ecef2enu (E.ecef2pos sol.rr) (fun i => sol.rr (3 + i)) 1))))))) ++
        le 4 (wrap 32 (trunc (E.rnd64 (E.rnd64
          (E.atan2 (E.ecef2enu (E.ecef2pos sol.rr) (fun i => sol.rr (3 + i)) 0)
              (E.ecef2enu (E.ecef2pos sol.rr) (fun i => sol.rr (3 + i)) 1) * E.R2D) *
            100000)))) ++
        le 4 0 := by
  simp only [velPayload, buildvel]
  rw [bytesOf_fill _ _ _ (erb_vel_bytes_length _) (erb_vel_bytes_lt _)]
  simp only [erb_vel.bytes, le_four_mod]

/-- The content of the STATUS payload, whichever way the baseline is got. -/
theorem statPayload_eq (E : Env) (g w : Nat) (sol : sol_t) (rb : Option (Nat → ℚ))
    (st : List Nat) (h : statPayload E g w sol rb = .ok st) :
    ∃ enu : Nat → ℚ,
      (sol.type ≠ 0 → enu = fun i => sol.rr i) ∧
      (sol.type = 0 → ∃ b, rb = some b ∧
        enu = E.ecef2enu (E.ecef2pos b) (fun i => E.rnd64 (sol.rr i - b i))) ∧
      st = le 4 g ++ le 2 w ++
        le 1 (if sol.stat = E.SOLQ_SINGLE then 1 else if sol.stat = E.SOLQ_FLOAT then 2
          else if sol.stat = E.SOLQ_FIX then 3 else 0) ++
        le 1 (if sol.stat = E.SOLQ_SINGLE then 1 else if sol.stat = E.SOLQ_FLOAT then 1
          else if sol.stat = E.SOLQ_FIX then 1 else 0) ++
        le 1 sol.nSV ++ le 1 sol.ns ++
        le 2 (wrap 16 (trunc (E.rnd32 (100 * sol.age)))) ++
        le 4 (wrap 32 (trunc (E.rnd64 (1000 * enu 1)))) ++
        le 4 (wrap 32 (trunc (E.rnd64 (1000 * enu 0)))) ++
        le 4 (wrap 32 (trunc (E.rnd64 (-1000 * enu 2)))) ++
        le 2 (wrap 16 (trunc (E.rnd32 (10 * sol.ratio)))) ++
        le 2 (wrap 16 (E.time2gpst (lastBaseline E sol)).2) ++
        le 4 (wrap 32 (trunc (E.time2gpst (lastBaseline E sol)).1)) ++
        le 4 0 ++ le 1 0x7F := by
  have hfix : ∀ c : Prop, ∀ [Decidable c], ∀ a b : Nat × Nat,
      (if c then a else b).1 = (if c then a.1 else b.1) ∧
      (if c then a else b).2 = (if c then a.2 else b.2) := by
    intro c _ a b
    split <;> exact ⟨rfl, rfl⟩
  have h1 : ∀ x : Nat, le 1 (x % 256) = le 1 x := fun x => le_mod 1 x
  unfold statPayload at h
  by_cases ht : sol.type = 0
  · cases rb with
    | none =>
      rw [buildstat_null E _ _ _ _ sol ht] at h
      cases h
    | some b =>
      simp only [buildstat, ht, if_true, Except.map, bind, Except.bind, pure, Except.pure,
        Except.ok.injEq] at h
      rw [bytesOf_fill _ _ _ (erb_stat_bytes_length _) (erb_stat_bytes_lt _)] at h
      refine ⟨E.ecef2enu (E.ecef2pos b) (fun i => E.rnd64 (sol.rr i - b i)),
        fun hn => absurd ht hn, fun _ => ⟨b, rfl, rfl⟩, ?_⟩
      rw [← h]
      simp only [erb_stat.bytes, le_four_mod, le_two_mod, h1, lastBaseline, (hfix _ _ _).1,
        (hfix _ _ _).2]
  · simp only [buildstat, ht, if_false, Except.map, bind, Except.bind, pure, Except.pure,
      Except.ok.injEq] at h
    rw [bytesOf_fill _ _ _ (erb_stat_bytes_length _) (erb_stat_bytes_lt _)] at h
    refine ⟨fun i => sol.rr i, fun _ => rfl, fun h0 => absurd h0 ht, ?_⟩
    rw [← h]
    simp only [erb_stat.bytes, le_four_mod, le_two_mod, h1, lastBaseline, (hfix _ _ _).1,
      (hfix _ _ _).2]

theorem read_getD (m : Mem) (a n k : Nat) (l : List Nat) (h : m.read a n = l) (hk : k < n) :
    m.byte (a + k) = l.getD k 0 := by
  subst h
  simp [Mem.read, hk]

/-- A completed call, with the content of the STATUS payload in the buffer. -/
theorem outerb_stat (E : Env) (L : Locals) (m : Mem) (buff : Nat) (sol : sol_t)
    (rb : Option (Nat → ℚ)) (hn : sol.nSV ≤ 32) (hrb : sol.type = 0 → rb ≠ none) :
    ∃ o st, outerb E L m buff sol rb = .ok o ∧
      statPayload E (gpstOf E sol) (wrap 16 (E.time2gpst sol.time).2) sol rb = .ok st ∧
      o.mem.read (buff + 70) 37 = st := by
  obtain ⟨o, st, sv, ho, hst, -, -, -, h70, -, -, -⟩ :=
    outerb_payloads E L m buff sol rb hn hrb
  exact ⟨o, st, ho, hst, h70⟩

theorem trunc_zero : trunc 0 = 0 := by
  simp [trunc]

theorem wrap_zero (w : Nat) : wrap w 0 = 0 := by
  simp [wrap]

/-- A completed call, with the content of the four payloads that cannot fault. -/
theorem outerb_fixed (E : Env) (L : Locals) (m : Mem) (buff : Nat) (sol : sol_t)
    (rb : Option (Nat → ℚ)) (hn : sol.nSV ≤ 32) (hrb : sol.type = 0 → rb ≠ none) :
    ∃ o, outerb E L m buff sol rb = .ok o ∧
      o.mem.read (buff + 5) 7 = verPayload (gpstOf E sol) ∧
      o.mem.read (buff + 19) 44 = posPayload E (gpstOf E sol) sol ∧
      o.mem.read (buff + 114) 12 = dopsPayload E (gpstOf E sol) sol ∧
      o.mem.read (buff + 133) 28 = velPayload E (gpstOf E sol) sol := by
  obtain ⟨o, st, sv, ho, -, -, h5, h19, -, h114, h133, -⟩ :=
    outerb_payloads E L m buff sol rb hn hrb
  exact ⟨o, ho, h5, h19, h114, h133⟩

/-! ## Truncation and conversion -/

theorem trunc_neg (x : ℚ) : trunc (-x) = -trunc x := by
  simp [trunc]

theorem trunc_of_nonneg (x : ℚ) (h : 0 ≤ x) : trunc x = ⌊x⌋ := by
  rw [Rat.floor_def, trunc]
  exact Int.tdiv_eq_ediv (Rat.num_nonneg.mpr h) (Int.ofNat_nonneg _)

theorem trunc_intCast (z : Int) : trunc (z : ℚ) = z := by
  simp [trunc]

/-- Truncation of a value in `[0, B)` stays in `[0, B)`. -/
theorem trunc_range (x : ℚ) (B : Int) (h0 : 0 ≤ x) (h1 : x < B) :
    0 ≤ trunc x ∧ trunc x < B := by
  rw [trunc_of_nonneg x h0]
  exact ⟨Int.floor_nonneg.mpr h0, Int.floor_lt.mpr h1⟩

/-- Truncation of a value of magnitude below `B` has magnitude below `B`. -/
theorem trunc_abs_lt (x : ℚ) (B : Int) (h : |x| < B) : -B < trunc x ∧ trunc x < B := by
  rcases le_total 0 x with h0 | h0
  · have := trunc_range x B h0 (lt_of_le_of_lt (le_abs_self x) h)
    constructor <;> omega
  · have h2 : 0 ≤ -x := neg_nonneg.mpr h0
    have h3 : -x < B := lt_of_le_of_lt (neg_le_abs x) h
    have := trunc_range (-x) B h2 h3
    rw [trunc_neg] at this
    constructor <;> omega

theorem wrap_of_range (w : Nat) (z : Int) (h0 : 0 ≤ z) (h1 : z < 2 ^ w) :
    wrap w z = z.toNat := by
  rw [wrap, Int.emod_eq_of_lt h0 h1]

/-- The two's-complement pattern of a value in the 32-bit signed range decodes
to the value. -/
theorem int32_wrap (z : Int) (h0 : -2 ^ 31 ≤ z) (h1 : z < 2 ^ 31) : int32 (wrap 32 z) = z := by
  unfold int32 wrap
  norm_num at h0 h1 ⊢
  split <;> omega

/-- A completed call: fields of the STATUS payload that do not depend on the
baseline, at their places in the buffer. -/
theorem outerb_stat_fields (E : Env) (L : Locals) (m : Mem) (buff : Nat) (sol : sol_t)
    (rb : Option (Nat → ℚ)) (hn : sol.nSV ≤ 32) (hrb : sol.type = 0 → rb ≠ none) :
    ∃ o, outerb E L m buff sol rb = .ok o ∧
      o.mem.read (buff + 70) 4 = le 4 (gpstOf E sol) ∧
      o.mem.read (buff + 74) 2 = le 2 (wrap 16 (E.time2gpst sol.time).2) ∧
      o.mem.read (buff + 80) 2 = le 2 (wrap 16 (trunc (E.rnd32 (100 * sol.age)))) ∧
      o.mem.read (buff + 96) 2 = le 2 (wrap 16 (E.time2gpst (lastBaseline E sol)).2) ∧
      o.mem.read (buff + 98) 4 =
        le 4 (wrap 32 (trunc (E.time2gpst (lastBaseline E sol)).1)) := by
  obtain ⟨o, st, ho, hst, h70⟩ := outerb_stat E L m buff sol rb hn hrb
  obtain ⟨enu, -, -, heq⟩ := statPayload_eq E _ _ sol rb st hst
  have a0 := read_drop_take o.mem (buff + 70) 37 0 4 st h70 (by decide)
  have a4 := read_drop_take o.mem (buff + 70) 37 4 2 st h70 (by decide)
  have a10 := read_drop_take o.mem (buff + 70) 37 10 2 st h70 (by decide)
  have a26 := read_drop_take o.mem (buff + 70) 37 26 2 st h70 (by decide)
  have a28 := read_drop_take o.mem (buff + 70) 37 28 4 st h70 (by decide)
  rw [show buff + 70 + 0 = buff + 70 by omega] at a0
  rw [show buff + 70 + 4 = buff + 74 by omega] at a4
  rw [show buff + 70 + 10 = buff + 80 by omega] at a10
  rw [show buff + 70 + 26 = buff + 96 by omega] at a26
  rw [show buff + 70 + 28 = buff + 98 by omega] at a28
  refine ⟨o, ho, ?_, ?_, ?_, ?_, ?_⟩
  · rw [a0, heq]
    simp [le]
  · rw [a4, heq]
    simp [le]
  · rw [a10, heq]
    simp [le]
  · rw [a26, heq]
    simp [le]
  · rw [a28, heq]
    simp [le]

theorem foldl_ckStep_fst (l : List Nat) (c : Nat × Nat) (hc : c.1 < 256) :
    (l.foldl ckStep c).1 = (c.1 + l.sum) % 256 := by
  induction l generalizing c with
  | nil =>
    rw [List.foldl_nil, List.sum_nil, Nat.add_zero, Nat.mod_eq_of_lt hc]
  | cons b l ih =>
    rw [List.foldl_cons, ih _ (Nat.mod_lt _ (by norm_num)), List.sum_cons]
    simp [ckStep, Nat.add_assoc]

/-- The first checksum byte is the sum of the bytes modulo 256. -/
theorem fletcher_fst (l : List Nat) : (fletcher l).1 = l.sum % 256 := by
  rw [fletcher, foldl_ckStep_fst l (0, 0) (by norm_num)]
  simp

theorem sum_set (l : List Nat) (i b : Nat) (h : i < l.length) :
    (l.set i b).sum + l.getD i 0 = l.sum + b := by
  induction l generalizing i with
  | nil => simp at h
  | cons a l ih =>
    cases i with
    | zero =>
      simp only [List.set_cons_zero, List.sum_cons, List.getD_cons_zero]
      omega
    | succ i =>
      have := ih i (by simpa using h)
      simp only [List.set_cons_succ, List.sum_cons, List.getD_cons_succ]
      omega

/-- Replacing one byte by a different byte changes the first checksum byte. -/
theorem fletcher_set_ne (l : List Nat) (i b : Nat) (h : i < l.length) (hb : b < 256)
    (hl : l.getD i 0 < 256) (hne : b ≠ l.getD i 0) : fletcher (l.set i b) ≠ fletcher l := by
  intro heq
  have h1 := congrArg Prod.fst heq
  rw [fletcher_fst, fletcher_fst] at h1
  have h2 := sum_set l i b h
  omega

theorem covered_lt (id : Nat) (pl : Nat → Nat) (n : Nat) :
    ∀ x ∈ covered id (bytesOf pl n), x < 256 := by
  intro x hx
  simp only [covered, bytesOf, List.cons_append, List.nil_append, List.mem_cons, List.mem_map,
    List.mem_range] at hx
  rcases hx with rfl | rfl | rfl | ⟨k, -, rfl⟩ <;> exact Nat.mod_lt _ (by norm_num)

/-- The parts of the frame `appendmessage` leaves in memory: the whole frame,
its checksummed region, and its two checksum bytes. -/
theorem appendmessage_parts (sc : Bool) (m : Mem) (p id : Nat) (payload : Nat → Nat)
    (n : Nat) :
    (appendmessage sc m p id payload n).1.read p (n + 7) = frameBytes id (bytesOf payload n) ∧
      (((appendmessage sc m p id payload n).1.read p (n + 7)).drop 2).take (3 + n) =
        covered id (bytesOf payload n) ∧
      ((appendmessage sc m p id payload n).1.read p (n + 7)).getD (5 + n) 0 =
        (fletcher (covered id (bytesOf payload n))).1 ∧
      ((appendmessage sc m p id payload n).1.read p (n + 7)).getD (6 + n) 0 =
        (fletcher (covered id (bytesOf payload n))).2 := by
  have hr : (appendmessage sc m p id payload n).1.read p (n + 7) =
      frameBytes id (bytesOf payload n) := by
    have h := read_overlay (appendmessage sc m p id payload n).1 m.byte p
      (frameBytes id (bytesOf payload n)) [0] (appendmessage_byte sc m p id payload n)
    rwa [frameBytes_length, bytesOf_length] at h
  have hc : (covered id (bytesOf payload n)).length = 3 + n := by
    rw [covered_length, bytesOf_length]
    omega
  rw [hr]
  refine ⟨rfl, ?_, ?_, ?_⟩
  · rw [← hc]
    simp [frameBytes]
  · rw [frameBytes, List.getD_append_right _ _ _ _ (by simp [hc]; omega)]
    simp [hc]
    rw [show 5 + n - (3 + n + 2) = 0 by omega]
    rfl
  · rw [frameBytes, List.getD_append_right _ _ _ _ (by simp [hc]; omega)]
    simp [hc]
    rw [show 6 + n - (3 + n + 2) = 1 by omega]
    rfl

/-! ## Adjacent transposition -/

/-- From two states with the same first sum, the first sums stay equal and the
difference of the second sums is kept. -/
theorem foldl_ckStep_shift (l : List Nat) (x y z : Nat) :
    (l.foldl ckStep (x, y)).1 = (l.foldl ckStep (x, z)).1 ∧
      ((l.foldl ckStep (x, y)).2 + z) % 256 = ((l.foldl ckStep (x, z)).2 + y) % 256 := by
  induction l generalizing x y z with
  | nil => exact ⟨rfl, by simp [Nat.add_comm]⟩
  | cons b l ih =>
    simp only [List.foldl_cons, ckStep]
    obtain ⟨h1, h2⟩ := ih ((x + b) % 256) ((y + (x + b) % 256) % 256)
      ((z + (x + b) % 256) % 256)
    exact ⟨h1, by omega⟩

/-- Two adjacent bytes exchanged: the first checksum byte is kept, the second
one changes when the two bytes differ. -/
theorem fletcher_swap (pre post : List Nat) (a b : Nat) (h : a % 256 ≠ b % 256) :
    (fletcher (pre ++ b :: a :: post)).1 = (fletcher (pre ++ a :: b :: post)).1 ∧
      (fletcher (pre ++ b :: a :: post)).2 ≠ (fletcher (pre ++ a :: b :: post)).2 := by
  simp only [fletcher, List.foldl_append, List.foldl_cons]
  generalize List.foldl ckStep (0, 0) pre = c
  obtain ⟨c1, c2⟩ := c
  simp only [ckStep]
  have hx : ((c1 + b) % 256 + a) % 256 = ((c1 + a) % 256 + b) % 256 := by omega
  rw [hx]
  obtain ⟨h1, h2⟩ := foldl_ckStep_shift post (((c1 + a) % 256 + b) % 256)
    (((c2 + (c1 + b) % 256) % 256 + ((c1 + a) % 256 + b) % 256) % 256)
    (((c2 + (c1 + a) % 256) % 256 + ((c1 + a) % 256 + b) % 256) % 256)
  refine ⟨h1, ?_⟩
  intro he
  rw [he] at h2
  omega

/-- The bytes of a buffer from index 2, split at an index `i` and its
successor. -/
theorem range_split (f : Nat → Nat) (n j : Nat) (h : j + 1 < n) :
    (List.range n).map f =
      (List.range j).map f ++ f j :: f (j + 1) ::
        (List.range (n - (j + 2))).map fun k => f (j + 2 + k) := by
  obtain ⟨m, rfl⟩ : ∃ m, n = j + 2 + m := ⟨n - (j + 2), by omega⟩
  rw [Nat.add_sub_cancel_left, List.range_add, List.range_succ, List.range_succ]
  simp [Function.comp_def]

theorem calculatesum_exchange (sc : Bool) (buff : Nat → Nat) (len : Int) (i : Nat)
    (hi : 2 ≤ i) (hlen : (i : Int) + 1 < len) (hne : buff i % 256 ≠ buff (i + 1) % 256) :
    (calculatesum sc (exchange buff i) len).1 = (calculatesum sc buff len).1 ∧
      (calculatesum sc (exchange buff i) len).2 ≠ (calculatesum sc buff len).2 := by
  rw [calculatesum_eq, calculatesum_eq]
  obtain ⟨j, rfl⟩ : ∃ j, i = 2 + j := ⟨i - 2, by omega⟩
  have hj : j + 1 < (len - 2).toNat := by omega
  rw [range_split (fun k => exchange buff (2 + j) (2 + k) % 256) _ j hj,
    range_split (fun k => buff (2 + k) % 256) _ j hj]
  have e1 : (List.range j).map (fun k => exchange buff (2 + j) (2 + k) % 256) =
      (List.range j).map (fun k => buff (2 + k) % 256) := by
    apply List.map_congr_left
    intro k hk
    have := List.mem_range.mp hk
    simp only [exchange]
    rw [if_neg (by omega), if_neg (by omega)]
  have e2 : (List.range ((len - 2).toNat - (j + 2))).map
        (fun k => exchange buff (2 + j) (2 + (j + 2 + k)) % 256) =
      (List.range ((len - 2).toNat - (j + 2))).map (fun k => buff (2 + (j + 2 + k)) % 256) := by
    apply List.map_congr_left
    intro k _
    simp only [exchange]
    rw [if_neg (by omega), if_neg (by omega)]
  have e3 : exchange buff (2 + j) (2 + j) = buff (2 + j + 1) := by
    simp [exchange]
  have e4 : exchange buff (2 + j) (2 + (j + 1)) = buff (2 + j) := by
    simp only [exchange]
    rw [if_neg (by omega), if_pos (by omega)]
  simp only [e1, e2, e3, e4]
  rw [show 2 + (j + 1) = 2 + j + 1 by omega]
  exact fletcher_swap _ _ _ _ (by simpa using hne)

theorem frameBytes_lt (id : Nat) (pl : Nat → Nat) (n : Nat) :
    ∀ x ∈ frameBytes id (bytesOf pl n), x < 256 := by
  intro x hx
  simp only [frameBytes, List.mem_append, List.mem_cons, List.mem_singleton, List.not_mem_nil,
    or_false] at hx
  rcases hx with ((rfl | rfl) | h) | rfl | rfl
  · decide
  · decide
  · exact covered_lt id pl n x h
  · exact (fletcher_lt _).1
  · exact (fletcher_lt _).2

/-- The frame `appendmessage` leaves in memory, seen as the buffer a receiver
hands to `calculatesum`: every byte is below 256, and the checksum over the
frame is the pair of its last two bytes. -/
theorem appendmessage_check (sc rc : Bool) (m : Mem) (p id : Nat) (payload : Nat → Nat)
    (n : Nat) :
    (∀ k, k < n + 7 → (appendmessage sc m p id payload n).1.byte (p + k) < 256) ∧
      calculatesum rc (fun k => (appendmessage sc m p id payload n).1.byte (p + k))
          ((n : Int) + 5) =
        ((appendmessage sc m p id payload n).1.byte (p + (n + 5)),
         (appendmessage sc m p id payload n).1.byte (p + (n + 6))) := by
  obtain ⟨hr, hd, h5, h6⟩ := appendmessage_parts sc m p id payload n
  constructor
  · intro k hk
    rw [read_getD _ p (n + 7) k _ hr hk]
    have hl : k < (frameBytes id (bytesOf payload n)).length := by
      rw [frameBytes_length, bytesOf_length]
      exact hk
    rw [List.getD_eq_getElem _ _ hl]
    exact frameBytes_lt id payload n _ (List.getElem_mem _)
  · rw [read_getD _ p (n + 7) (n + 5) _ rfl (by omega),
      read_getD _ p (n + 7) (n + 6) _ rfl (by omega), Nat.add_comm n 5, Nat.add_comm n 6, h5, h6,
      calculatesum_eq, ← hd, ← fletcher_map_mod (List.take _ _)]
    have h := read_drop_take (appendmessage sc m p id payload n).1 p (n + 7) 2 (3 + n) _ rfl
      (by omega)
    rw [← h]
    congr 1
    rw [show ((n : Int) + 5 - 2).toNat = 3 + n by omega]
    simp only [Mem.read, List.map_map, Function.comp_def, Nat.add_assoc]

/-! ## The base reference -/

/-- A solution that is not of type 0 makes `buildstat` leave the base reference
alone. -/
theorem buildstat_enu (E : Env) (pl : Nat → Nat) (s : erb_stat) (g w : Nat) (sol : sol_t)
    (rb1 rb2 : Option (Nat → ℚ)) (h : sol.type ≠ 0) :
    buildstat E pl s g w sol rb1 = buildstat E pl s g w sol rb2 := by
  simp only [buildstat, h, if_false]

theorem outerb_enu (E : Env) (L : Locals) (m : Mem) (buff : Nat) (sol : sol_t)
    (rb1 rb2 : Option (Nat → ℚ)) (h : sol.type ≠ 0) :
    outerb E L m buff sol rb1 = outerb E L m buff sol rb2 := by
  simp only [outerb, buildstat_enu E _ _ _ _ sol rb1 rb2 h]

/-- The STATUS payload is twelve bytes that do not depend on the base reference,
the twelve bytes of the baseline fields, and thirteen bytes that do not depend
on the base reference. -/
theorem statPayload_split (E : Env) (g w : Nat) (sol : sol_t) :
    ∃ A B : List Nat, A.length = 12 ∧ B.length = 13 ∧
      ∀ rb st, statPayload E g w sol rb = .ok st → ∃ M, M.length = 12 ∧ st = A ++ M ++ B := by
  refine ⟨le 4 g ++ le 2 w ++
      le 1 (if sol.stat = E.SOLQ_SINGLE then 1 else if sol.stat = E.SOLQ_FLOAT then 2
        else if sol.stat = E.SOLQ_FIX then 3 else 0) ++
      le 1 (if sol.stat = E.SOLQ_SINGLE then 1 else if sol.stat = E.SOLQ_FLOAT then 1
        else if sol.stat = E.SOLQ_FIX then 1 else 0) ++
      le 1 sol.nSV ++ le 1 sol.ns ++ le 2 (wrap 16 (trunc (E.rnd32 (100 * sol.age)))),
    le 2 (wrap 16 (trunc (E.rnd32 (10 * sol.ratio)))) ++
      le 2 (wrap 16 (E.time2gpst (lastBaseline E sol)).2) ++
      le 4 (wrap 32 (trunc (E.time2gpst (lastBaseline E sol)).1)) ++ le 4 0 ++ le 1 0x7F,
    by simp only [List.length_append, le_length], by simp only [List.length_append, le_length],
    ?_⟩
  intro rb st h
  obtain ⟨enu, -, -, hst⟩ := statPayload_eq E g w sol rb st h
  refine ⟨le 4 (wrap 32 (trunc (E.rnd64 (1000 * enu 1)))) ++
    le 4 (wrap 32 (trunc (E.rnd64 (1000 * enu 0)))) ++
    le 4 (wrap 32 (trunc (E.rnd64 (-1000 * enu 2)))),
    by simp only [List.length_append, le_length], ?_⟩
  rw [hst]
  simp only [List.append_assoc]

/-- Two lists that differ in one stretch agree at every index outside it. -/
theorem getD_patch (xs ys zs us : List Nat) (k : Nat) (hl : ys.length = zs.length)
    (hk : k < xs.length ∨ xs.length + ys.length ≤ k) :
    (xs ++ ys ++ us).getD k 0 = (xs ++ zs ++ us).getD k 0 := by
  rcases hk with hk | hk
  · rw [List.append_assoc, List.append_assoc, List.getD_append _ _ _ _ hk,
      List.getD_append _ _ _ _ hk]
  · rw [List.getD_append_right _ _ _ _ (by rw [List.length_append]; omega),
      List.getD_append_right _ _ _ _ (by rw [List.length_append]; omega),
      List.length_append, List.length_append, hl]

/-- A completed call for a solution of type 0 with a base reference: the bytes
in terms of the three parts of the STATUS payload. -/
theorem outerb_ecef (E : Env) (L : Locals) (m : Mem) (buff : Nat) (sol : sol_t)
    (hn : sol.nSV ≤ 32) :
    ∃ (X B Z : List Nat) (lg : List Nat) (n : Nat), X.length = 82 ∧ B.length = 13 ∧
      ∀ b : Nat → ℚ, ∃ (M C : List Nat) (o : Outcome), M.length = 12 ∧ C.length = 2 ∧
        outerb E L m buff sol (some b) = .ok o ∧ o.ret = n ∧ o.p = buff + n ∧ o.mem.log = lg ∧
        (X ++ M ++ (B ++ C ++ Z)).length = n + 1 ∧
        o.mem.byte = overlay m.byte buff (X ++ M ++ (B ++ C ++ Z)) := by
  obtain ⟨A, B, hA, hB, hsplit⟩ := statPayload_split E (gpstOf E sol)
    (wrap 16 (E.time2gpst sol.time).2) sol
  obtain ⟨sv, hsv, hsvl⟩ := sviPayload_ok_length E (gpstOf E sol) sol hn
  refine ⟨frameBytes ID_VER (verPayload (gpstOf E sol)) ++
      frameBytes ID_POS (posPayload E (gpstOf E sol) sol) ++
      [ERB_SYNC_CHAR1, ERB_SYNC_CHAR2, ID_STAT % 256, 37 % 256, 37 / 256 % 256] ++ A, B,
    frameBytes ID_DOPS (dopsPayload E (gpstOf E sol) sol) ++
      frameBytes ID_VEL (velPayload E (gpstOf E sol) sol) ++ frameBytes ID_SVI sv ++ [0],
    m.log ++ outerbLog buff sol.nSV, 175 + 20 * sol.nSV, ?_, hB, ?_⟩
  · simp only [List.length_append, frameBytes_length, verPayload_length, posPayload_length, hA,
      List.length_cons, List.length_nil]
  · intro b
    obtain ⟨st, sv2, hl1, -, hst, hsv2, henc⟩ := encode_ok E sol (some b) hn
      (fun _ h => Option.noConfusion h)
    rw [hsv] at hsv2
    obtain rfl : sv = sv2 := Except.ok.inj hsv2
    obtain ⟨M, hM, hstM⟩ := hsplit (some b) st hst
    have ho := outerb_eq E L m buff sol (some b)
    rw [henc] at ho
    simp only [Except.map] at ho
    have hlen := six_length _ _ _ _ _ _ ID_VER ID_POS ID_STAT ID_DOPS ID_VEL ID_SVI sol.nSV
      (verPayload_length (gpstOf E sol)) (posPayload_length E (gpstOf E sol) sol) hl1
      (dopsPayload_length E (gpstOf E sol) sol) (velPayload_length E (gpstOf E sol) sol) hsvl
    have hbs : frameBytes ID_VER (verPayload (gpstOf E sol)) ++
          frameBytes ID_POS (posPayload E (gpstOf E sol) sol) ++ frameBytes ID_STAT st ++
          frameBytes ID_DOPS (dopsPayload E (gpstOf E sol) sol) ++
          frameBytes ID_VEL (velPayload E (gpstOf E sol) sol) ++ frameBytes ID_SVI sv ++ [0] =
        frameBytes ID_VER (verPayload (gpstOf E sol)) ++
          frameBytes ID_POS (posPayload E (gpstOf E sol) sol) ++
          [ERB_SYNC_CHAR1, ERB_SYNC_CHAR2, ID_STAT % 256, 37 % 256, 37 / 256 % 256] ++ A ++ M ++
          (B ++ [(fletcher (covered ID_STAT st)).1, (fletcher (covered ID_STAT st)).2] ++
            (frameBytes ID_DOPS (dopsPayload E (gpstOf E sol) sol) ++
              frameBytes ID_VEL (velPayload E (gpstOf E sol) sol) ++ frameBytes ID_SVI sv ++
              [0])) := by
      rw [frameBytes.eq_def ID_STAT st]
      generalize fletcher (covered ID_STAT st) = f
      rw [covered, hl1, hstM]
      simp only [List.append_assoc, List.cons_append, List.nil_append]
    refine ⟨M, [(fletcher (covered ID_STAT st)).1, (fletcher (covered ID_STAT st)).2], _, hM,
      rfl, ho, hlen, ?_, rfl, ?_, ?_⟩
    · show buff + _ = _
      rw [hlen]
    · rw [← hbs, List.length_append, hlen]
      rfl
    · show overlay _ _ _ = _
      rw [hbs]

/-! ## The last store -/

/-- The stores of `appendmessage` end with those of its last `sprintf`: the two
checksum bytes and the terminator. -/
theorem frameLog_end (p n : Nat) :
    ∃ pre, frameLog p n = pre ++ [p + n + 5, p + n + 6, p + n + 7] := by
  refine ⟨(List.range 3).map (p + ·) ++ (List.range 2).map (p + 2 + ·) ++
    (List.range 3).map (p + 2 + 1 + ·) ++ (List.range n).map (p + 2 + 1 + 2 + ·), ?_⟩
  have h : (List.range 3).map (p + 2 + 1 + 2 + n + ·) = [p + n + 5, p + n + 6, p + n + 7] := by
    simp only [List.range_succ, List.range_zero, List.nil_append, List.cons_append,
      List.map_cons, List.map_nil, List.cons.injEq, and_true]
    omega
  rw [frameLog, h]

/-- The stores of `outerb` end with those of the last `sprintf`: the two
checksum bytes of the SAT-INFO frame and the terminator. -/
theorem outerbLog_end (buff n : Nat) :
    ∃ pre, outerbLog buff n =
      pre ++ [buff + (175 + 20 * n) - 2, buff + (175 + 20 * n) - 1, buff + (175 + 20 * n)] := by
  obtain ⟨pre, h⟩ := frameLog_end (buff + 163) (LENGTH_SVI_HEAD + n * LENGTH_SVI_SV)
  refine ⟨frameLog buff LENGTH_VER ++ frameLog (buff + 14) LENGTH_POS ++
    frameLog (buff + 65) LENGTH_STAT ++ frameLog (buff + 109) LENGTH_DOPS ++
    frameLog (buff + 128) LENGTH_VEL ++ pre, ?_⟩
  have e1 : buff + 163 + (LENGTH_SVI_HEAD + n * LENGTH_SVI_SV) + 5 =
      buff + (175 + 20 * n) - 2 := by
    simp only [LENGTH_SVI_HEAD, LENGTH_SVI_SV]
    omega
  have e2 : buff + 163 + (LENGTH_SVI_HEAD + n * LENGTH_SVI_SV) + 6 =
      buff + (175 + 20 * n) - 1 := by
    simp only [LENGTH_SVI_HEAD, LENGTH_SVI_SV]
    omega
  have e3 : buff + 163 + (LENGTH_SVI_HEAD + n * LENGTH_SVI_SV) + 7 =
      buff + (175 + 20 * n) := by
    simp only [LENGTH_SVI_HEAD, LENGTH_SVI_SV]
    omega
  rw [outerbLog, h, e1, e2, e3]
  simp only [List.append_assoc]

/-! ## Claims -/

/-- C1. For every solution with at most 32 satellites (and a base reference when
the solution is of type 0, xyz-ecef), `outerb` completes and the bytes it reports
split, walking from offset 0 by sync bytes, id, 16-bit little-endian length,
payload and two checksum bytes, into exactly six frames: ids 1, 2, 3, 4, 5, 6 in
that order, length fields 7, 44, 37, 12, 28 and `5 + 20 * nSV`, starting at the
offsets 0, 14, 65, 109, 128 and 163. -/
theorem C1_six_frames (E : Env) (L : Locals) (m : Mem) (buff : Nat) (sol : sol_t)
    (rb : Option (Nat → ℚ)) (hn : sol.nSV ≤ 32) (hrb : sol.type = 0 → rb ≠ none) :
    ∃ o, outerb E L m buff sol rb = .ok o ∧
      (parse (o.output buff)).map (List.map fun f => (f.offset, f.id, f.len)) =
        some [(0, 1, 7), (14, 2, 44), (65, 3, 37), (109, 4, 12), (128, 5, 28),
          (163, 6, 5 + 20 * sol.nSV)] := by
  obtain ⟨o, st, sv, ho, -, -, h1, h2, hout⟩ := outerb_frames E L m buff sol rb hn hrb
  refine ⟨o, ho, ?_⟩
  rw [hout, parse_six _ _ _ _ _ _ sol.nSV (verPayload_length _) (posPayload_length _ _ _) h1
    (dopsPayload_length _ _ _) (velPayload_length _ _ _) h2 hn]
  rfl

/-- C1 at a solution with no satellite and at one with 32: the last length field
is 5, respectively 645. -/
theorem C1_six_frames_witness :
    ((sampleSol 0 0).nSV ≤ 32 ∧
      ∃ o, outerb sampleEnv zeroLocals zeroMem 0 (sampleSol 0 0) (some sampleBase) = .ok o ∧
        (parse (o.output 0)).map (List.map fun f => (f.offset, f.id, f.len)) =
          some [(0, 1, 7), (14, 2, 44), (65, 3, 37), (109, 4, 12), (128, 5, 28), (163, 6, 5)]) ∧
    ((sampleSol 1 32).nSV ≤ 32 ∧
      ∃ o, outerb sampleEnv zeroLocals zeroMem 0 (sampleSol 1 32) none = .ok o ∧
        (parse (o.output 0)).map (List.map fun f => (f.offset, f.id, f.len)) =
          some [(0, 1, 7), (14, 2, 44), (65, 3, 37), (109, 4, 12), (128, 5, 28),
            (163, 6, 645)]) :=
  ⟨⟨by decide, C1_six_frames sampleEnv zeroLocals zeroMem 0 (sampleSol 0 0) (some sampleBase)
      (by decide) (fun _ h => Option.noConfusion h)⟩,
   ⟨by decide, C1_six_frames sampleEnv zeroLocals zeroMem 0 (sampleSol 1 32) none
      (by decide) (fun h => absurd h (by decide))⟩⟩

/-- C2. For every frame `appendmessage` writes, the checksum of section 4.1
recomputed over the frame bytes `[2, 5 + Len)` (id byte, two length bytes,
payload) is the pair of the frame's last two bytes, in that order; and each of
the six frames found in the output of `outerb` carries the checksum of its
bytes `[2, 5 + Len)`. -/
theorem C2_checksum (E : Env) (L : Locals) (m : Mem) (buff : Nat) (sol : sol_t)
    (rb : Option (Nat → ℚ)) (hn : sol.nSV ≤ 32) (hrb : sol.type = 0 → rb ≠ none) :
    (∀ (sc : Bool) (m1 : Mem) (p id : Nat) (payload : Nat → Nat) (len : Nat),
      fletcher ((((appendmessage sc m1 p id payload len).1.read p (len + 7)).drop 2).take
          (3 + len)) =
        (((appendmessage sc m1 p id payload len).1.read p (len + 7)).getD (5 + len) 0,
         ((appendmessage sc m1 p id payload len).1.read p (len + 7)).getD (6 + len) 0)) ∧
    ∃ o fs, outerb E L m buff sol rb = .ok o ∧ parse (o.output buff) = some fs ∧
      fs.length = 6 ∧ ∀ f ∈ fs, fletcher f.region = (f.cka, f.ckb) := by
  constructor
  · intro sc m1 p id payload len
    have hr : (appendmessage sc m1 p id payload len).1.read p (len + 7) =
        frameBytes id (bytesOf payload len) := by
      have h := read_overlay (appendmessage sc m1 p id payload len).1 m1.byte p
        (frameBytes id (bytesOf payload len)) [0] (appendmessage_byte sc m1 p id payload len)
      rwa [frameBytes_length, bytesOf_length] at h
    have hc : (covered id (bytesOf payload len)).length = 3 + len := by
      rw [covered_length, bytesOf_length]
      omega
    have hd : ((frameBytes id (bytesOf payload len)).drop 2).take (3 + len) =
        covered id (bytesOf payload len) := by
      rw [← hc]
      simp [frameBytes]
    rw [hr, hd]
    have h5 : (frameBytes id (bytesOf payload len)).getD (5 + len) 0 =
        (fletcher (covered id (bytesOf payload len))).1 := by
      rw [frameBytes, List.getD_append_right _ _ _ _ (by simp [hc]; omega)]
      simp [hc]
      rw [show 5 + len - (3 + len + 2) = 0 by omega]
      rfl
    have h6 : (frameBytes id (bytesOf payload len)).getD (6 + len) 0 =
        (fletcher (covered id (bytesOf payload len))).2 := by
      rw [frameBytes, List.getD_append_right _ _ _ _ (by simp [hc]; omega)]
      simp [hc]
      rw [show 6 + len - (3 + len + 2) = 1 by omega]
      rfl
    rw [h5, h6]
  · obtain ⟨o, st, sv, ho, -, -, h1, h2, hout⟩ := outerb_frames E L m buff sol rb hn hrb
    have hp := parse_six _ _ _ _ _ _ sol.nSV (verPayload_length (gpstOf E sol))
      (posPayload_length E (gpstOf E sol) sol) h1 (dopsPayload_length E (gpstOf E sol) sol)
      (velPayload_length E (gpstOf E sol) sol) h2 hn
    rw [← hout] at hp
    refine ⟨o, _, ho, hp, rfl, ?_⟩
    intro f hf
    simp only [List.mem_cons, List.mem_singleton, List.not_mem_nil, or_false] at hf
    rcases hf with rfl | rfl | rfl | rfl | rfl | rfl <;> rfl

/-- C2 at a solution with two satellites. -/
theorem C2_checksum_witness :
    (sampleSol 0 2).nSV ≤ 32 ∧
    ((∀ (sc : Bool) (m1 : Mem) (p id : Nat) (payload : Nat → Nat) (len : Nat),
      fletcher ((((appendmessage sc m1 p id payload len).1.read p (len + 7)).drop 2).take
          (3 + len)) =
        (((appendmessage sc m1 p id payload len).1.read p (len + 7)).getD (5 + len) 0,
         ((appendmessage sc m1 p id payload len).1.read p (len + 7)).getD (6 + len) 0)) ∧
    ∃ o fs, outerb sampleEnv zeroLocals zeroMem 0 (sampleSol 0 2) (some sampleBase) = .ok o ∧
      parse (o.output 0) = some fs ∧ fs.length = 6 ∧
      ∀ f ∈ fs, fletcher f.region = (f.cka, f.ckb)) :=
  ⟨by decide, C2_checksum sampleEnv zeroLocals zeroMem 0 (sampleSol 0 2) (some sampleBase)
    (by decide) (fun _ h => Option.noConfusion h)⟩

/-- C3. For every message id (a byte), every length `L < 65536` and every
payload of bytes, `appendmessage` leaves at the cursor the bytes `0x45, 0x52, id,
L mod 256, L div 256`, the `L` payload bytes unchanged, then `cka, ckb` (the
checksum of the id, length and payload bytes), and moves the cursor forward by
`5 + L + 2 = L + 7`; the two length bytes decode, low plus 256 times high, to
`L`.  Zero bytes are written like any other. -/
theorem C3_frame_layout (sc : Bool) (m : Mem) (p id : Nat) (payload : Nat → Nat) (L : Nat)
    (hid : id < 256) (hL : L < 65536) (hpl : ∀ i, i < L → payload i < 256) :
    (appendmessage sc m p id payload L).1.read p (L + 7) =
        [0x45, 0x52, id, L % 256, L / 256] ++ (List.range L).map payload ++
          [(fletcher ([id, L % 256, L / 256] ++ (List.range L).map payload)).1,
           (fletcher ([id, L % 256, L / 256] ++ (List.range L).map payload)).2] ∧
      (appendmessage sc m p id payload L).2 = p + (5 + L + 2) ∧
      (appendmessage sc m p id payload L).2 = p + (L + 7) ∧
      ((appendmessage sc m p id payload L).1.read p (L + 7)).getD 3 0 +
        256 * ((appendmessage sc m p id payload L).1.read p (L + 7)).getD 4 0 = L := by
  have hr : (appendmessage sc m p id payload L).1.read p (L + 7) =
      frameBytes id (bytesOf payload L) := by
    have h := read_overlay (appendmessage sc m p id payload L).1 m.byte p
      (frameBytes id (bytesOf payload L)) [0] (appendmessage_byte sc m p id payload L)
    rwa [frameBytes_length, bytesOf_length] at h
  have hb : bytesOf payload L = (List.range L).map payload := by
    unfold bytesOf
    apply List.map_congr_left
    intro i hi
    exact Nat.mod_eq_of_lt (hpl i (List.mem_range.mp hi))
  have h1 : L / 256 % 256 = L / 256 := Nat.mod_eq_of_lt (by omega)
  have hf : frameBytes id (bytesOf payload L) =
      [0x45, 0x52, id, L % 256, L / 256] ++ (List.range L).map payload ++
        [(fletcher ([id, L % 256, L / 256] ++ (List.range L).map payload)).1,
         (fletcher ([id, L % 256, L / 256] ++ (List.range L).map payload)).2] := by
    rw [hb]
    simp [frameBytes, covered, ERB_SYNC_CHAR1, ERB_SYNC_CHAR2, Nat.mod_eq_of_lt hid, h1]
  rw [hr, hf, appendmessage_snd]
  refine ⟨rfl, by omega, by omega, ?_⟩
  simp only [List.cons_append, List.getD_cons_succ, List.getD_cons_zero]
  omega

/-- C3 at message id 0 with a payload of 256 zero bytes: the id byte, the low
length byte and every payload byte are zero. -/
theorem C3_frame_layout_witness :
    ((0 : Nat) < 256 ∧ (256 : Nat) < 65536 ∧ ∀ i, i < 256 → (fun _ : Nat => 0) i < 256) ∧
    ((appendmessage true zeroMem 0 0 (fun _ => 0) 256).1.read 0 (256 + 7) =
        [0x45, 0x52, 0, 256 % 256, 256 / 256] ++ (List.range 256).map (fun _ => 0) ++
          [(fletcher ([0, 256 % 256, 256 / 256] ++ (List.range 256).map (fun _ => 0))).1,
           (fletcher ([0, 256 % 256, 256 / 256] ++ (List.range 256).map (fun _ => 0))).2] ∧
      (appendmessage true zeroMem 0 0 (fun _ => 0) 256).2 = 0 + (5 + 256 + 2) ∧
      (appendmessage true zeroMem 0 0 (fun _ => 0) 256).2 = 0 + (256 + 7) ∧
      ((appendmessage true zeroMem 0 0 (fun _ => 0) 256).1.read 0 (256 + 7)).getD 3 0 +
        256 * ((appendmessage true zeroMem 0 0 (fun _ => 0) 256).1.read 0 (256 + 7)).getD 4 0 =
          256) :=
  ⟨⟨by decide, by decide, fun _ _ => by norm_num⟩,
   C3_frame_layout true zeroMem 0 0 (fun _ => 0) 256 (by decide) (by decide)
    (fun _ _ => by norm_num)⟩

/-- C4. For every buffer and every length, `calculatesum` returns the pair got
from `(0, 0)` by taking the bytes at the indices `2, ..., len - 1` in order, each
as its unsigned value, with `cka = (cka + byte) mod 256` and then
`ckb = (ckb + cka) mod 256`; the result does not depend on the bytes at the
indices 0 and 1, it is the same whether `char` is signed or unsigned, and it is
`(0, 0)` when `len <= 2`. -/
theorem C4_calculatesum (sc : Bool) (buff : Nat → Nat) (len : Int) :
    calculatesum sc buff len =
        fletcher ((List.range (len - 2).toNat).map fun k => buff (2 + k) % 256) ∧
      (∀ buff1 : Nat → Nat, (∀ i, 2 ≤ i → buff1 i = buff i) →
        calculatesum sc buff1 len = calculatesum sc buff len) ∧
      calculatesum true buff len = calculatesum false buff len ∧
      (len ≤ 2 → calculatesum sc buff len = (0, 0)) := by
  refine ⟨calculatesum_eq sc buff len, ?_, ?_, ?_⟩
  · intro buff1 h
    rw [calculatesum_eq, calculatesum_eq]
    congr 1
    apply List.map_congr_left
    intro k _
    rw [h (2 + k) (by omega)]
  · rw [calculatesum_eq, calculatesum_eq]
  · intro h
    rw [calculatesum_eq, show (len - 2).toNat = 0 by omega]
    rfl

/-- C5. For every solution with at most 32 satellites, the value `outerb` returns
is the number of bytes of the six frames,
`(7+7)+(44+7)+(37+7)+(12+7)+(28+7)+(5+20*nSV+7) = 175 + 20 * nSV`, the sum of
`Len + 7` over the frames found in the output, and it is the final cursor minus
the start of the buffer. -/
theorem C5_return_value (E : Env) (L : Locals) (m : Mem) (buff : Nat) (sol : sol_t)
    (rb : Option (Nat → ℚ)) (hn : sol.nSV ≤ 32) (hrb : sol.type = 0 → rb ≠ none) :
    ∃ o, outerb E L m buff sol rb = .ok o ∧
      o.ret = (7 + 7) + (44 + 7) + (37 + 7) + (12 + 7) + (28 + 7) + (5 + 20 * sol.nSV + 7) ∧
      o.ret = 175 + 20 * sol.nSV ∧
      o.ret = o.p - buff ∧ o.p = buff + o.ret ∧
      ∃ fs, parse (o.output buff) = some fs ∧ o.ret = (fs.map fun f => f.len + 7).sum := by
  obtain ⟨o, st, sv, ho, hret, hp, h1, h2, hout⟩ := outerb_frames E L m buff sol rb hn hrb
  have hq := parse_six _ _ _ _ _ _ sol.nSV (verPayload_length (gpstOf E sol))
    (posPayload_length E (gpstOf E sol) sol) h1 (dopsPayload_length E (gpstOf E sol) sol)
    (velPayload_length E (gpstOf E sol) sol) h2 hn
  rw [← hout] at hq
  refine ⟨o, ho, by omega, hret, by omega, hp, _, hq, ?_⟩
  simp only [List.map_cons, List.map_nil, List.sum_cons, List.sum_nil]
  omega

/-- C5 at a solution with 32 satellites: 815 bytes. -/
theorem C5_return_value_witness :
    (sampleSol 0 32).nSV ≤ 32 ∧
    ∃ o, outerb sampleEnv zeroLocals zeroMem 1000 (sampleSol 0 32) (some sampleBase) = .ok o ∧
      o.ret = (7 + 7) + (44 + 7) + (37 + 7) + (12 + 7) + (28 + 7) + (5 + 20 * 32 + 7) ∧
      o.ret = 175 + 20 * 32 ∧
      o.ret = o.p - 1000 ∧ o.p = 1000 + o.ret ∧
      ∃ fs, parse (o.output 1000) = some fs ∧ o.ret = (fs.map fun f => f.len + 7).sum :=
  ⟨by decide, C5_return_value sampleEnv zeroLocals zeroMem 1000 (sampleSol 0 32)
    (some sampleBase) (by decide) (fun _ h => Option.noConfusion h)⟩

/-- C6, refuted as stated: for a solution with 32 satellites `outerb` reports 815
bytes, more than 773, and stores at the offsets 773 and 814 of the buffer. -/
theorem C6_counterexample :
    ∃ o, outerb sampleEnv zeroLocals zeroMem 0 (sampleSol 0 32) (some sampleBase) = .ok o ∧
      o.ret = 815 ∧ 773 ∈ o.mem.log ∧ 814 ∈ o.mem.log := by
  obtain ⟨bs, -, hlen, ho⟩ := outerb_ok sampleEnv zeroLocals zeroMem 0 (sampleSol 0 32)
    (some sampleBase) (by decide) (fun _ h => Option.noConfusion h)
  refine ⟨_, ho, hlen, ?_, ?_⟩
  · exact List.mem_append_right _ ((mem_outerbLog 0 32 773).mpr (by decide))
  · exact List.mem_append_right _ ((mem_outerbLog 0 32 814).mpr (by decide))

/-- C6, amended.  The worst case of one call, 32 satellites, is
`7+44+37+12+28+5+32*20 + 6*7 = 815` reported bytes: the 773 payload bytes and
the six envelopes of 7 bytes.  For every solution with at most 32 satellites
`outerb` reports at most 815 bytes (exactly 815 for 32 satellites), stores only
at offsets below 816, and leaves every byte from offset 816 on as it was: a
buffer of 816 bytes is sufficient. -/
theorem C6_worst_case (E : Env) (L : Locals) (m : Mem) (buff : Nat) (sol : sol_t)
    (rb : Option (Nat → ℚ)) (hn : sol.nSV ≤ 32) (hrb : sol.type = 0 → rb ≠ none) :
    ∃ o, outerb E L m buff sol rb = .ok o ∧
      o.ret ≤ 7 + 44 + 37 + 12 + 28 + 5 + 32 * 20 + 6 * 7 ∧ o.ret ≤ 815 ∧
      (sol.nSV = 32 → o.ret = 815) ∧
      (∀ x ∈ o.mem.log, x ∈ m.log ∨ (buff ≤ x ∧ x < buff + 816)) ∧
      (∀ x, buff + 816 ≤ x → o.mem.byte x = m.byte x) := by
  obtain ⟨bs, -, hlen, ho⟩ := outerb_ok E L m buff sol rb hn hrb
  refine ⟨_, ho, ?_, ?_, ?_, ?_, ?_⟩
  · show bs.length ≤ _
    omega
  · show bs.length ≤ _
    omega
  · intro h
    show bs.length = _
    omega
  · intro x hx
    rcases List.mem_append.mp hx with h | h
    · exact Or.inl h
    · have := (mem_outerbLog buff sol.nSV x).mp h
      exact Or.inr (by omega)
  · intro x hx
    exact overlay_ge _ _ _ _ (by simp; omega)

/-- C6 amended, at a solution with 32 satellites. -/
theorem C6_worst_case_witness :
    (sampleSol 0 32).nSV ≤ 32 ∧
    ∃ o, outerb sampleEnv zeroLocals zeroMem 0 (sampleSol 0 32) (some sampleBase) = .ok o ∧
      o.ret ≤ 7 + 44 + 37 + 12 + 28 + 5 + 32 * 20 + 6 * 7 ∧ o.ret ≤ 815 ∧
      ((sampleSol 0 32).nSV = 32 → o.ret = 815) ∧
      (∀ x ∈ o.mem.log, x ∈ zeroMem.log ∨ (0 ≤ x ∧ x < 0 + 816)) ∧
      (∀ x, 0 + 816 ≤ x → o.mem.byte x = zeroMem.byte x) :=
  ⟨by decide, C6_worst_case sampleEnv zeroLocals zeroMem 0 (sampleSol 0 32) (some sampleBase)
    (by decide) (fun _ h => Option.noConfusion h)⟩

/-- C7, refuted as stated: for a solution with 33 satellites `outerb` returns no
error; the loop of `buildsvi` accesses the 32-record array at index 32. -/
theorem C7_counterexample :
    outerb sampleEnv zeroLocals zeroMem 0 (sampleSol 0 33) (some sampleBase) =
      .error (Fault.sviSatIndex 32) :=
  outerb_fault_svi sampleEnv zeroLocals zeroMem 0 (sampleSol 0 33) (some sampleBase)
    (fun _ h => Option.noConfusion h) (by decide)

/-- C7, amended.  `outerb` has no input-range error; a count of at most 32 is a
precondition it does not check.  For every solution with at most 32 satellites
the call completes, no access leaving the 32-record array, and the SAT-INFO frame
(at offset 163, id 6) has the length field `5 + 20 * nSV` and carries the
head with the count `nSV` followed by all `nSV` records: nothing is truncated. -/
theorem C7_within_capacity (E : Env) (L : Locals) (m : Mem) (buff : Nat) (sol : sol_t)
    (rb : Option (Nat → ℚ)) (hn : sol.nSV ≤ 32) (hrb : sol.type = 0 → rb ≠ none) :
    ∃ o fs, outerb E L m buff sol rb = .ok o ∧ parse (o.output buff) = some fs ∧
      ∃ f ∈ fs, f.offset = 163 ∧ f.id = 6 ∧ f.len = 5 + 20 * sol.nSV ∧
        f.region.drop 3 =
          (⟨gpstOf E sol % 2 ^ 32, sol.nSV % 256⟩ : erb_svi_head).bytes ++
            sviSatBytes (fun j => buildsvi.sat E sol (zeroLocals.sviSat j) j) sol.nSV ∧
        (f.region.drop 3).getD 4 0 = sol.nSV ∧
        (f.region.drop 3).length = 5 + 20 * sol.nSV := by
  obtain ⟨o, st, sv, ho, -, hsv, h1, h2, hout⟩ := outerb_output E L m buff sol rb hn hrb
  have hq := parse_six _ _ _ _ _ _ sol.nSV (verPayload_length (gpstOf E sol))
    (posPayload_length E (gpstOf E sol) sol) h1 (dopsPayload_length E (gpstOf E sol) sol)
    (velPayload_length E (gpstOf E sol) sol) h2 hn
  rw [← hout] at hq
  have hsv2 := sviPayload_ok E (gpstOf E sol) sol hn
  rw [hsv] at hsv2
  have hsv3 : sv = _ := Except.ok.inj hsv2
  refine ⟨o, _, ho, hq, _, List.mem_of_mem_getLast? rfl, rfl, rfl, rfl, ?_, ?_, ?_⟩
  · show (covered ID_SVI sv).drop 3 = _
    rw [← hsv3]
    rfl
  · show ((covered ID_SVI sv).drop 3).getD 4 0 = _
    rw [hsv3]
    simp [covered, erb_svi_head.bytes, le]
    omega
  · show ((covered ID_SVI sv).drop 3).length = _
    simp [covered, h2]

/-- C7 amended, at a solution with 32 satellites. -/
theorem C7_within_capacity_witness :
    (sampleSol 0 32).nSV ≤ 32 ∧
    ∃ o fs, outerb sampleEnv zeroLocals zeroMem 0 (sampleSol 0 32) (some sampleBase) = .ok o ∧
      parse (o.output 0) = some fs ∧
      ∃ f ∈ fs, f.offset = 163 ∧ f.id = 6 ∧ f.len = 5 + 20 * (sampleSol 0 32).nSV ∧
        f.region.drop 3 =
          (⟨gpstOf sampleEnv (sampleSol 0 32) % 2 ^ 32, (sampleSol 0 32).nSV % 256⟩ :
              erb_svi_head).bytes ++
            sviSatBytes (fun j => buildsvi.sat sampleEnv (sampleSol 0 32) (zeroLocals.sviSat j) j)
              (sampleSol 0 32).nSV ∧
        (f.region.drop 3).getD 4 0 = (sampleSol 0 32).nSV ∧
        (f.region.drop 3).length = 5 + 20 * (sampleSol 0 32).nSV :=
  ⟨by decide, C7_within_capacity sampleEnv zeroLocals zeroMem 0 (sampleSol 0 32)
    (some sampleBase) (by decide) (fun _ h => Option.noConfusion h)⟩

/-- C8, refuted as stated: for a solution with no satellite and a buffer with
room for 100 bytes, fewer than the 175 to be written, `outerb` reports no error:
it returns 175, has stored at the offsets 100 and 174, and has changed the byte
at offset 0. -/
theorem C8_counterexample :
    ∃ o, outerb sampleEnv zeroLocals zeroMem 0 (sampleSol 0 0) (some sampleBase) = .ok o ∧
      o.ret = 175 ∧ 100 < o.ret ∧ 100 ∈ o.mem.log ∧ 174 ∈ o.mem.log ∧
      o.mem.byte 0 = 0x45 ∧ zeroMem.byte 0 = 0 := by
  obtain ⟨bs, hbs, hlen, ho⟩ := outerb_ok sampleEnv zeroLocals zeroMem 0 (sampleSol 0 0)
    (some sampleBase) (by decide) (fun _ h => Option.noConfusion h)
  obtain ⟨st, sv, -, -, -, -, henc⟩ := encode_ok sampleEnv (sampleSol 0 0) (some sampleBase)
    (by decide) (fun _ h => Option.noConfusion h)
  rw [henc] at hbs
  have hbs2 := Except.ok.inj hbs
  refine ⟨_, ho, hlen, ?_, ?_, ?_, ?_, rfl⟩
  · show 100 < bs.length
    rw [hlen]
    decide
  · exact List.mem_append_right _ ((mem_outerbLog 0 0 100).mpr (by decide))
  · exact List.mem_append_right _ ((mem_outerbLog 0 0 174).mpr (by decide))
  · show overlay zeroMem.byte 0 (bs ++ [0]) 0 = 0x45
    have h := overlay_at zeroMem.byte 0 (bs ++ [0]) 0 (by simp)
    rw [Nat.add_zero] at h
    rw [h, ← hbs2]
    simp [frameBytes, ERB_SYNC_CHAR1]

/-- C8, amended.  `outerb` takes no capacity and reports no capacity error.  For
every solution with at most 32 satellites (and a base reference when the
solution is of type 0) it writes all six frames whatever room the buffer has: the
addresses it stores to are exactly those from the start of the buffer up to and
including the returned count. -/
theorem C8_unchecked_write (E : Env) (L : Locals) (m : Mem) (buff : Nat) (sol : sol_t)
    (rb : Option (Nat → ℚ)) (hn : sol.nSV ≤ 32) (hrb : sol.type = 0 → rb ≠ none) :
    ∃ o fs, outerb E L m buff sol rb = .ok o ∧ parse (o.output buff) = some fs ∧
      fs.length = 6 ∧ o.ret = 175 + 20 * sol.nSV ∧
      ∀ x, x ∈ o.mem.log ↔ x ∈ m.log ∨ (buff ≤ x ∧ x ≤ buff + o.ret) := by
  obtain ⟨o, st, sv, ho, -, -, h1, h2, hout⟩ := outerb_output E L m buff sol rb hn hrb
  have hq := parse_six _ _ _ _ _ _ sol.nSV (verPayload_length (gpstOf E sol))
    (posPayload_length E (gpstOf E sol) sol) h1 (dopsPayload_length E (gpstOf E sol) sol)
    (velPayload_length E (gpstOf E sol) sol) h2 hn
  rw [← hout] at hq
  obtain ⟨bs, -, hlen, ho2⟩ := outerb_ok E L m buff sol rb hn hrb
  rw [ho] at ho2
  have ho3 := Except.ok.inj ho2
  refine ⟨o, _, ho, hq, rfl, ?_, ?_⟩
  · rw [ho3]
    exact hlen
  · intro x
    rw [ho3]
    show x ∈ m.log ++ outerbLog buff sol.nSV ↔ x ∈ m.log ∨ (buff ≤ x ∧ x ≤ buff + bs.length)
    rw [List.mem_append, mem_outerbLog, hlen]

/-- C8 amended, at a solution with two satellites. -/
theorem C8_unchecked_write_witness :
    (sampleSol 0 2).nSV ≤ 32 ∧
    ∃ o fs, outerb sampleEnv zeroLocals zeroMem 0 (sampleSol 0 2) (some sampleBase) = .ok o ∧
      parse (o.output 0) = some fs ∧ fs.length = 6 ∧ o.ret = 175 + 20 * (sampleSol 0 2).nSV ∧
      ∀ x, x ∈ o.mem.log ↔ x ∈ zeroMem.log ∨ (0 ≤ x ∧ x ≤ 0 + o.ret) :=
  ⟨by decide, C8_unchecked_write sampleEnv zeroLocals zeroMem 0 (sampleSol 0 2)
    (some sampleBase) (by decide) (fun _ h => Option.noConfusion h)⟩

/-- C9, refuted as stated: for a solution of type 0 (xyz-ecef) and no base
reference, `outerb` does not complete: `buildstat` reads through the null
pointer. -/
theorem C9_counterexample :
    outerb sampleEnv zeroLocals zeroMem 0 (sampleSol 0 0) none = .error Fault.nullBase :=
  outerb_fault_null sampleEnv zeroLocals zeroMem 0 (sampleSol 0 0) rfl

/-- C9, amended.  For every solution that is not of type 0 (an enu-baseline
solution) with at most 32 satellites whose products `1000 * rr[1]`,
`1000 * rr[0]` and `-1000 * rr[2]` (the `double` products the code forms) are of
magnitude below `2^31`, so that their conversion to `int32_t` is defined,
`outerb` completes when the base reference is absent, and the three STATUS
baseline fields (payload bytes 12..23, at the offsets 82..93 of the buffer) are
the solution's own components in millimetres, truncated toward zero, as
little-endian two's-complement 32-bit integers: North from `rr[1]`, East from
`rr[0]`, Down from `-rr[2]`.  There is no sentinel; a solution of type 0 needs
the base reference. -/
theorem C9_absent_base (E : Env) (L : Locals) (m : Mem) (buff : Nat) (sol : sol_t)
    (hn : sol.nSV ≤ 32) (ht : sol.type ≠ 0)
    (hN : |E.rnd64 (1000 * sol.rr 1)| < 2 ^ 31) (hE : |E.rnd64 (1000 * sol.rr 0)| < 2 ^ 31)
    (hD : |E.rnd64 (-1000 * sol.rr 2)| < 2 ^ 31) :
    ∃ o, outerb E L m buff sol none = .ok o ∧
      o.mem.read (buff + 82) 12 =
        le 4 (wrap 32 (trunc (E.rnd64 (1000 * sol.rr 1)))) ++
        le 4 (wrap 32 (trunc (E.rnd64 (1000 * sol.rr 0)))) ++
        le 4 (wrap 32 (trunc (E.rnd64 (-1000 * sol.rr 2)))) ∧
      int32 (wrap 32 (trunc (E.rnd64 (1000 * sol.rr 1)))) = trunc (E.rnd64 (1000 * sol.rr 1)) ∧
      int32 (wrap 32 (trunc (E.rnd64 (1000 * sol.rr 0)))) = trunc (E.rnd64 (1000 * sol.rr 0)) ∧
      int32 (wrap 32 (trunc (E.rnd64 (-1000 * sol.rr 2)))) =
        trunc (E.rnd64 (-1000 * sol.rr 2)) := by
  obtain ⟨o, st, sv, ho, hst, -, -, -, h70, -, -, -⟩ :=
    outerb_payloads E L m buff sol none hn (fun h => absurd h ht)
  obtain ⟨st2, hst2, hb⟩ := statPayload_enu E (gpstOf E sol) (wrap 16 (E.time2gpst sol.time).2)
    sol none ht
  rw [hst] at hst2
  have hst3 := Except.ok.inj hst2
  have rN := trunc_abs_lt (E.rnd64 (1000 * sol.rr 1)) (2 ^ 31) (by push_cast; exact hN)
  have rE := trunc_abs_lt (E.rnd64 (1000 * sol.rr 0)) (2 ^ 31) (by push_cast; exact hE)
  have rD := trunc_abs_lt (E.rnd64 (-1000 * sol.rr 2)) (2 ^ 31) (by push_cast; exact hD)
  refine ⟨o, ho, ?_, int32_wrap _ (by omega) rN.2, int32_wrap _ (by omega) rE.2,
    int32_wrap _ (by omega) rD.2⟩
  have h := read_drop_take o.mem (buff + 70) 37 12 12 st h70 (by decide)
  rw [show buff + 70 + 12 = buff + 82 by omega, hst3, hb] at h
  exact h

/-- C9 amended, at an enu-baseline solution 1 m East, 2 m North and 3 m above
the base. -/
theorem C9_absent_base_witness :
    ((sampleSol 1 3).nSV ≤ 32 ∧ (sampleSol 1 3).type ≠ 0 ∧
      |sampleEnv.rnd64 (1000 * (sampleSol 1 3).rr 1)| < 2 ^ 31 ∧
      |sampleEnv.rnd64 (1000 * (sampleSol 1 3).rr 0)| < 2 ^ 31 ∧
      |sampleEnv.rnd64 (-1000 * (sampleSol 1 3).rr 2)| < 2 ^ 31) ∧
    ∃ o, outerb sampleEnv zeroLocals zeroMem 0 (sampleSol 1 3) none = .ok o ∧
      o.mem.read (0 + 82) 12 =
        le 4 (wrap 32 (trunc (sampleEnv.rnd64 (1000 * (sampleSol 1 3).rr 1)))) ++
        le 4 (wrap 32 (trunc (sampleEnv.rnd64 (1000 * (sampleSol 1 3).rr 0)))) ++
        le 4 (wrap 32 (trunc (sampleEnv.rnd64 (-1000 * (sampleSol 1 3).rr 2)))) ∧
      int32 (wrap 32 (trunc (sampleEnv.rnd64 (1000 * (sampleSol 1 3).rr 1)))) =
        trunc (sampleEnv.rnd64 (1000 * (sampleSol 1 3).rr 1)) ∧
      int32 (wrap 32 (trunc (sampleEnv.rnd64 (1000 * (sampleSol 1 3).rr 0)))) =
        trunc (sampleEnv.rnd64 (1000 * (sampleSol 1 3).rr 0)) ∧
      int32 (wrap 32 (trunc (sampleEnv.rnd64 (-1000 * (sampleSol 1 3).rr 2)))) =
        trunc (sampleEnv.rnd64 (-1000 * (sampleSol 1 3).rr 2)) :=
  have hN : |sampleEnv.rnd64 (1000 * (sampleSol 1 3).rr 1)| < 2 ^ 31 := by
    norm_num [sampleEnv, sampleSol, abs_lt]
  have hE : |sampleEnv.rnd64 (1000 * (sampleSol 1 3).rr 0)| < 2 ^ 31 := by
    norm_num [sampleEnv, sampleSol, abs_lt]
  have hD : |sampleEnv.rnd64 (-1000 * (sampleSol 1 3).rr 2)| < 2 ^ 31 := by
    norm_num [sampleEnv, sampleSol, abs_lt]
  ⟨⟨by decide, by decide, hN, hE, hD⟩,
   C9_absent_base sampleEnv zeroLocals zeroMem 0 (sampleSol 1 3) (by decide) (by decide)
    hN hE hD⟩

/-- C10. `outerb` is deterministic: for every solution and base reference, two
calls return the same count and report the same bytes, whatever the output
buffer held before and whatever the uninitialised locals (message structures,
scratch payload, satellite records) held; a call that faults does so in both. -/
theorem C10_deterministic (E : Env) (L1 L2 : Locals) (m1 m2 : Mem) (buff : Nat) (sol : sol_t)
    (rb : Option (Nat → ℚ)) :
    (outerb E L1 m1 buff sol rb).map (fun o => (o.ret, o.output buff)) =
      (outerb E L2 m2 buff sol rb).map (fun o => (o.ret, o.output buff)) := by
  rw [outerb_eq, outerb_eq]
  cases encode E sol rb with
  | error e => rfl
  | ok bs =>
    simp only [Except.map, output_eq]

/-- C11. For every solution (with at most 32 satellites and a base reference
when it is of type 0), STATUS payload byte 6, the fix type, is 1 when the
quality is SINGLE, 2 when FLOAT, 3 when FIX and 0 for every other quality, and
byte 7, the fix status, is 1 exactly when the fix type is not zero; quality NONE
gives the bytes 0, 0.  The quality constants of rtklib.h are taken as pairwise
different. -/
theorem C11_fix_bytes (E : Env) (L : Locals) (m : Mem) (buff : Nat) (sol : sol_t)
    (rb : Option (Nat → ℚ)) (hn : sol.nSV ≤ 32) (hrb : sol.type = 0 → rb ≠ none)
    (h12 : E.SOLQ_SINGLE ≠ E.SOLQ_FLOAT) (h13 : E.SOLQ_SINGLE ≠ E.SOLQ_FIX)
    (h23 : E.SOLQ_FLOAT ≠ E.SOLQ_FIX) (h01 : E.SOLQ_NONE ≠ E.SOLQ_SINGLE)
    (h02 : E.SOLQ_NONE ≠ E.SOLQ_FLOAT) (h03 : E.SOLQ_NONE ≠ E.SOLQ_FIX) :
    ∃ o, outerb E L m buff sol rb = .ok o ∧
      (sol.stat = E.SOLQ_SINGLE → o.mem.byte (buff + 76) = 1) ∧
      (sol.stat = E.SOLQ_FLOAT → o.mem.byte (buff + 76) = 2) ∧
      (sol.stat = E.SOLQ_FIX → o.mem.byte (buff + 76) = 3) ∧
      (sol.stat ≠ E.SOLQ_SINGLE ∧ sol.stat ≠ E.SOLQ_FLOAT ∧ sol.stat ≠ E.SOLQ_FIX →
        o.mem.byte (buff + 76) = 0) ∧
      o.mem.byte (buff + 77) = (if o.mem.byte (buff + 76) = 0 then 0 else 1) ∧
      (sol.stat = E.SOLQ_NONE → o.mem.read (buff + 76) 2 = [0, 0]) := by
  obtain ⟨o, st, ho, hst, h70⟩ := outerb_stat E L m buff sol rb hn hrb
  obtain ⟨enu, -, -, heq⟩ := statPayload_eq E _ _ sol rb st hst
  have h6 := read_getD o.mem (buff + 70) 37 6 st h70 (by decide)
  have h7 := read_getD o.mem (buff + 70) 37 7 st h70 (by decide)
  have h67 := read_drop_take o.mem (buff + 70) 37 6 2 st h70 (by decide)
  rw [show buff + 70 + 6 = buff + 76 by omega] at h6 h67
  rw [show buff + 70 + 7 = buff + 77 by omega] at h7
  rw [heq] at h6 h7 h67
  simp only [le, List.cons_append, List.nil_append, List.getD_cons_succ, List.getD_cons_zero,
    List.drop_succ_cons, List.drop_zero, List.take_succ_cons, List.take_zero] at h6 h7 h67
  refine ⟨o, ho, ?_, ?_, ?_, ?_, ?_, ?_⟩
  · intro h
    rw [h6, if_pos h]
  · intro h
    rw [h6, if_neg (by rw [h]; exact h12.symm), if_pos h]
  · intro h
    rw [h6, if_neg (by rw [h]; exact h13.symm), if_neg (by rw [h]; exact h23.symm), if_pos h]
  · rintro ⟨a, b, c⟩
    rw [h6, if_neg a, if_neg b, if_neg c]
  · rw [h6, h7]
    by_cases a : sol.stat = E.SOLQ_SINGLE
    · rw [if_pos a, if_pos a]
      rfl
    · by_cases b : sol.stat = E.SOLQ_FLOAT
      · rw [if_neg a, if_neg a, if_pos b, if_pos b]
        rfl
      · by_cases c : sol.stat = E.SOLQ_FIX
        · rw [if_neg a, if_neg a, if_neg b, if_neg b, if_pos c, if_pos c]
          rfl
        · rw [if_neg a, if_neg a, if_neg b, if_neg b, if_neg c, if_neg c]
          rfl
  · intro h
    rw [h67, if_neg (by rw [h]; exact h01), if_neg (by rw [h]; exact h02),
      if_neg (by rw [h]; exact h03), if_neg (by rw [h]; exact h01),
      if_neg (by rw [h]; exact h02), if_neg (by rw [h]; exact h03)]

/-- C11 at a solution of quality SINGLE, with the quality constants of RTKLIB. -/
theorem C11_fix_bytes_witness :
    ((sampleSol 0 2).nSV ≤ 32 ∧ sampleEnv.SOLQ_SINGLE ≠ sampleEnv.SOLQ_FLOAT ∧
      sampleEnv.SOLQ_SINGLE ≠ sampleEnv.SOLQ_FIX ∧ sampleEnv.SOLQ_FLOAT ≠ sampleEnv.SOLQ_FIX ∧
      sampleEnv.SOLQ_NONE ≠ sampleEnv.SOLQ_SINGLE ∧ sampleEnv.SOLQ_NONE ≠ sampleEnv.SOLQ_FLOAT ∧
      sampleEnv.SOLQ_NONE ≠ sampleEnv.SOLQ_FIX) ∧
    ∃ o, outerb sampleEnv zeroLocals zeroMem 0 (sampleSol 0 2) (some sampleBase) = .ok o ∧
      ((sampleSol 0 2).stat = sampleEnv.SOLQ_SINGLE → o.mem.byte (0 + 76) = 1) ∧
      ((sampleSol 0 2).stat = sampleEnv.SOLQ_FLOAT → o.mem.byte (0 + 76) = 2) ∧
      ((sampleSol 0 2).stat = sampleEnv.SOLQ_FIX → o.mem.byte (0 + 76) = 3) ∧
      ((sampleSol 0 2).stat ≠ sampleEnv.SOLQ_SINGLE ∧
        (sampleSol 0 2).stat ≠ sampleEnv.SOLQ_FLOAT ∧
        (sampleSol 0 2).stat ≠ sampleEnv.SOLQ_FIX → o.mem.byte (0 + 76) = 0) ∧
      o.mem.byte (0 + 77) = (if o.mem.byte (0 + 76) = 0 then 0 else 1) ∧
      ((sampleSol 0 2).stat = sampleEnv.SOLQ_NONE → o.mem.read (0 + 76) 2 = [0, 0]) :=
  ⟨⟨by decide, by decide, by decide, by decide, by decide, by decide, by decide⟩,
   C11_fix_bytes sampleEnv zeroLocals zeroMem 0 (sampleSol 0 2) (some sampleBase) (by decide)
    (fun _ h => Option.noConfusion h) (by decide) (by decide) (by decide) (by decide)
    (by decide) (by decide)⟩

/-- C12. For every solution whose quality is NONE or DEAD-RECKONING, whatever
its covariance, and for every solution whose three covariance diagonal entries
are all non-positive, whatever its quality, the horizontal and the vertical
accuracy fields of the POSITION payload (bytes 36..39 and 40..43) are both 0.
The floating arithmetic is taken to keep zero: zero rounds to zero and
`sqrt(0) = 0`. -/
theorem C12_accuracy_zero (E : Env) (L : Locals) (m : Mem) (buff : Nat) (sol : sol_t)
    (rb : Option (Nat → ℚ)) (hn : sol.nSV ≤ 32) (hrb : sol.type = 0 → rb ≠ none)
    (h32 : E.rnd32 0 = 0) (h64 : E.rnd64 0 = 0) (hsq : E.sqrt 0 = 0)
    (hq : sol.stat = E.SOLQ_NONE ∨ sol.stat = E.SOLQ_DR ∨
      (sol.qr 0 ≤ 0 ∧ sol.qr 1 ≤ 0 ∧ sol.qr 2 ≤ 0)) :
    ∃ o, outerb E L m buff sol rb = .ok o ∧
      o.mem.read (buff + 55) 4 = [0, 0, 0, 0] ∧ o.mem.read (buff + 59) 4 = [0, 0, 0, 0] := by
  obtain ⟨o, ho, -, h19, -, -⟩ := outerb_fixed E L m buff sol rb hn hrb
  have hx : ∀ k, k < 3 →
      (if sol.stat ≠ E.SOLQ_NONE ∧ sol.stat ≠ E.SOLQ_DR ∧ sol.qr k > 0 then sol.qr k else 0) =
        0 := by
    intro k hk
    apply if_neg
    rintro ⟨a, b, c⟩
    rcases hq with h | h | ⟨h0, h1, h2⟩
    · exact a h
    · exact b h
    · have : k = 0 ∨ k = 1 ∨ k = 2 := by omega
      rcases this with rfl | rfl | rfl
      · exact absurd c (not_lt.mpr h0)
      · exact absurd c (not_lt.mpr h1)
      · exact absurd c (not_lt.mpr h2)
  have hz : SQRT E 0 = 0 := by
    simp [SQRT, hsq]
  have ha := read_drop_take o.mem (buff + 19) 44 36 4 _ h19 (by decide)
  have hb := read_drop_take o.mem (buff + 19) 44 40 4 _ h19 (by decide)
  rw [show buff + 19 + 36 = buff + 55 by omega] at ha
  rw [show buff + 19 + 40 = buff + 59 by omega] at hb
  rw [posPayload_eq, hx 0 (by decide), hx 1 (by decide), hx 2 (by decide), add_zero, h32, hz,
    mul_zero, h64, trunc_zero, wrap_zero] at ha hb
  refine ⟨o, ho, ?_, ?_⟩
  · rw [ha]
    simp [le]
  · rw [hb]
    simp [le]

/-- C12 at a solution of quality NONE with positive covariance entries. -/
theorem C12_accuracy_zero_witness :
    (({ sampleSol 0 1 with stat := 0, qr := fun _ => 4 } : sol_t).nSV ≤ 32 ∧
      sampleEnv.rnd32 0 = 0 ∧ sampleEnv.rnd64 0 = 0 ∧ sampleEnv.sqrt 0 = 0 ∧
      (({ sampleSol 0 1 with stat := 0, qr := fun _ => 4 } : sol_t).stat = sampleEnv.SOLQ_NONE ∨
        ({ sampleSol 0 1 with stat := 0, qr := fun _ => 4 } : sol_t).stat = sampleEnv.SOLQ_DR ∨
        (({ sampleSol 0 1 with stat := 0, qr := fun _ => 4 } : sol_t).qr 0 ≤ 0 ∧
          ({ sampleSol 0 1 with stat := 0, qr := fun _ => 4 } : sol_t).qr 1 ≤ 0 ∧
          ({ sampleSol 0 1 with stat := 0, qr := fun _ => 4 } : sol_t).qr 2 ≤ 0))) ∧
    ∃ o, outerb sampleEnv zeroLocals zeroMem 0
        { sampleSol 0 1 with stat := 0, qr := fun _ => 4 } (some sampleBase) = .ok o ∧
      o.mem.read (0 + 55) 4 = [0, 0, 0, 0] ∧ o.mem.read (0 + 59) 4 = [0, 0, 0, 0] :=
  ⟨⟨by decide, rfl, rfl, by simp [sampleEnv, trunc], Or.inl rfl⟩,
   C12_accuracy_zero sampleEnv zeroLocals zeroMem 0
    { sampleSol 0 1 with stat := 0, qr := fun _ => 4 } (some sampleBase) (by decide)
    (fun _ h => Option.noConfusion h) rfl rfl (by simp [sampleEnv, trunc]) (Or.inl rfl)⟩

/-- C13, the code at a failing input.  With a correction age of 700 s, so that
`100 * age = 70000 >= 65535`, the STATUS correction-age field (payload bytes
10..11, buffer offsets 80..81) is not `0xFFFF`: the conversion of erb.c, line
221, has no clamp, and the field is `70000 mod 65536 = 4464`, the bytes
`0x70 0x11`. -/
theorem C13_age_not_saturated :
    ∃ o, outerb sampleEnv zeroLocals zeroMem 0 agedSol none = .ok o ∧
      o.mem.read 80 2 = le 2 4464 ∧ o.mem.read 80 2 = [0x70, 0x11] ∧
      o.mem.read 80 2 ≠ [0xFF, 0xFF] := by
  obtain ⟨o, ho, -, -, h80, -, -⟩ := outerb_stat_fields sampleEnv zeroLocals zeroMem 0
    agedSol none (by decide) (fun h => absurd h (by decide))
  have hv : wrap 16 (trunc (sampleEnv.rnd32 (100 * (700 : ℚ)))) = 4464 := by
    simp only [sampleEnv]
    norm_num [wrap, trunc]
    rfl
  rw [Nat.zero_add] at h80
  have h80b : o.mem.read 80 2 = le 2 4464 := by
    rw [h80]
    exact congrArg (le 2) hv
  refine ⟨o, ho, h80b, ?_, ?_⟩
  · rw [h80b]
    decide
  · rw [h80b]
    decide

/-- C14, the code at a failing input.  For a solution at second 100 of GPS week
2000 with correction age 0, the epoch-time field of the STATUS payload (bytes
0..3, buffer offsets 70..73) is 100000, the time of week in milliseconds, but
the last-baseline time-of-week field (bytes 28..31, offsets 98..101) is 100: the
assignment of erb.c, line 211, stores the seconds returned by `time2gpst`
without the factor 1000.  The two week fields (bytes 4..5 and 26..27) are both
2000. -/
theorem C14_base_time_in_seconds :
    ∃ o, outerb sampleEnv zeroLocals zeroMem 0 laterSol none = .ok o ∧
      o.mem.read 70 4 = le 4 100000 ∧ o.mem.read 98 4 = le 4 100 ∧
      o.mem.read 98 4 ≠ o.mem.read 70 4 ∧
      o.mem.read 74 2 = le 2 2000 ∧ o.mem.read 96 2 = le 2 2000 := by
  obtain ⟨o, ho, h70, h74, -, h96, h98⟩ := outerb_stat_fields sampleEnv zeroLocals zeroMem 0
    laterSol none (by decide) (fun h => absurd h (by decide))
  simp only [Nat.zero_add] at h70 h74 h96 h98
  have hg : gpstOf sampleEnv laterSol = 100000 := by
    simp only [gpstOf, sampleEnv, laterSol, sampleSol]
    norm_num [wrap, trunc, Int.tdiv]
    rfl
  have hw : wrap 16 (sampleEnv.time2gpst laterSol.time).2 = 2000 := by
    simp only [sampleEnv, laterSol, sampleSol]
    norm_num [wrap, Int.tdiv]
    rfl
  have hb : lastBaseline sampleEnv laterSol = laterSol.time := by
    simp only [lastBaseline, sampleEnv, laterSol, sampleSol]
    norm_num [trunc]
  have ht : wrap 32 (trunc (sampleEnv.time2gpst laterSol.time).1) = 100 := by
    simp only [sampleEnv, laterSol, sampleSol]
    norm_num [wrap, trunc, Int.tdiv]
    rfl
  rw [hg] at h70
  rw [hw] at h74
  rw [hb, hw] at h96
  rw [hb, ht] at h98
  refine ⟨o, ho, h70, h98, ?_, h74, h96⟩
  rw [h70, h98]
  decide

/-- C15. For every solution whose DOP array is `dop[0..3] = {geometric,
position, horizontal, vertical}` with each product `100 * dop[k]` (the `double`
product, as the code forms it) in `[0, 65536)`, the DOP payload carries after
the 4-byte epoch time, as little-endian unsigned 16-bit integers, the integer
parts of `100 * geometric` (bytes 4..5), `100 * position` (bytes 6..7),
`100 * vertical` from `dop[3]` (bytes 8..9) and `100 * horizontal` from `dop[2]`
(bytes 10..11); when all four DOPs are zero, bytes 4..11 are zero. -/
theorem C15_dops (E : Env) (L : Locals) (m : Mem) (buff : Nat) (sol : sol_t)
    (rb : Option (Nat → ℚ)) (hn : sol.nSV ≤ 32) (hrb : sol.type = 0 → rb ≠ none)
    (hr : ∀ k, k < 4 → 0 ≤ E.rnd64 (100 * sol.dop k) ∧ E.rnd64 (100 * sol.dop k) < 65536) :
    ∃ o, outerb E L m buff sol rb = .ok o ∧
      o.mem.read (buff + 114) 4 = le 4 (gpstOf E sol) ∧
      o.mem.read (buff + 118) 2 = le 2 (trunc (E.rnd64 (100 * sol.dop 0))).toNat ∧
      o.mem.read (buff + 120) 2 = le 2 (trunc (E.rnd64 (100 * sol.dop 1))).toNat ∧
      o.mem.read (buff + 122) 2 = le 2 (trunc (E.rnd64 (100 * sol.dop 3))).toNat ∧
      o.mem.read (buff + 124) 2 = le 2 (trunc (E.rnd64 (100 * sol.dop 2))).toNat ∧
      (∀ k, k < 4 → (trunc (E.rnd64 (100 * sol.dop k))).toNat < 65536) ∧
      (E.rnd64 0 = 0 → (∀ k, k < 4 → sol.dop k = 0) →
        o.mem.read (buff + 118) 8 = [0, 0, 0, 0, 0, 0, 0, 0]) := by
  obtain ⟨o, ho, -, -, h114, -⟩ := outerb_fixed E L m buff sol rb hn hrb
  have hw : ∀ k, k < 4 → wrap 16 (trunc (E.rnd64 (100 * sol.dop k))) =
      (trunc (E.rnd64 (100 * sol.dop k))).toNat := by
    intro k hk
    have h := trunc_range _ 65536 (hr k hk).1 (by exact_mod_cast (hr k hk).2)
    exact wrap_of_range 16 _ h.1 (by norm_num; exact h.2)
  have a0 := read_drop_take o.mem (buff + 114) 12 0 4 _ h114 (by decide)
  have a4 := read_drop_take o.mem (buff + 114) 12 4 2 _ h114 (by decide)
  have a6 := read_drop_take o.mem (buff + 114) 12 6 2 _ h114 (by decide)
  have a8 := read_drop_take o.mem (buff + 114) 12 8 2 _ h114 (by decide)
  have a10 := read_drop_take o.mem (buff + 114) 12 10 2 _ h114 (by decide)
  have a48 := read_drop_take o.mem (buff + 114) 12 4 8 _ h114 (by decide)
  rw [show buff + 114 + 0 = buff + 114 by omega] at a0
  rw [show buff + 114 + 4 = buff + 118 by omega] at a4 a48
  rw [show buff + 114 + 6 = buff + 120 by omega] at a6
  rw [show buff + 114 + 8 = buff + 122 by omega] at a8
  rw [show buff + 114 + 10 = buff + 124 by omega] at a10
  rw [dopsPayload_eq, hw 0 (by decide), hw 1 (by decide), hw 2 (by decide),
    hw 3 (by decide)] at a0 a4 a6 a8 a10 a48
  refine ⟨o, ho, ?_, ?_, ?_, ?_, ?_, ?_, ?_⟩
  · rw [a0]
    simp [le]
  · rw [a4]
    simp [le]
  · rw [a6]
    simp [le]
  · rw [a8]
    simp [le]
  · rw [a10]
    simp [le]
  · intro k hk
    have h := trunc_range _ 65536 (hr k hk).1 (by exact_mod_cast (hr k hk).2)
    omega
  · intro h0 hz
    rw [a48, hz 0 (by decide), hz 1 (by decide), hz 2 (by decide), hz 3 (by decide), mul_zero,
      h0, trunc_zero]
    simp [le]

/-- C15 at a solution with the DOPs 1.5, 1.2, 0.9 and 0.8. -/
theorem C15_dops_witness :
    (dopSol.nSV ≤ 32 ∧
      ∀ k, k < 4 → 0 ≤ sampleEnv.rnd64 (100 * dopSol.dop k) ∧
        sampleEnv.rnd64 (100 * dopSol.dop k) < 65536) ∧
    ∃ o, outerb sampleEnv zeroLocals zeroMem 0 dopSol (some sampleBase) = .ok o ∧
      o.mem.read (0 + 114) 4 = le 4 (gpstOf sampleEnv dopSol) ∧
      o.mem.read (0 + 118) 2 = le 2 (trunc (sampleEnv.rnd64 (100 * dopSol.dop 0))).toNat ∧
      o.mem.read (0 + 120) 2 = le 2 (trunc (sampleEnv.rnd64 (100 * dopSol.dop 1))).toNat ∧
      o.mem.read (0 + 122) 2 = le 2 (trunc (sampleEnv.rnd64 (100 * dopSol.dop 3))).toNat ∧
      o.mem.read (0 + 124) 2 = le 2 (trunc (sampleEnv.rnd64 (100 * dopSol.dop 2))).toNat ∧
      (∀ k, k < 4 → (trunc (sampleEnv.rnd64 (100 * dopSol.dop k))).toNat < 65536) ∧
      (sampleEnv.rnd64 0 = 0 → (∀ k, k < 4 → dopSol.dop k = 0) →
        o.mem.read (0 + 118) 8 = [0, 0, 0, 0, 0, 0, 0, 0]) :=
  have hr : ∀ k, k < 4 → 0 ≤ sampleEnv.rnd64 (100 * dopSol.dop k) ∧
      sampleEnv.rnd64 (100 * dopSol.dop k) < 65536 := by
    intro k hk
    interval_cases k <;> norm_num [sampleEnv, dopSol, sampleSol]
  ⟨⟨by decide, hr⟩,
   C15_dops sampleEnv zeroLocals zeroMem 0 dopSol (some sampleBase) (by decide)
    (fun _ h => Option.noConfusion h) hr⟩

/-- C17. For every solution whose velocity in the local frame is due East
(`vE > 0`, `vN = 0`), the VELOCITY heading field (payload bytes 20..23) is
`atan2(vE, vN)` in degrees times 1e5, that is 9,000,000: East is 90 degrees,
North is 0 and angles grow clockwise; for due North (`vE = 0`, `vN > 0`) the
field is 0.  Of the platform it is taken that `atan2(x, 0) * R2D` rounds to 90
for `x > 0`, that `atan2(0, y) = 0` for `y > 0`, and that 0 and 9,000,000 are
kept by the rounding. -/
theorem C17_heading (E : Env) (L : Locals) (m : Mem) (buff : Nat) (sol : sol_t)
    (rb : Option (Nat → ℚ)) (hn : sol.nSV ≤ 32) (hrb : sol.type = 0 → rb ≠ none)
    (hquarter : ∀ x : ℚ, 0 < x → E.rnd64 (E.atan2 x 0 * E.R2D) = 90)
    (hnorth : ∀ y : ℚ, 0 < y → E.atan2 0 y = 0)
    (h0 : E.rnd64 0 = 0) (h9 : E.rnd64 9000000 = 9000000) :
    ∃ o, outerb E L m buff sol rb = .ok o ∧
      (0 < E.ecef2enu (E.ecef2pos sol.rr) (fun i => sol.rr (3 + i)) 0 ∧
        E.ecef2enu (E.ecef2pos sol.rr) (fun i => sol.rr (3 + i)) 1 = 0 →
          o.mem.read (buff + 153) 4 = le 4 9000000 ∧ int32 9000000 = 90 * 100000) ∧
      (E.ecef2enu (E.ecef2pos sol.rr) (fun i => sol.rr (3 + i)) 0 = 0 ∧
        0 < E.ecef2enu (E.ecef2pos sol.rr) (fun i => sol.rr (3 + i)) 1 →
          o.mem.read (buff + 153) 4 = le 4 0) := by
  obtain ⟨o, ho, -, -, -, h133⟩ := outerb_fixed E L m buff sol rb hn hrb
  have hs : ∀ a b c d e f g : Nat,
      ((le 4 a ++ le 4 b ++ le 4 c ++ le 4 d ++ le 4 e ++ le 4 f ++ le 4 g).drop 20).take 4 =
        le 4 f := by
    intro a b c d e f g
    simp [le]
  have a20 := read_drop_take o.mem (buff + 133) 28 20 4 _ h133 (by decide)
  rw [show buff + 133 + 20 = buff + 153 by omega, velPayload_eq, hs] at a20
  refine ⟨o, ho, ?_, ?_⟩
  · rintro ⟨hE, hN⟩
    rw [hN, hquarter _ hE, show (90 : ℚ) * 100000 = 9000000 by norm_num, h9] at a20
    have hv : wrap 32 (trunc (9000000 : ℚ)) = 9000000 := by
      norm_num [wrap, trunc]
      rfl
    rw [hv] at a20
    exact ⟨a20, by decide⟩
  · rintro ⟨hE, hN⟩
    rw [hE, hnorth _ hN, zero_mul, h0, zero_mul, h0, trunc_zero, wrap_zero] at a20
    exact a20

/-- C17 at a solution moving due East at 1 m/s. -/
theorem C17_heading_witness :
    (eastSol.nSV ≤ 32 ∧
      (∀ x : ℚ, 0 < x → compassEnv.rnd64 (compassEnv.atan2 x 0 * compassEnv.R2D) = 90) ∧
      (∀ y : ℚ, 0 < y → compassEnv.atan2 0 y = 0) ∧
      compassEnv.rnd64 0 = 0 ∧ compassEnv.rnd64 9000000 = 9000000 ∧
      0 < compassEnv.ecef2enu (compassEnv.ecef2pos eastSol.rr) (fun i => eastSol.rr (3 + i)) 0 ∧
      compassEnv.ecef2enu (compassEnv.ecef2pos eastSol.rr) (fun i => eastSol.rr (3 + i)) 1 =
        0) ∧
    ∃ o, outerb compassEnv zeroLocals zeroMem 0 eastSol (some sampleBase) = .ok o ∧
      (0 < compassEnv.ecef2enu (compassEnv.ecef2pos eastSol.rr) (fun i => eastSol.rr (3 + i)) 0 ∧
        compassEnv.ecef2enu (compassEnv.ecef2pos eastSol.rr) (fun i => eastSol.rr (3 + i)) 1 =
          0 →
          o.mem.read (0 + 153) 4 = le 4 9000000 ∧ int32 9000000 = 90 * 100000) ∧
      (compassEnv.ecef2enu (compassEnv.ecef2pos eastSol.rr) (fun i => eastSol.rr (3 + i)) 0 =
          0 ∧
        0 < compassEnv.ecef2enu (compassEnv.ecef2pos eastSol.rr)
          (fun i => eastSol.rr (3 + i)) 1 →
          o.mem.read (0 + 153) 4 = le 4 0) :=
  have hq : ∀ x : ℚ, 0 < x → compassEnv.rnd64 (compassEnv.atan2 x 0 * compassEnv.R2D) = 90 := by
    intro x hx
    simp [compassEnv, sampleEnv, hx]
  have hnn : ∀ y : ℚ, 0 < y → compassEnv.atan2 0 y = 0 := by
    intro y hy
    simp only [compassEnv]
    rw [if_neg (fun h => lt_irrefl _ h.1)]
  ⟨⟨by decide, hq, hnn, rfl, rfl, by norm_num [compassEnv, sampleEnv, eastSol],
      by norm_num [compassEnv, sampleEnv, eastSol]⟩,
   C17_heading compassEnv zeroLocals zeroMem 0 eastSol (some sampleBase) (by decide)
    (fun _ h => Option.noConfusion h) hq hnn rfl rfl⟩

/-- C18. For every solution of type enu-baseline (`type != 0`) whose components
`rr[0..2] = (East, North, Up)` in metres give products `1000 * rr[k]` (the
`double` products) of magnitude below `2^31`, the STATUS baseline fields are
North `= trunc(1000 * rr[1])` at payload bytes 12..15, East
`= trunc(1000 * rr[0])` at bytes 16..19 and Down `= trunc(-1000 * rr[2])
= -trunc(1000 * rr[2])` at bytes 20..23, each a little-endian two's-complement
32-bit integer, where `trunc` rounds toward zero: `-0.0015 m` gives `-1`.  The
rounding to `double` is taken to commute with negation, as round-to-nearest
does. -/
theorem C18_enu_baseline (E : Env) (L : Locals) (m : Mem) (buff : Nat) (sol : sol_t)
    (rb : Option (Nat → ℚ)) (hn : sol.nSV ≤ 32) (ht : sol.type ≠ 0)
    (hodd : ∀ x, E.rnd64 (-x) = -E.rnd64 x)
    (hr : ∀ k, k < 3 → |E.rnd64 (1000 * sol.rr k)| < 2 ^ 31) :
    ∃ o, outerb E L m buff sol rb = .ok o ∧
      o.mem.read (buff + 82) 4 = le 4 (wrap 32 (trunc (E.rnd64 (1000 * sol.rr 1)))) ∧
      o.mem.read (buff + 86) 4 = le 4 (wrap 32 (trunc (E.rnd64 (1000 * sol.rr 0)))) ∧
      o.mem.read (buff + 90) 4 = le 4 (wrap 32 (-trunc (E.rnd64 (1000 * sol.rr 2)))) ∧
      int32 (wrap 32 (trunc (E.rnd64 (1000 * sol.rr 1)))) = trunc (E.rnd64 (1000 * sol.rr 1)) ∧
      int32 (wrap 32 (trunc (E.rnd64 (1000 * sol.rr 0)))) = trunc (E.rnd64 (1000 * sol.rr 0)) ∧
      int32 (wrap 32 (-trunc (E.rnd64 (1000 * sol.rr 2)))) =
        -trunc (E.rnd64 (1000 * sol.rr 2)) ∧
      trunc (E.rnd64 (-1000 * sol.rr 2)) = -trunc (E.rnd64 (1000 * sol.rr 2)) ∧
      trunc (1000 * (-15 / 10000)) = -1 := by
  obtain ⟨o, st, ho, hst, h70⟩ := outerb_stat E L m buff sol rb hn (fun h => absurd h ht)
  obtain ⟨enu, he, -, heq⟩ := statPayload_eq E _ _ sol rb st hst
  have hdown : trunc (E.rnd64 (-1000 * sol.rr 2)) = -trunc (E.rnd64 (1000 * sol.rr 2)) := by
    rw [show (-1000 : ℚ) * sol.rr 2 = -(1000 * sol.rr 2) by ring, hodd, trunc_neg]
  have a12 := read_drop_take o.mem (buff + 70) 37 12 4 st h70 (by decide)
  have a16 := read_drop_take o.mem (buff + 70) 37 16 4 st h70 (by decide)
  have a20 := read_drop_take o.mem (buff + 70) 37 20 4 st h70 (by decide)
  rw [show buff + 70 + 12 = buff + 82 by omega] at a12
  rw [show buff + 70 + 16 = buff + 86 by omega] at a16
  rw [show buff + 70 + 20 = buff + 90 by omega] at a20
  rw [heq, he ht] at a12 a16 a20
  have r0 := trunc_abs_lt _ (2 ^ 31) (by exact_mod_cast hr 0 (by decide))
  have r1 := trunc_abs_lt _ (2 ^ 31) (by exact_mod_cast hr 1 (by decide))
  have r2 := trunc_abs_lt _ (2 ^ 31) (by exact_mod_cast hr 2 (by decide))
  refine ⟨o, ho, ?_, ?_, ?_, ?_, ?_, ?_, hdown, ?_⟩
  · rw [a12]
    simp [le]
  · rw [a16]
    simp [le]
  · rw [a20, ← hdown]
    simp [le]
  · exact int32_wrap _ (by omega) r1.2
  · exact int32_wrap _ (by omega) r0.2
  · exact int32_wrap _ (by omega) (by omega)
  · norm_num [trunc]
    rfl

/-- C18 at a solution 1.5 mm South, 2.5 mm East and 0.5 mm above the base. -/
theorem C18_enu_baseline_witness :
    (nearSol.nSV ≤ 32 ∧ nearSol.type ≠ 0 ∧ (∀ x, sampleEnv.rnd64 (-x) = -sampleEnv.rnd64 x) ∧
      ∀ k, k < 3 → |sampleEnv.rnd64 (1000 * nearSol.rr k)| < 2 ^ 31) ∧
    ∃ o, outerb sampleEnv zeroLocals zeroMem 0 nearSol none = .ok o ∧
      o.mem.read (0 + 82) 4 = le 4 (wrap 32 (trunc (sampleEnv.rnd64 (1000 * nearSol.rr 1)))) ∧
      o.mem.read (0 + 86) 4 = le 4 (wrap 32 (trunc (sampleEnv.rnd64 (1000 * nearSol.rr 0)))) ∧
      o.mem.read (0 + 90) 4 =
        le 4 (wrap 32 (-trunc (sampleEnv.rnd64 (1000 * nearSol.rr 2)))) ∧
      int32 (wrap 32 (trunc (sampleEnv.rnd64 (1000 * nearSol.rr 1)))) =
        trunc (sampleEnv.rnd64 (1000 * nearSol.rr 1)) ∧
      int32 (wrap 32 (trunc (sampleEnv.rnd64 (1000 * nearSol.rr 0)))) =
        trunc (sampleEnv.rnd64 (1000 * nearSol.rr 0)) ∧
      int32 (wrap 32 (-trunc (sampleEnv.rnd64 (1000 * nearSol.rr 2)))) =
        -trunc (sampleEnv.rnd64 (1000 * nearSol.rr 2)) ∧
      trunc (sampleEnv.rnd64 (-1000 * nearSol.rr 2)) =
        -trunc (sampleEnv.rnd64 (1000 * nearSol.rr 2)) ∧
      trunc (1000 * (-15 / 10000)) = -1 :=
  have hr : ∀ k, k < 3 → |sampleEnv.rnd64 (1000 * nearSol.rr k)| < 2 ^ 31 := by
    intro k hk
    interval_cases k <;> norm_num [sampleEnv, nearSol, sampleSol, abs_lt]
  ⟨⟨by decide, by decide, fun _ => rfl, hr⟩,
   C18_enu_baseline sampleEnv zeroLocals zeroMem 0 nearSol none (by decide) (by decide)
    (fun _ => rfl) hr⟩

/-- C19. For every solution, the first four payload bytes of all six frames
written by one call of `outerb` are the same: each is the little-endian unsigned
32-bit encoding of the one value `gpst`, the truncated product of the time of
week of the solution epoch and 1000, derived once at the start of the call; and
STATUS payload bytes 4..5 hold the GPS week of that same epoch. -/
theorem C19_shared_epoch (E : Env) (L : Locals) (m : Mem) (buff : Nat) (sol : sol_t)
    (rb : Option (Nat → ℚ)) (hn : sol.nSV ≤ 32) (hrb : sol.type = 0 → rb ≠ none) :
    ∃ o, outerb E L m buff sol rb = .ok o ∧
      gpstOf E sol = wrap 32 (trunc (E.rnd64 ((E.time2gpst sol.time).1 * 1000))) ∧
      o.mem.read (buff + 5) 4 = le 4 (gpstOf E sol) ∧
      o.mem.read (buff + 19) 4 = le 4 (gpstOf E sol) ∧
      o.mem.read (buff + 70) 4 = le 4 (gpstOf E sol) ∧
      o.mem.read (buff + 114) 4 = le 4 (gpstOf E sol) ∧
      o.mem.read (buff + 133) 4 = le 4 (gpstOf E sol) ∧
      o.mem.read (buff + 168) 4 = le 4 (gpstOf E sol) ∧
      o.mem.read (buff + 74) 2 = le 2 (wrap 16 (E.time2gpst sol.time).2) := by
  obtain ⟨o, st, sv, ho, hst, hsv, h5, h19, h70, h114, h133, h168⟩ :=
    outerb_payloads E L m buff sol rb hn hrb
  obtain ⟨enu, -, -, heq⟩ := statPayload_eq E _ _ sol rb st hst
  have hsv2 := sviPayload_ok E (gpstOf E sol) sol hn
  rw [hsv] at hsv2
  have hsv3 : sv = _ := Except.ok.inj hsv2
  have a5 := read_drop_take o.mem (buff + 5) 7 0 4 _ h5 (by decide)
  have a19 := read_drop_take o.mem (buff + 19) 44 0 4 _ h19 (by decide)
  have a70 := read_drop_take o.mem (buff + 70) 37 0 4 _ h70 (by decide)
  have a74 := read_drop_take o.mem (buff + 70) 37 4 2 _ h70 (by decide)
  have a114 := read_drop_take o.mem (buff + 114) 12 0 4 _ h114 (by decide)
  have a133 := read_drop_take o.mem (buff + 133) 28 0 4 _ h133 (by decide)
  have a168 := read_drop_take o.mem (buff + 168) (5 + 20 * sol.nSV) 0 4 _ h168 (by omega)
  rw [Nat.add_zero] at a5 a19 a70 a114 a133 a168
  rw [show buff + 70 + 4 = buff + 74 by omega] at a74
  refine ⟨o, ho, rfl, ?_, ?_, ?_, ?_, ?_, ?_, ?_⟩
  · rw [a5, verPayload_eq]
    simp [le]
  · rw [a19, posPayload_eq]
    simp [le]
  · rw [a70, heq]
    simp [le]
  · rw [a114, dopsPayload_eq]
    simp [le]
  · rw [a133, velPayload_eq]
    simp [le]
  · rw [a168, hsv3]
    simp only [erb_svi_head.bytes, le_four_mod]
    simp [le]
  · rw [a74, heq]
    simp [le]

/-- C19 at a solution at second 100 of GPS week 2000. -/
theorem C19_shared_epoch_witness :
    laterSol.nSV ≤ 32 ∧
    ∃ o, outerb sampleEnv zeroLocals zeroMem 0 laterSol none = .ok o ∧
      gpstOf sampleEnv laterSol =
        wrap 32 (trunc (sampleEnv.rnd64 ((sampleEnv.time2gpst laterSol.time).1 * 1000))) ∧
      o.mem.read (0 + 5) 4 = le 4 (gpstOf sampleEnv laterSol) ∧
      o.mem.read (0 + 19) 4 = le 4 (gpstOf sampleEnv laterSol) ∧
      o.mem.read (0 + 70) 4 = le 4 (gpstOf sampleEnv laterSol) ∧
      o.mem.read (0 + 114) 4 = le 4 (gpstOf sampleEnv laterSol) ∧
      o.mem.read (0 + 133) 4 = le 4 (gpstOf sampleEnv laterSol) ∧
      o.mem.read (0 + 168) 4 = le 4 (gpstOf sampleEnv laterSol) ∧
      o.mem.read (0 + 74) 2 = le 2 (wrap 16 (sampleEnv.time2gpst laterSol.time).2) :=
  ⟨by decide, C19_shared_epoch sampleEnv zeroLocals zeroMem 0 laterSol none (by decide)
    (fun h => absurd h (by decide))⟩

/-- C20. For every frame produced by `appendmessage` and every single-byte
corruption of its checksummed region (the id byte, either length byte or any
payload byte replaced by a different byte value, all other bytes kept), the
checksum recomputed over the corrupted region differs from the stored pair
`(cka, ckb)`: every one-byte error in the covered region is detected. -/
theorem C20_single_byte_error (sc : Bool) (m : Mem) (p id : Nat) (payload : Nat → Nat)
    (n i b : Nat) (hi : i < 3 + n) (hb : b < 256)
    (hne : b ≠ ((((appendmessage sc m p id payload n).1.read p (n + 7)).drop 2).take
      (3 + n)).getD i 0) :
    fletcher (((((appendmessage sc m p id payload n).1.read p (n + 7)).drop 2).take
        (3 + n)).set i b) ≠
      (((appendmessage sc m p id payload n).1.read p (n + 7)).getD (5 + n) 0,
       ((appendmessage sc m p id payload n).1.read p (n + 7)).getD (6 + n) 0) := by
  obtain ⟨-, hd, h5, h6⟩ := appendmessage_parts sc m p id payload n
  rw [hd] at hne ⊢
  rw [h5, h6]
  have hlen : (covered id (bytesOf payload n)).length = 3 + n := by
    rw [covered_length, bytesOf_length]
    omega
  have hil : i < (covered id (bytesOf payload n)).length := by omega
  have hlt : (covered id (bytesOf payload n)).getD i 0 < 256 := by
    rw [List.getD_eq_getElem _ _ hil]
    exact covered_lt id payload n _ (List.getElem_mem _)
  exact fletcher_set_ne _ i b hil hb hlt hne

/-- C20 at a frame with a payload of four bytes, its second payload byte
replaced by 7. -/
theorem C20_single_byte_error_witness :
    ((4 : Nat) < 3 + 4 ∧ (7 : Nat) < 256 ∧
      7 ≠ ((((appendmessage true zeroMem 0 3 (fun k => k + 1) 4).1.read 0 (4 + 7)).drop 2).take
        (3 + 4)).getD 4 0) ∧
    fletcher (((((appendmessage true zeroMem 0 3 (fun k => k + 1) 4).1.read 0 (4 + 7)).drop
        2).take (3 + 4)).set 4 7) ≠
      (((appendmessage true zeroMem 0 3 (fun k => k + 1) 4).1.read 0 (4 + 7)).getD (5 + 4) 0,
       ((appendmessage true zeroMem 0 3 (fun k => k + 1) 4).1.read 0 (4 + 7)).getD (6 + 4) 0) :=
  ⟨⟨by decide, by decide, by decide⟩,
   C20_single_byte_error true zeroMem 0 3 (fun k => k + 1) 4 4 7 (by decide) (by decide)
    (by decide)⟩

/-- C21. For every buffer checked by `calculatesum` and every pair of adjacent
cells at indices `i`, `i + 1` of the covered region `[2, len)` that hold
different byte values, the checksum of the buffer with the two cells exchanged
has the same `cka` and a different `ckb`, so the pair changes.  For every frame
`appendmessage` writes, the checksum over the frame in memory is the pair of its
last two bytes, and over the frame with two adjacent bytes of its id, length and
payload region (frame offsets `2 .. Len + 4`) exchanged, the two bytes being
different, it is not that pair: the transposition is detected. -/
theorem C21_adjacent_transposition (sc rc : Bool) (buff : Nat → Nat) (len : Int) (i : Nat)
    (m : Mem) (p id : Nat) (payload : Nat → Nat) (n j : Nat)
    (hi : 2 ≤ i) (hlen : (i : Int) + 1 < len) (hne : buff i % 256 ≠ buff (i + 1) % 256)
    (hj : 2 ≤ j) (hjn : j + 1 < n + 5)
    (hfr : (appendmessage sc m p id payload n).1.byte (p + j) ≠
      (appendmessage sc m p id payload n).1.byte (p + (j + 1))) :
    ((calculatesum sc (exchange buff i) len).1 = (calculatesum sc buff len).1 ∧
      (calculatesum sc (exchange buff i) len).2 ≠ (calculatesum sc buff len).2 ∧
      calculatesum sc (exchange buff i) len ≠ calculatesum sc buff len) ∧
    (calculatesum rc (fun k => (appendmessage sc m p id payload n).1.byte (p + k))
          ((n : Int) + 5) =
        ((appendmessage sc m p id payload n).1.byte (p + (n + 5)),
         (appendmessage sc m p id payload n).1.byte (p + (n + 6))) ∧
      calculatesum rc (exchange (fun k => (appendmessage sc m p id payload n).1.byte (p + k)) j)
          ((n : Int) + 5) ≠
        ((appendmessage sc m p id payload n).1.byte (p + (n + 5)),
         (appendmessage sc m p id payload n).1.byte (p + (n + 6)))) := by
  obtain ⟨h1, h2⟩ := calculatesum_exchange sc buff len i hi hlen hne
  obtain ⟨hlt, hck⟩ := appendmessage_check sc rc m p id payload n
  refine ⟨⟨h1, h2, fun h => h2 (congrArg Prod.snd h)⟩, hck, ?_⟩
  have hne2 : (appendmessage sc m p id payload n).1.byte (p + j) % 256 ≠
      (appendmessage sc m p id payload n).1.byte (p + (j + 1)) % 256 := by
    rw [Nat.mod_eq_of_lt (hlt j (by omega)), Nat.mod_eq_of_lt (hlt (j + 1) (by omega))]
    exact hfr
  obtain ⟨-, h4⟩ := calculatesum_exchange rc
    (fun k => (appendmessage sc m p id payload n).1.byte (p + k)) ((n : Int) + 5) j hj
    (by omega) hne2
  rw [← hck]
  exact fun h => h4 (congrArg Prod.snd h)

/-- C21 at a buffer holding its own indices with the cells 3 and 4 exchanged,
and at a frame with the payload 1, 2, 3, 4 with its first two payload bytes
(frame offsets 5 and 6) exchanged. -/
theorem C21_adjacent_transposition_witness :
    (2 ≤ 3 ∧ ((3 : Nat) : Int) + 1 < 6 ∧
      (fun k : Nat => k) 3 % 256 ≠ (fun k : Nat => k) (3 + 1) % 256 ∧
      2 ≤ 5 ∧ 5 + 1 < 4 + 5 ∧
      (appendmessage true zeroMem 0 3 (fun k => k + 1) 4).1.byte (0 + 5) ≠
        (appendmessage true zeroMem 0 3 (fun k => k + 1) 4).1.byte (0 + (5 + 1))) ∧
    (((calculatesum true (exchange (fun k => k) 3) 6).1 = (calculatesum true (fun k => k) 6).1 ∧
      (calculatesum true (exchange (fun k => k) 3) 6).2 ≠ (calculatesum true (fun k => k) 6).2 ∧
      calculatesum true (exchange (fun k => k) 3) 6 ≠ calculatesum true (fun k => k) 6) ∧
    (calculatesum false
          (fun k => (appendmessage true zeroMem 0 3 (fun k => k + 1) 4).1.byte (0 + k))
          (((4 : Nat) : Int) + 5) =
        ((appendmessage true zeroMem 0 3 (fun k => k + 1) 4).1.byte (0 + (4 + 5)),
         (appendmessage true zeroMem 0 3 (fun k => k + 1) 4).1.byte (0 + (4 + 6))) ∧
      calculatesum false
          (exchange (fun k => (appendmessage true zeroMem 0 3 (fun k => k + 1) 4).1.byte (0 + k))
            5)
          (((4 : Nat) : Int) + 5) ≠
        ((appendmessage true zeroMem 0 3 (fun k => k + 1) 4).1.byte (0 + (4 + 5)),
         (appendmessage true zeroMem 0 3 (fun k => k + 1) 4).1.byte (0 + (4 + 6))))) :=
  ⟨⟨by decide, by decide, by decide, by decide, by decide, by decide⟩,
   C21_adjacent_transposition true false (fun k => k) 6 3 zeroMem 0 3 (fun k => k + 1) 4 5
    (by decide) (by decide) (by decide) (by decide) (by decide) (by decide)⟩

/-- C22. For every solution that is not of type 0 (an enu-baseline solution),
`outerb` does not use the base reference: for any two base references, present
or absent, the two calls have the same result, and with at most 32 satellites
both complete with the same outcome (the same count, the same memory, the same
stores).  For every solution with at most 32 satellites, of type 0 in
particular, and any two base references that are present, the two calls return
the same count and leave the same memory except at the offsets 82..93 of the
buffer (STATUS payload bytes 12..23, the three baseline fields) and 107, 108
(the two checksum bytes of the STATUS frame). -/
theorem C22_base_reference (E : Env) (L : Locals) (m : Mem) (buff : Nat) (sol sol0 : sol_t)
    (rb1 rb2 : Option (Nat → ℚ)) (b1 b2 : Nat → ℚ)
    (ht : sol.type ≠ 0) (hn0 : sol0.nSV ≤ 32) :
    (outerb E L m buff sol rb1 = outerb E L m buff sol rb2 ∧
      (sol.nSV ≤ 32 →
        ∃ o, outerb E L m buff sol rb1 = .ok o ∧ outerb E L m buff sol rb2 = .ok o)) ∧
    ∃ o1 o2, outerb E L m buff sol0 (some b1) = .ok o1 ∧
      outerb E L m buff sol0 (some b2) = .ok o2 ∧
      o1.ret = o2.ret ∧ o1.p = o2.p ∧ o1.mem.log = o2.mem.log ∧
      ∀ x, (x < buff + 82 ∨ buff + 94 ≤ x) → x ≠ buff + 107 → x ≠ buff + 108 →
        o1.mem.byte x = o2.mem.byte x := by
  constructor
  · refine ⟨outerb_enu E L m buff sol rb1 rb2 ht, fun hn => ?_⟩
    obtain ⟨bs, -, -, ho⟩ := outerb_ok E L m buff sol rb1 hn (fun h => absurd h ht)
    exact ⟨_, ho, by rw [← outerb_enu E L m buff sol rb1 rb2 ht, ho]⟩
  · obtain ⟨X, B, Z, lg, n, hX, hB, hall⟩ := outerb_ecef E L m buff sol0 hn0
    obtain ⟨M1, C1, o1, hM1, hC1, ho1, hr1, hp1, hlg1, hlen1, hb1⟩ := hall b1
    obtain ⟨M2, C2, o2, hM2, hC2, ho2, hr2, hp2, hlg2, hlen2, hb2⟩ := hall b2
    refine ⟨o1, o2, ho1, ho2, by rw [hr1, hr2], by rw [hp1, hp2], by rw [hlg1, hlg2], ?_⟩
    intro x hx h107 h108
    rw [hb1, hb2]
    simp only [overlay, hlen1, hlen2]
    split
    · rename_i hin
      rw [getD_patch X M1 M2 (B ++ C1 ++ Z) (x - buff) (by rw [hM1, hM2])
          (by rw [hX, hM1]; omega),
        show X ++ M2 ++ (B ++ C1 ++ Z) = X ++ M2 ++ B ++ C1 ++ Z by
          simp only [List.append_assoc],
        show X ++ M2 ++ (B ++ C2 ++ Z) = X ++ M2 ++ B ++ C2 ++ Z by
          simp only [List.append_assoc]]
      exact getD_patch (X ++ M2 ++ B) C1 C2 Z (x - buff) (by rw [hC1, hC2])
        (by simp only [List.length_append, hX, hM2, hB, hC1]; omega)
    · rfl

/-- C22 at an enu-baseline solution with an absent and a present base reference,
and at a solution of type 0 with two base references. -/
theorem C22_base_reference_witness :
    ((sampleSol 1 3).type ≠ 0 ∧ (sampleSol 0 2).nSV ≤ 32) ∧
    ((outerb sampleEnv zeroLocals zeroMem 0 (sampleSol 1 3) none =
        outerb sampleEnv zeroLocals zeroMem 0 (sampleSol 1 3) (some sampleBase) ∧
      ((sampleSol 1 3).nSV ≤ 32 →
        ∃ o, outerb sampleEnv zeroLocals zeroMem 0 (sampleSol 1 3) none = .ok o ∧
          outerb sampleEnv zeroLocals zeroMem 0 (sampleSol 1 3) (some sampleBase) = .ok o)) ∧
    ∃ o1 o2, outerb sampleEnv zeroLocals zeroMem 0 (sampleSol 0 2) (some sampleBase) = .ok o1 ∧
      outerb sampleEnv zeroLocals zeroMem 0 (sampleSol 0 2) (some fun _ => 1) = .ok o2 ∧
      o1.ret = o2.ret ∧ o1.p = o2.p ∧ o1.mem.log = o2.mem.log ∧
      ∀ x, (x < 0 + 82 ∨ 0 + 94 ≤ x) → x ≠ 0 + 107 → x ≠ 0 + 108 →
        o1.mem.byte x = o2.mem.byte x) :=
  ⟨⟨by decide, by decide⟩,
   C22_base_reference sampleEnv zeroLocals zeroMem 0 (sampleSol 1 3) (sampleSol 0 2) none
    (some sampleBase) sampleBase (fun _ => 1) (by decide) (by decide)⟩

/-- C23. For every solution with at most 32 satellites (and a base reference
when it is of type 0), `outerb` returns `n = 175 + 20 * nSV` and stores to the
buffer exactly at the offsets `0, ..., n`, the offset `n` included: its last
three stores are those of the final `sprintf`, the two checksum bytes at the
offsets `n - 2` and `n - 1` and the terminating zero byte at the offset `n`, one
past the reported length, where the memory then holds 0.  The buffer therefore
has to hold `n + 1 = 176 + 20 * nSV` bytes, 816 for 32 satellites.  Every byte
at an offset greater than `n`, and every byte before the buffer, is left as it
was. -/
theorem C23_terminator (E : Env) (L : Locals) (m : Mem) (buff : Nat) (sol : sol_t)
    (rb : Option (Nat → ℚ)) (hn : sol.nSV ≤ 32) (hrb : sol.type = 0 → rb ≠ none) :
    ∃ o stores pre, outerb E L m buff sol rb = .ok o ∧
      o.ret = 175 + 20 * sol.nSV ∧
      o.mem.log = m.log ++ stores ∧
      (∀ x, x ∈ stores ↔ buff ≤ x ∧ x ≤ buff + o.ret) ∧
      stores = pre ++ [buff + o.ret - 2, buff + o.ret - 1, buff + o.ret] ∧
      o.mem.byte (buff + o.ret) = 0 ∧
      (∀ x, buff + o.ret < x → o.mem.byte x = m.byte x) ∧
      (∀ x, x < buff → o.mem.byte x = m.byte x) ∧
      o.ret + 1 = 176 + 20 * sol.nSV ∧ (sol.nSV = 32 → o.ret + 1 = 816) := by
  obtain ⟨bs, -, hlen, ho⟩ := outerb_ok E L m buff sol rb hn hrb
  obtain ⟨pre, hpre⟩ := outerbLog_end buff sol.nSV
  refine ⟨_, outerbLog buff sol.nSV, pre, ho, hlen, rfl, ?_, ?_, ?_, ?_, ?_, ?_, ?_⟩
  · intro x
    show _ ↔ buff ≤ x ∧ x ≤ buff + bs.length
    rw [mem_outerbLog, hlen]
  · show _ = pre ++ [buff + bs.length - 2, buff + bs.length - 1, buff + bs.length]
    rw [hlen]
    exact hpre
  · show overlay m.byte buff (bs ++ [0]) (buff + bs.length) = 0
    rw [overlay_at _ _ _ _ (by simp), List.getD_append_right _ _ _ _ (le_refl _)]
    simp
  · intro x hx
    exact overlay_ge _ _ _ _ (by
      have h : buff + bs.length < x := hx
      simp only [List.length_append, List.length_cons, List.length_nil]
      omega)
  · intro x hx
    exact overlay_lt _ _ _ _ hx
  · show bs.length + 1 = _
    omega
  · intro h
    show bs.length + 1 = _
    omega

/-- C23 at a solution with 32 satellites and a buffer at address 1000. -/
theorem C23_terminator_witness :
    ((sampleSol 0 32).nSV ≤ 32 ∧ ((sampleSol 0 32).type = 0 → some sampleBase ≠ none)) ∧
    ∃ o stores pre,
      outerb sampleEnv zeroLocals zeroMem 1000 (sampleSol 0 32) (some sampleBase) = .ok o ∧
      o.ret = 175 + 20 * (sampleSol 0 32).nSV ∧
      o.mem.log = zeroMem.log ++ stores ∧
      (∀ x, x ∈ stores ↔ 1000 ≤ x ∧ x ≤ 1000 + o.ret) ∧
      stores = pre ++ [1000 + o.ret - 2, 1000 + o.ret - 1, 1000 + o.ret] ∧
      o.mem.byte (1000 + o.ret) = 0 ∧
      (∀ x, 1000 + o.ret < x → o.mem.byte x = zeroMem.byte x) ∧
      (∀ x, x < 1000 → o.mem.byte x = zeroMem.byte x) ∧
      o.ret + 1 = 176 + 20 * (sampleSol 0 32).nSV ∧
      ((sampleSol 0 32).nSV = 32 → o.ret + 1 = 816) :=
  ⟨⟨by decide, fun _ h => Option.noConfusion h⟩,
   C23_terminator sampleEnv zeroLocals zeroMem 1000 (sampleSol 0 32) (some sampleBase)
    (by decide) (fun _ h => Option.noConfusion h)⟩

end ERB

namespace IERS

/-! ## The table reads of `step2diu_` -/

set_option maxRecDepth 10000 in
theorem datdi_length : datdi.length = 279 := rfl

theorem datdiAt_ok (P : Libm) (k : Int) (reads : List Int) (h : 0 ≤ k ∧ k < 279) :
    datdiAt P k reads = .ok (⟨P.rnd (datdi.getD k.toNat 0)⟩, reads ++ [k]) := by
  rw [datdiAt, if_pos h]

/-- For a counter from 1 to 31 the body reads the table inside its bounds. -/
theorem body_ok (P : Libm) (tau s h__ p zns ps deg2rad sinphi cosphi zla cosla sinla : Dbl P)
    (j : Int) (xcorsta : Int → Dbl P) (h1 : 1 ≤ j) (h31 : j ≤ 31) :
    ∃ x, step2diu.body P tau s h__ p zns ps deg2rad sinphi cosphi zla cosla sinla j xcorsta [] =
      .ok (x, bodyReads j) := by
  simp only [step2diu.body, bind, StateT.bind, Except.bind, pure, StateT.pure, Except.pure,
    datdiAt_ok P (j * 9 - 9) _ (by omega), datdiAt_ok P (j * 9 - 8) _ (by omega),
    datdiAt_ok P (j * 9 - 7) _ (by omega), datdiAt_ok P (j * 9 - 6) _ (by omega),
    datdiAt_ok P (j * 9 - 5) _ (by omega), datdiAt_ok P (j * 9 - 4) _ (by omega),
    datdiAt_ok P (j * 9 - 3) _ (by omega), datdiAt_ok P (j * 9 - 2) _ (by omega),
    datdiAt_ok P (j * 9 - 1) _ (by omega)]
  exact ⟨_, rfl⟩

theorem pass_ok (P : Libm) (tau s h__ p zns ps deg2rad sinphi cosphi zla cosla sinla : Dbl P)
    (j : Int) (r : Run P) (h1 : 1 ≤ j) (h31 : j ≤ 31) :
    ∃ x, step2diu.pass P tau s h__ p zns ps deg2rad sinphi cosphi zla cosla sinla j r =
      .ok { xcorsta := x, passes := r.passes ++ [(j, bodyReads j)] } := by
  obtain ⟨x, hx⟩ := body_ok P tau s h__ p zns ps deg2rad sinphi cosphi zla cosla sinla j
    r.xcorsta h1 h31
  exact ⟨x, by rw [step2diu.pass, hx]⟩

theorem forLoop_le {σ : Type} (hi : Int) (body : Int → σ → Except Trap σ) (i : Int) (s s1 : σ)
    (h : i ≤ hi) (hb : body i s = .ok s1) :
    forLoop hi body i s = forLoop hi body (i + 1) s1 := by
  rw [forLoop, if_pos h, hb]

theorem forLoop_gt {σ : Type} (hi : Int) (body : Int → σ → Except Trap σ) (i : Int) (s : σ)
    (h : hi < i) : forLoop hi body i s = .ok s := by
  rw [forLoop, if_neg (by omega)]

/-- A loop whose body completes and keeps an invariant completes, after the pass
for `hi`, with the invariant at `hi + 1`. -/
theorem forLoop_inv {σ : Type} (hi : Int) (body : Int → σ → Except Trap σ)
    (Inv : Int → σ → Prop)
    (hstep : ∀ i s, i ≤ hi → Inv i s → ∃ s1, body i s = .ok s1 ∧ Inv (i + 1) s1)
    (n : Nat) (i : Int) (s : σ) (hn : (hi + 1 - i).toNat = n) (hi1 : i ≤ hi + 1)
    (h0 : Inv i s) : ∃ s1, forLoop hi body i s = .ok s1 ∧ Inv (hi + 1) s1 := by
  induction n generalizing i s with
  | zero =>
    obtain rfl : i = hi + 1 := by omega
    exact ⟨s, forLoop_gt hi body _ s (by omega), h0⟩
  | succ n ih =>
    have hle : i ≤ hi := by omega
    obtain ⟨s1, hb, hinv⟩ := hstep i s hle h0
    obtain ⟨s2, h2, hinv2⟩ := ih (i + 1) s1 (by omega) (by omega) hinv
    exact ⟨s2, by rw [forLoop_le hi body i s s1 hle hb, h2], hinv2⟩

/-- The main loop of `step2diu_`: the passes it makes. -/
theorem mainLoop_ok (P : Libm) (tau s h__ p zns ps deg2rad sinphi cosphi zla cosla sinla : Dbl P)
    (x : Int → Dbl P) :
    ∃ r, forLoop 31 (step2diu.pass P tau s h__ p zns ps deg2rad sinphi cosphi zla cosla sinla) 1
        { xcorsta := x, passes := [] } = .ok r ∧
      r.passes = (List.range 31).map fun i : Nat => ((i : Int) + 1, bodyReads ((i : Int) + 1)) := by
  obtain ⟨r, hr, -, hinv⟩ := forLoop_inv 31
    (step2diu.pass P tau s h__ p zns ps deg2rad sinphi cosphi zla cosla sinla)
    (fun j r => 1 ≤ j ∧ r.passes =
      (List.range (j - 1).toNat).map fun i : Nat => ((i : Int) + 1, bodyReads ((i : Int) + 1)))
    (by
      rintro j r hj ⟨h1, hp⟩
      obtain ⟨x1, hx1⟩ := pass_ok P tau s h__ p zns ps deg2rad sinphi cosphi zla cosla sinla j r
        h1 hj
      refine ⟨_, hx1, by omega, ?_⟩
      show r.passes ++ [(j, bodyReads j)] = _
      rw [show (j + 1 - 1).toNat = (j - 1).toNat + 1 by omega, List.range_succ, List.map_append,
        ← hp, List.map_singleton, show (((j - 1).toNat : Nat) : Int) + 1 = j by omega])
    31 1 { xcorsta := x, passes := [] } (by decide) (by decide) ⟨le_refl _, rfl⟩
  exact ⟨r, hr, hinv⟩

/-- A loop whose body always completes, completes. -/
theorem forLoop_total {σ : Type} (hi : Int) (f : Int → σ → σ) (i : Int) (s : σ)
    (hi1 : i ≤ hi + 1) : ∃ s1, forLoop hi (fun k x => .ok (f k x)) i s = .ok s1 := by
  obtain ⟨s1, h, -⟩ := forLoop_inv hi (fun k x => .ok (f k x)) (fun _ _ => True)
    (fun k x _ _ => ⟨f k x, rfl, trivial⟩) _ i s rfl hi1 trivial
  exact ⟨s1, h⟩

/-- A call of `step2diu_` completes, returns 0, and its main loop makes the 31
passes for `j = 1, ..., 31`. -/
theorem step2diu_ok (P : Libm) (xsta : Int → Dbl P) (fhr t : Dbl P) (xcorsta : Int → Dbl P) :
    ∃ r, step2diu_ P xsta fhr t xcorsta = .ok r ∧ r.ret = 0 ∧
      r.passes = (List.range 31).map fun i : Nat => ((i : Int) + 1, bodyReads ((i : Int) + 1)) := by
  obtain ⟨x0, h0⟩ := forLoop_total 3 (fun i__ (x : Int → Dbl P) => assign x i__ 0) 1 xcorsta
    (by decide)
  simp only [step2diu_, bind, Except.bind, pure, Except.pure, h0]
  obtain ⟨r, hr, hp⟩ := mainLoop_ok P _ _ _ _ _ _ _ _ _ _ _ _ x0
  rw [hr]
  simp only
  obtain ⟨x1, h1⟩ := forLoop_total 3
    (fun i__ (x : Int → Dbl P) => assign x i__ (x i__ / 1e3)) 1 r.xcorsta (by decide)
  rw [h1]
  exact ⟨_, rfl, rfl, hp⟩

/-! ## Claim -/

/-- C24. In `step2diu_` every access to the constant table `datdi` stays inside
its 279 entries.  For every input the call completes without a read outside the
table and returns 0; its main loop makes exactly 31 passes, for
`j = 1, ..., 31` in this order; the pass for `j` reads the table exactly at the
nine indices `j*9-9, ..., j*9-1`, all of them between 0 and 278; and every
entry of the table, at an index `k` from 0 to 278, is read by exactly one pass,
the pass for `j = k / 9 + 1`: each row of nine values belongs to one pass. -/
theorem C24_datdi_bounds (P : Libm) (xsta : Int → Dbl P) (fhr t : Dbl P)
    (xcorsta : Int → Dbl P) :
    datdi.length = 279 ∧
    ∃ r, step2diu_ P xsta fhr t xcorsta = .ok r ∧ r.ret = 0 ∧
      r.passes.length = 31 ∧
      r.passes.map Prod.fst = (List.range 31).map (fun i : Nat => (i : Int) + 1) ∧
      (∀ e ∈ r.passes, 1 ≤ e.1 ∧ e.1 ≤ 31 ∧
        (∀ k, k ∈ e.2 ↔ e.1 * 9 - 9 ≤ k ∧ k ≤ e.1 * 9 - 1) ∧
        (∀ k ∈ e.2, 0 ≤ k ∧ k ≤ 278 ∧ k.toNat < datdi.length)) ∧
      (∀ k : Int, 0 ≤ k → k ≤ 278 →
        (∃! e, e ∈ r.passes ∧ k ∈ e.2) ∧ ∀ e ∈ r.passes, (k ∈ e.2 ↔ e.1 = k / 9 + 1)) := by
  obtain ⟨r, hr, hret, hp⟩ := step2diu_ok P xsta fhr t xcorsta
  have hmem : ∀ e, e ∈ r.passes ↔
      ∃ i : Nat, i < 31 ∧ e = ((i : Int) + 1, bodyReads ((i : Int) + 1)) := by
    intro e
    rw [hp]
    simp only [List.mem_map, List.mem_range]
    constructor
    · rintro ⟨i, hi, rfl⟩
      exact ⟨i, hi, rfl⟩
    · rintro ⟨i, hi, rfl⟩
      exact ⟨i, hi, rfl⟩
  have hreads : ∀ j k : Int, k ∈ bodyReads j ↔ j * 9 - 9 ≤ k ∧ k ≤ j * 9 - 1 := by
    intro j k
    simp only [bodyReads, List.mem_cons, List.mem_singleton, List.not_mem_nil, or_false]
    omega
  refine ⟨datdi_length, r, hr, hret, ?_, ?_, ?_, ?_⟩
  · rw [hp, List.length_map, List.length_range]
  · rw [hp, List.map_map]
    rfl
  · intro e he
    obtain ⟨i, hi, rfl⟩ := (hmem e).mp he
    refine ⟨by show (1 : Int) ≤ (i : Int) + 1; omega, by show (i : Int) + 1 ≤ 31; omega,
      fun k => hreads _ k, ?_⟩
    intro k hk
    have h := (hreads _ k).mp hk
    rw [datdi_length]
    omega
  · intro k h0 h278
    have hall : ∀ e ∈ r.passes, (k ∈ e.2 ↔ e.1 = k / 9 + 1) := by
      intro e he
      obtain ⟨i, hi, rfl⟩ := (hmem e).mp he
      show k ∈ bodyReads ((i : Int) + 1) ↔ (i : Int) + 1 = k / 9 + 1
      rw [hreads]
      omega
    refine ⟨⟨(k / 9 + 1, bodyReads (k / 9 + 1)), ⟨?_, ?_⟩, ?_⟩, hall⟩
    · exact (hmem _).mpr ⟨(k / 9).toNat, by omega, by
        rw [show (((k / 9).toNat : Nat) : Int) = k / 9 by omega]⟩
    · show k ∈ bodyReads (k / 9 + 1)
      rw [hreads]
      omega
    · rintro e ⟨he, hk⟩
      have h1 := (hall e he).mp hk
      obtain ⟨i, hi, rfl⟩ := (hmem e).mp he
      have h2 : (i : Int) + 1 = k / 9 + 1 := h1
      rw [h2]

end IERS
